import Mathlib

/-!
# kubeckup: export pipeline and sync pipeline

A shallow embedding of the decision logic of `code/backup/main.go`
(resource filtering, namespace selection, skip rule, sanitizer, object keys)
and of `code/git-sync/main.go` (download pass, repository merge, commit and
push).

Go strings are modelled by Lean strings (valid UTF-8 text), slices by lists,
`map[string]T` by association lists read with a first-match lookup.
The Go standard library's `strings.EqualFold` is not part of the repository:
every function that calls it takes it as the parameter `equalFold`.
`equalFoldASCII` is its behaviour on ASCII text and is used to evaluate
concrete examples. The cluster API, the object store, the file system and
the version-control tool are parameters as well: the answers they give, or
a function that runs one command in a state.
-/

set_option autoImplicit false

namespace Kubeckup

/-! ## Strings -/

/-- The Go test `strings.Contains(s, string(c))` for a one-character needle. -/
def containsChar (s : String) (c : Char) : Bool :=
  decide (c ∈ s.data)

/-- Splitting a character list at every occurrence of `sep`; an input of
`n` separators gives `n + 1` pieces, as `strings.Split` does. -/
def splitChars (sep : Char) : List Char → List (List Char)
  | [] => [[]]
  | c :: cs =>
    if c = sep then [] :: splitChars sep cs
    else
      match splitChars sep cs with
      | [] => [[c]]
      | p :: ps => (c :: p) :: ps

/-- The Go call `strings.Split(s, string(sep))` for a one-character separator. -/
def split (s : String) (sep : Char) : List String :=
  (splitChars sep s.data).map String.mk

/-- One step of the ASCII path of `strings.EqualFold`: the two runes are
equal, or the smaller one is an upper-case letter and the larger one is the
same letter in lower case (`'a' - 'A' = 32`). -/
def foldEqChar (sr tr : Char) : Bool :=
  if tr = sr then true
  else
    let lo := min sr.toNat tr.toNat
    let hi := max sr.toNat tr.toNat
    decide (65 ≤ lo) && decide (lo ≤ 90) && decide (hi = lo + 32)

/-- Rune-wise comparison used by `equalFoldASCII`. -/
def foldEqChars : List Char → List Char → Bool
  | [], [] => true
  | a :: as, b :: bs => foldEqChar a b && foldEqChars as bs
  | _, _ => false

/-- The behaviour of `strings.EqualFold` on ASCII text. -/
def equalFoldASCII (s t : String) : Bool :=
  foldEqChars s.data t.data

/-- The Go predicate `unicode.IsSpace`, which `strings.TrimSpace` uses. -/
def isSpace (c : Char) : Bool :=
  let n := c.toNat
  decide (9 ≤ n ∧ n ≤ 13) || n == 32 || n == 0x85 || n == 0xA0 || n == 0x1680 ||
    decide (0x2000 ≤ n ∧ n ≤ 0x200A) || n == 0x2028 || n == 0x2029 || n == 0x202F ||
    n == 0x205F || n == 0x3000

/-- The Go function `strings.TrimSpace`. -/
def trimSpace (s : String) : String :=
  String.mk ((s.data.dropWhile isSpace).reverse.dropWhile isSpace).reverse

/-- The Go test `strings.HasPrefix(s, string(c))` for a one-character prefix. -/
def hasPrefixChar (s : String) (c : Char) : Bool :=
  match s.data with
  | [] => false
  | d :: _ => d == c

/-! ## Maps -/

/-- The Go map read `m[key]` with its presence flag: the value bound to
`key`, if any. -/
def getKey {α : Type} (m : List (String × α)) (key : String) : Option α :=
  match m with
  | [] => none
  | (k, v) :: rest => if k = key then some v else getKey rest key

/-- The Go statement `delete(m, key)`. -/
def deleteKey {α : Type} (m : List (String × α)) (key : String) : List (String × α) :=
  match m with
  | [] => []
  | (k, v) :: rest => if k = key then deleteKey rest key else (k, v) :: deleteKey rest key

/-- A change of the value bound to `key`, the other bindings staying as they
are; it models a mutation of a nested map through a reference to it. -/
def setKey {α : Type} (m : List (String × α)) (key : String) (v : α) : List (String × α) :=
  match m with
  | [] => []
  | (k, w) :: rest => if k = key then (k, v) :: rest else (k, w) :: setKey rest key v

/-- Whether `key` is bound in `m`. -/
def hasKey {α : Type} (m : List (String × α)) (key : String) : Bool :=
  (getKey m key).isSome

/-! ## Data model -/

/-- The fields of `metav1.APIResource` that the program reads. -/
structure APIResource where
  Name : String
  Namespaced : Bool := true
  Kind : String := ""
  Group : String := ""
  Version : String := ""
  Verbs : List String := []
  deriving DecidableEq, Repr

/-- The Go struct `BackupConfig`. -/
structure BackupConfig where
  FilteringMode : String
  IncludeResources : List String
  ExcludeResources : List String
  IncludeNamespaces : List String
  ExcludeNamespaces : List String
  IncludeCRDs : List String
  LabelSelector : String
  AnnotationSelector : String
  MaxResourceSize : String
  FollowOwnerReferences : Bool
  IncludeManagedFields : Bool
  IncludeStatus : Bool
  OpenShiftMode : String
  IncludeOpenShiftRes : Bool
  ValidateYAML : Bool
  SkipInvalidResources : Bool
  deriving DecidableEq, Repr

/-! ## Resource catalog filter -/

/-- The Go function `containsVerb`. -/
def containsVerb (verbs : List String) (verb : String) : Bool :=
  match verbs with
  | [] => false
  | v :: vs => if v = verb then true else containsVerb vs verb

/-- The loop shared by `isInIncludeList` and `isInExcludeList`: the first
entry that folds to the short or to the full name ends it with `true`. -/
def matchLoop (equalFold : String → String → Bool)
    (resourceName resourceFullName : String) : List String → Bool
  | [] => false
  | entry :: rest =>
    if equalFold resourceName entry || equalFold resourceFullName entry then true
    else matchLoop equalFold resourceName resourceFullName rest

/-- The method `isInIncludeList`. -/
def isInIncludeList (equalFold : String → String → Bool) (cfg : BackupConfig)
    (resourceName resourceFullName : String) : Bool :=
  matchLoop equalFold resourceName resourceFullName cfg.IncludeResources

/-- The method `isInExcludeList`. -/
def isInExcludeList (equalFold : String → String → Bool) (cfg : BackupConfig)
    (resourceName resourceFullName : String) : Bool :=
  matchLoop equalFold resourceName resourceFullName cfg.ExcludeResources

/-- The first statement block of `shouldIncludeResource`: the name that is
compared besides the short name. -/
def resourceFullName (name groupVersion : String) : String :=
  if containsChar groupVersion '/' then
    let groupPart := (split groupVersion '/').headD ""
    if groupPart ≠ "" then name ++ "." ++ groupPart else name
  else name

/-- The method `shouldIncludeResource`. -/
def shouldIncludeResource (equalFold : String → String → Bool) (cfg : BackupConfig)
    (resource : APIResource) (groupVersion : String) : Bool :=
  let full := resourceFullName resource.Name groupVersion
  if !containsVerb resource.Verbs "list" || containsChar resource.Name '/' then false
  else if cfg.FilteringMode = "whitelist" then
    isInIncludeList equalFold cfg resource.Name full
  else if cfg.FilteringMode = "blacklist" then
    !isInExcludeList equalFold cfg resource.Name full
  else if cfg.FilteringMode = "hybrid" then
    if cfg.IncludeResources.length > 0 then
      if !isInIncludeList equalFold cfg resource.Name full then false
      else !isInExcludeList equalFold cfg resource.Name full
    else !isInExcludeList equalFold cfg resource.Name full
  else !isInExcludeList equalFold cfg resource.Name full

/-- The API group of a group-version string in the words of the
specification: the text before the first `/`, present only when the string
has a `/` and that text is not empty. -/
def apiGroupOf (groupVersion : String) : Option String :=
  if '/' ∈ groupVersion.data ∧ groupVersion.data.takeWhile (fun c => c ≠ '/') ≠ [] then
    some (String.mk (groupVersion.data.takeWhile (fun c => c ≠ '/')))
  else none

/-- An entry names a descriptor, in the words of the specification: the
entry case-insensitively equals the short name, or the qualified name
`shortName + "." + group` when the group-version string carries a group. -/
def matchesEntry (equalFold : String → String → Bool) (name groupVersion entry : String) :
    Bool :=
  equalFold name entry ||
    match apiGroupOf groupVersion with
    | some group => equalFold (name ++ "." ++ group) entry
    | none => false

/-- A configuration with empty lists and all switches off; examples set the
fields they need. -/
def emptyConfig : BackupConfig :=
  { FilteringMode := "", IncludeResources := [], ExcludeResources := [],
    IncludeNamespaces := [], ExcludeNamespaces := [], IncludeCRDs := [],
    LabelSelector := "", AnnotationSelector := "", MaxResourceSize := "",
    FollowOwnerReferences := false, IncludeManagedFields := false,
    IncludeStatus := false, OpenShiftMode := "", IncludeOpenShiftRes := false,
    ValidateYAML := false, SkipInvalidResources := false }

/-! ## Catalog filter: example inputs -/

/-- The descriptor `deployments` of the group `apps`, listable. -/
def deploymentsResource : APIResource :=
  { Name := "deployments", Kind := "Deployment", Verbs := ["get", "list", "watch"] }

/-- The core descriptor `pods`, listable. -/
def podsResource : APIResource :=
  { Name := "pods", Kind := "Pod", Verbs := ["get", "list", "watch"] }

/-- The core descriptor `nodes`, listable. -/
def nodesResource : APIResource :=
  { Name := "nodes", Kind := "Node", Namespaced := false, Verbs := ["get", "list", "watch"] }

/-- The subresource `pods/log`, which has no list verb. -/
def podsLogResource : APIResource :=
  { Name := "pods/log", Kind := "Pod", Verbs := ["get"] }

/-- Whitelist mode naming `deployments` by its qualified name. -/
def whitelistConfig : BackupConfig :=
  { emptyConfig with FilteringMode := "whitelist", IncludeResources := ["Deployments.Apps"] }

/-- Blacklist mode with the exclude list of the specification's scenario. -/
def blacklistConfig : BackupConfig :=
  { emptyConfig with FilteringMode := "blacklist", ExcludeResources := ["events", "nodes"] }

/-- Blacklist mode excluding `deployments` by its qualified name. -/
def blacklistQualifiedConfig : BackupConfig :=
  { emptyConfig with FilteringMode := "blacklist", ExcludeResources := ["deployments.apps"] }

/-- Hybrid mode with `pods` in both lists. -/
def hybridConfig : BackupConfig :=
  { emptyConfig with
    FilteringMode := "hybrid"
    IncludeResources := ["pods", "deployments"]
    ExcludeResources := ["pods"] }

/-- Whitelist mode naming the subresource `pods/log`. -/
def whitelistSubresourceConfig : BackupConfig :=
  { emptyConfig with FilteringMode := "whitelist", IncludeResources := ["pods/log"] }

/-- A value of a schema-less document (`interface{}` in
`map[string]interface{}`): null, boolean, number, string, sequence or
nested mapping. Numbers are opaque to the program; they are kept as
integers. -/
inductive Value where
  | null : Value
  | bool (b : Bool) : Value
  | number (n : Int) : Value
  | str (s : String) : Value
  | seq (items : List Value) : Value
  | map (fields : List (String × Value)) : Value

/-- The field `Controller` of a `metav1.OwnerReference`, a `*bool`, with the
name of the owner. -/
structure OwnerReference where
  Name : String := ""
  Controller : Option Bool := none
  deriving DecidableEq, Repr

/-- A resource instance, `*unstructured.Unstructured`: its document
`Object`, and what the library accessors `GetAnnotations` (`none` for a nil
map), `GetOwnerReferences` and `GetName` return for it. -/
structure Unstructured where
  Object : List (String × Value) := []
  annotations : Option (List (String × String)) := none
  ownerReferences : List OwnerReference := []
  name : String := ""

/-! ## Namespace selector -/

/-- The loop of `shouldExcludeNamespace` over `ExcludeNamespaces`. -/
def excludeNamespaceLoop (ns : String) : List String → Bool
  | [] => false
  | excluded :: rest => if ns = excluded then true else excludeNamespaceLoop ns rest

/-- The method `shouldExcludeNamespace`. -/
def shouldExcludeNamespace (cfg : BackupConfig) (ns : String) : Bool :=
  excludeNamespaceLoop ns cfg.ExcludeNamespaces

/-- The outcome of `getNamespacesToBackup`: the returned pair as an
`Except`, and the number of namespace list calls sent to the cluster API. -/
structure NamespaceSelection where
  result : Except String (List String)
  listCalls : Nat

/-- The filtering loop of `getNamespacesToBackup`, `result` being the slice
built so far. -/
def namespaceLoop (cfg : BackupConfig) (result : List String) : List String → List String
  | [] => result
  | ns :: rest =>
    if !shouldExcludeNamespace cfg ns then namespaceLoop cfg (result ++ [ns]) rest
    else namespaceLoop cfg result rest

/-- The method `getNamespacesToBackup`. `listing` is the answer of the
cluster API to the namespace list call: an error, or the names of the
listed namespaces in order. -/
def getNamespacesToBackup (cfg : BackupConfig) (listing : Except String (List String)) :
    NamespaceSelection :=
  if cfg.IncludeNamespaces.length > 0 then
    { result := Except.ok cfg.IncludeNamespaces, listCalls := 0 }
  else
    match listing with
    | Except.error err => { result := Except.error err, listCalls := 1 }
    | Except.ok items => { result := Except.ok (namespaceLoop cfg [] items), listCalls := 1 }

/-! ## Configuration -/

/-- The inner loop of `parseCommaSeparated` over the parts of one line. -/
def partsLoop (result : List String) : List String → List String
  | [] => result
  | part :: rest =>
    let trimmed := trimSpace part
    if trimmed ≠ "" then partsLoop (result ++ [trimmed]) rest else partsLoop result rest

/-- The outer loop of `parseCommaSeparated` over the lines. -/
def linesLoop (result : List String) : List String → List String
  | [] => result
  | line :: rest =>
    let line := trimSpace line
    if line ≠ "" && !hasPrefixChar line '#' then
      linesLoop (partsLoop result (split line ',')) rest
    else linesLoop result rest

/-- The Go function `parseCommaSeparated`. -/
def parseCommaSeparated (input : String) : List String :=
  linesLoop [] (split input '\n')

/-- The package variable `defaultSystemNamespaces`. -/
def defaultSystemNamespaces : List String :=
  ["kube-system", "kube-public", "kube-node-lease",
   "openshift-system", "openshift-cluster-version", "openshift-machine-api",
   "openshift-kube-apiserver", "openshift-kube-controller-manager",
   "openshift-kube-scheduler", "openshift-etcd", "openshift-apiserver",
   "openshift-controller-manager", "openshift-service-ca",
   "openshift-network-operator", "openshift-sdn", "openshift-dns",
   "openshift-ingress", "openshift-authentication", "openshift-oauth-apiserver",
   "openshift-image-registry", "openshift-cluster-storage-operator",
   "openshift-cluster-csi-drivers", "openshift-monitoring",
   "openshift-operator-lifecycle-manager", "openshift-marketplace",
   "openshift-console", "openshift-console-operator"]

/-- The Go function `getDefaultBackupConfig`. -/
def getDefaultBackupConfig : BackupConfig :=
  { FilteringMode := "blacklist"
    IncludeResources :=
      ["pods", "services", "deployments", "replicasets", "configmaps", "secrets",
       "persistentvolumes", "persistentvolumeclaims", "serviceaccounts",
       "roles", "rolebindings", "clusterroles", "clusterrolebindings",
       "ingresses", "networkpolicies", "jobs", "cronjobs", "daemonsets", "statefulsets"]
    ExcludeResources := ["events", "nodes", "endpoints", "replicationcontrollers"]
    IncludeNamespaces := []
    ExcludeNamespaces := defaultSystemNamespaces
    IncludeCRDs :=
      ["workflows.argoproj.io", "workflowtemplates.argoproj.io",
       "routes.route.openshift.io", "buildconfigs.build.openshift.io",
       "imagestreams.image.openshift.io", "deploymentconfigs.apps.openshift.io"]
    LabelSelector := ""
    AnnotationSelector := ""
    MaxResourceSize := ""
    FollowOwnerReferences := false
    IncludeManagedFields := false
    IncludeStatus := false
    OpenShiftMode := "auto-detect"
    IncludeOpenShiftRes := true
    ValidateYAML := true
    SkipInvalidResources := true }

/-- The field `Data` of a `corev1.ConfigMap`. -/
structure ConfigMap where
  Data : List (String × String)

/-- The pattern `if val, ok := cm.Data[key]; ok && val != ""` of
`parseBackupConfig`: the value when the key is present and not empty. -/
def nonEmptyValue (cm : ConfigMap) (key : String) : Option String :=
  match getKey cm.Data key with
  | some val => if val ≠ "" then some val else none
  | none => none

/-- The Go function `parseBackupConfig`. -/
def parseBackupConfig (cm : ConfigMap) : BackupConfig :=
  let config := getDefaultBackupConfig
  let config := match nonEmptyValue cm "filtering-mode" with
    | some val => { config with FilteringMode := trimSpace val }
    | none => config
  let config := match nonEmptyValue cm "include-resources" with
    | some val => { config with IncludeResources := parseCommaSeparated val }
    | none => config
  let config := match nonEmptyValue cm "exclude-resources" with
    | some val => { config with ExcludeResources := parseCommaSeparated val }
    | none => config
  let config := match nonEmptyValue cm "include-namespaces" with
    | some val => { config with IncludeNamespaces := parseCommaSeparated val }
    | none => config
  let config := match nonEmptyValue cm "exclude-namespaces" with
    | some val => { config with ExcludeNamespaces := parseCommaSeparated val }
    | none => config
  let config := match nonEmptyValue cm "include-crds" with
    | some val => { config with IncludeCRDs := parseCommaSeparated val }
    | none => config
  let config := match getKey cm.Data "label-selector" with
    | some val => { config with LabelSelector := val }
    | none => config
  let config := match getKey cm.Data "annotation-selector" with
    | some val => { config with AnnotationSelector := val }
    | none => config
  let config := match getKey cm.Data "max-resource-size" with
    | some val => { config with MaxResourceSize := val }
    | none => config
  let config := match getKey cm.Data "follow-owner-references" with
    | some val => { config with FollowOwnerReferences := decide (val = "true") }
    | none => config
  let config := match getKey cm.Data "include-managed-fields" with
    | some val => { config with IncludeManagedFields := decide (val = "true") }
    | none => config
  let config := match getKey cm.Data "include-status" with
    | some val => { config with IncludeStatus := decide (val = "true") }
    | none => config
  let config := match getKey cm.Data "openshift-mode" with
    | some val => { config with OpenShiftMode := val }
    | none => config
  let config := match getKey cm.Data "include-openshift-resources" with
    | some val => { config with IncludeOpenShiftRes := decide (val = "true") }
    | none => config
  let config := match getKey cm.Data "validate-yaml" with
    | some val => { config with ValidateYAML := decide (val = "true") }
    | none => config
  let config := match getKey cm.Data "skip-invalid-resources" with
    | some val => { config with SkipInvalidResources := decide (val = "true") }
    | none => config
  config

/-- A ConfigMap whose only key is a user-supplied namespace exclusion. -/
def userExcludeConfigMap : ConfigMap :=
  { Data := [("exclude-namespaces", "my-team, sandbox")] }

/-- A configuration that names two namespaces to export, one of them also
excluded. -/
def includeNamespacesConfig : BackupConfig :=
  { getDefaultBackupConfig with IncludeNamespaces := ["kube-system", "shop"] }

/-! ## Skip rule and sanitizer -/

/-- The loop of `shouldSkipResource` over the owner references. -/
def ownerLoop : List OwnerReference → Bool
  | [] => false
  | owner :: rest =>
    match owner.Controller with
    | some true => true
    | _ => ownerLoop rest

/-- The first block of `shouldSkipResource`: whether the annotation selector
makes it return `true`. -/
def annotationSkip (cfg : BackupConfig) (resource : Unstructured) : Bool :=
  if cfg.AnnotationSelector ≠ "" then
    match resource.annotations with
    | none => true
    | some annotations =>
      match split cfg.AnnotationSelector '=' with
      | [part0, part1] =>
        let key := trimSpace part0
        let value := trimSpace part1
        decide ((getKey annotations key).getD "" ≠ value)
      | _ => false
  else false

/-- The method `shouldSkipResource`. -/
def shouldSkipResource (cfg : BackupConfig) (resource : Unstructured) : Bool :=
  if annotationSkip cfg resource then true
  else if !cfg.FollowOwnerReferences then ownerLoop resource.ownerReferences
  else false

/-- The metadata block of `cleanResource`. -/
def cleanMetadata (cfg : BackupConfig) (metadata : List (String × Value)) :
    List (String × Value) :=
  let metadata := deleteKey metadata "uid"
  let metadata := deleteKey metadata "resourceVersion"
  let metadata := deleteKey metadata "generation"
  let metadata := deleteKey metadata "creationTimestamp"
  let metadata := deleteKey metadata "selfLink"
  if !cfg.IncludeManagedFields then deleteKey metadata "managedFields" else metadata

/-- The method `cleanResource`. -/
def cleanResource (cfg : BackupConfig) (resource : Unstructured) : List (String × Value) :=
  let cleaned := resource.Object
  let cleaned := if !cfg.IncludeStatus then deleteKey cleaned "status" else cleaned
  match getKey cleaned "metadata" with
  | some (Value.map metadata) => setKey cleaned "metadata" (Value.map (cleanMetadata cfg metadata))
  | _ => cleaned

/-- The annotation of an instance under `key`, in the words of the
specification: absent when the instance has no annotations or they do not
bind `key`. -/
def annotationOf (resource : Unstructured) (key : String) : Option String :=
  match resource.annotations with
  | none => none
  | some annotations => getKey annotations key

/-! ## Skip rule and sanitizer: example inputs -/

/-- The selector of the specification's scenario. -/
def teamSelectorConfig : BackupConfig :=
  { getDefaultBackupConfig with AnnotationSelector := "team=platform" }

/-- A selector written with blanks around the `=`, owner references followed. -/
def spacedSelectorConfig : BackupConfig :=
  { getDefaultBackupConfig with
    AnnotationSelector := "team = platform"
    FollowOwnerReferences := true }

/-- An instance without annotations. -/
def bareInstance : Unstructured :=
  { Object := [("kind", Value.str "ConfigMap"),
               ("metadata", Value.map [("name", Value.str "settings")])]
    name := "settings" }

/-- An instance annotated `team: platform`. -/
def platformInstance : Unstructured :=
  { Object := [("kind", Value.str "ConfigMap"),
               ("metadata", Value.map [("name", Value.str "settings"),
                 ("annotations", Value.map [("team", Value.str "platform")])])]
    annotations := some [("team", "platform")]
    name := "settings" }

/-- A pod controlled by a replica set. -/
def controlledInstance : Unstructured :=
  { Object := [("kind", Value.str "Pod"),
               ("metadata", Value.map [("name", Value.str "web-1"), ("uid", Value.str "u1")]),
               ("status", Value.map [("phase", Value.str "Running")])]
    ownerReferences := [{ Name := "web", Controller := some true }]
    name := "web-1" }

/-- A pod with an owner that is not its controller, and one that leaves the
flag unset. -/
def ownedInstance : Unstructured :=
  { Object := [("kind", Value.str "Pod"),
               ("metadata", Value.map [("name", Value.str "web-2")])]
    ownerReferences := [{ Name := "web", Controller := some false }, { Name := "aux" }]
    name := "web-2" }

/-- The default policy with `IncludeStatus` switched on. -/
def includeStatusConfig : BackupConfig :=
  { getDefaultBackupConfig with IncludeStatus := true }

/-- The metadata of a document, in the words of the specification: the
mapping bound to the top-level key `metadata`, and no keys at all when that
key is absent or bound to something that is no mapping. -/
def metadataOf (document : List (String × Value)) : List (String × Value) :=
  match getKey document "metadata" with
  | some (Value.map metadata) => metadata
  | _ => []

/-- The volatile metadata keys named by the sanitize rule. -/
def volatileMetadataKeys : List String :=
  ["uid", "resourceVersion", "generation", "creationTimestamp", "selfLink"]

/-- A deployment as the cluster returns it, with volatile metadata, managed
fields and a status. -/
def liveInstance : Unstructured :=
  { Object :=
      [("apiVersion", Value.str "apps/v1"),
       ("kind", Value.str "Deployment"),
       ("metadata", Value.map
          [("name", Value.str "web"),
           ("namespace", Value.str "shop"),
           ("uid", Value.str "0c5f"),
           ("resourceVersion", Value.str "4711"),
           ("generation", Value.number 3),
           ("creationTimestamp", Value.str "2024-01-01T00:00:00Z"),
           ("selfLink", Value.str "/apis/apps/v1/namespaces/shop/deployments/web"),
           ("managedFields", Value.seq [Value.map [("manager", Value.str "kubectl")]]),
           ("labels", Value.map [("app", Value.str "web")])]),
       ("spec", Value.map [("replicas", Value.number 2)]),
       ("status", Value.map [("readyReplicas", Value.number 2)])]
    name := "web" }

/-- The policy that keeps both the status and the managed fields. -/
def keepAllConfig : BackupConfig :=
  { getDefaultBackupConfig with IncludeStatus := true, IncludeManagedFields := true }

/-! ## Object store path scheme -/

/-- The Go statement `m[key] = v`. -/
def putKey {α : Type} (m : List (String × α)) (key : String) (v : α) : List (String × α) :=
  if hasKey m key then setKey m key v else m ++ [(key, v)]

/-- The Go function `strings.HasPrefix`. -/
def hasPrefix (s pre : String) : Bool :=
  pre.data.isPrefixOf s.data

/-- The Go function `strings.TrimSuffix`. -/
def trimSuffix (s suffix : String) : String :=
  if suffix.data.isSuffixOf s.data then
    String.mk (s.data.take (s.data.length - suffix.data.length))
  else s

/-- The Go struct `Config` of the exporter; `RetryDelay` in nanoseconds. -/
structure Config where
  ClusterDomain : String
  ClusterName : String
  MinIOEndpoint : String
  MinIOAccessKey : String
  MinIOSecretKey : String
  MinIOBucket : String
  MinIOUseSSL : Bool
  BatchSize : Int
  RetryAttempts : Int
  RetryDelay : Int
  deriving DecidableEq, Repr

/-- The arguments of one `minioClient.PutObject` call. -/
structure PutObjectCall where
  bucket : String
  objectPath : String
  data : String
  contentType : String
  deriving DecidableEq, Repr

/-- What `uploadResource` returns, and the `PutObject` calls it made. -/
structure UploadOutcome where
  err : Option String
  calls : List PutObjectCall
  deriving DecidableEq, Repr

/-- The expression `fmt.Sprintf("clusterbackup/%s/%s/%s/%s.yaml", ...)` of
`uploadResource`. -/
def objectPath (clusterName ns resourceType name : String) : String :=
  "clusterbackup/" ++ clusterName ++ "/" ++ ns ++ "/" ++ resourceType ++ "/" ++ name ++ ".yaml"

/-- The method `uploadResource`. `marshal` is `yaml.Marshal` and `putObject`
gives the error of `minioClient.PutObject`, if any. -/
def uploadResource (marshal : List (String × Value) → Except String String)
    (putObject : PutObjectCall → Option String) (config : Config)
    (ns resourceType name : String) (resource : List (String × Value)) : UploadOutcome :=
  match marshal resource with
  | Except.error err =>
    { err := some ("failed to marshal resource to YAML: " ++ err), calls := [] }
  | Except.ok yamlData =>
    let call : PutObjectCall :=
      { bucket := config.MinIOBucket
        objectPath := objectPath config.ClusterName ns resourceType name
        data := yamlData
        contentType := "application/x-yaml" }
    { err := putObject call, calls := [call] }

/-- The reading of an object key in the words of the specification: split on
`/`, five segments of which the first is `clusterbackup`, the `.yaml` suffix
of the last one removed. -/
def parseObjectKey (key : String) : Option (String × String × String × String) :=
  match split key '/' with
  | [root, cluster, ns, resourceType, file] =>
    if root = "clusterbackup" then some (cluster, ns, resourceType, trimSuffix file ".yaml")
    else none
  | _ => none

/-- The cluster name of a key in the words of the specification: its second
`/`-separated segment when the first is `clusterbackup`. -/
def clusterNameOf (key : String) : Option String :=
  match split key '/' with
  | root :: cluster :: _ => if root = "clusterbackup" then some cluster else none
  | _ => none

/-- An exporter configuration for the cluster `production-east`. -/
def eastConfig : Config :=
  { ClusterDomain := "cluster.local", ClusterName := "production-east",
    MinIOEndpoint := "minio:9000", MinIOAccessKey := "key", MinIOSecretKey := "secret",
    MinIOBucket := "cluster-backups", MinIOUseSSL := true,
    BatchSize := 50, RetryAttempts := 3, RetryDelay := 5000000000 }

/-- A serializer that always succeeds with a fixed text. -/
def constMarshal (_ : List (String × Value)) : Except String String :=
  Except.ok "kind: Service"

/-- An object store that accepts every write. -/
def acceptingStore (_ : PutObjectCall) : Option String :=
  none

/-! ## Sync downloader and repository merger (`code/git-sync/main.go`) -/

/-- What `gs.downloadFile` does for one object: the file is written in full;
or `GetObject` or `os.Create` fails and nothing is written; or `io.Copy`
fails after `os.Create`, which leaves a file with the bytes copied so far. -/
inductive Transfer where
  | done (content : String) : Transfer
  | refused (err : String) : Transfer
  | broken (err : String) (written : String) : Transfer
  deriving DecidableEq, Repr

/-- One entry received from `ListObjects`, together with what the file
system and the object store answer while it is processed: the error of
`os.MkdirAll` for its local directory, and the course of its transfer. -/
structure ListedObject where
  Key : String
  Err : Option String := none
  mkdirErr : Option String := none
  transfer : Transfer := Transfer.done ""
  deriving DecidableEq, Repr

/-- The variables of the loop of `downloadAndMergeBackups`: the map
`clusters`, `downloadCount`, and the files under `backupDir` by their path
relative to it. Keys are taken to be clean paths, which `filepath.Join`
leaves as they are. -/
structure DownloadState where
  clusters : List (String × Bool)
  downloadCount : Nat
  backup : List (String × String)
  deriving DecidableEq, Repr

/-- The statements of the loop body that parse the key and record the
cluster. -/
def recordCluster (clusters : List (String × Bool)) (key : String) : List (String × Bool) :=
  let parts := split key '/'
  if parts.length ≥ 2 && parts.getD 0 "" == "clusterbackup" then
    let clusterName := parts.getD 1 ""
    putKey clusters clusterName true
  else clusters

/-- The body of the loop of `downloadAndMergeBackups`; every `continue`
leaves the state for the next entry. -/
def downloadStep (st : DownloadState) (object : ListedObject) : DownloadState :=
  match object.Err with
  | some _ => st
  | none =>
    let clusters := recordCluster st.clusters object.Key
    match object.mkdirErr with
    | some _ => { st with clusters := clusters }
    | none =>
      match object.transfer with
      | Transfer.refused _ => { st with clusters := clusters }
      | Transfer.broken _ written =>
        { st with clusters := clusters, backup := putKey st.backup object.Key written }
      | Transfer.done content =>
        { clusters := clusters
          downloadCount := st.downloadCount + 1
          backup := putKey st.backup object.Key content }

/-- The loop of `downloadAndMergeBackups` over the listed entries. -/
def downloadLoop (st : DownloadState) : List ListedObject → DownloadState
  | [] => st
  | object :: rest => downloadLoop (downloadStep st object) rest

/-- The walk of `mergeBackupsToRepo` over the files of the backup tree.
`copyErr path` is the error that the callback meets at that file, if any
(from the walk itself, `filepath.Rel`, `os.MkdirAll` or `copyFile`); the
first error ends the walk. -/
def mergeLoop (copyErr : String → Option String) (repo : List (String × String)) :
    List (String × String) → Except String (List (String × String))
  | [] => Except.ok repo
  | (path, content) :: rest =>
    match copyErr path with
    | some err => Except.error err
    | none => mergeLoop copyErr (putKey repo path content) rest

/-- The method `mergeBackupsToRepo` on file trees: `backup` and `repo` map
relative paths to file contents, and the result is the repository tree
after a walk without error. -/
def mergeBackupsToRepo (copyErr : String → Option String)
    (backup repo : List (String × String)) : Except String (List (String × String)) :=
  mergeLoop copyErr repo backup

/-- What `downloadAndMergeBackups` returns, the loop variables at the end of
the loop (when it was entered), and the repository tree after a merge
without error. -/
structure SyncOutcome where
  result : Except String Nat
  pass : Option DownloadState
  repository : Option (List (String × String))

/-- The method `downloadAndMergeBackups`. `stagingErr` is the error of
`os.MkdirAll(backupDir)`, `objects` what `ListObjects` sends, `backup` and
`repo` the two trees before the call. -/
def downloadAndMergeBackups (stagingErr : Option String) (objects : List ListedObject)
    (copyErr : String → Option String) (backup repo : List (String × String)) : SyncOutcome :=
  match stagingErr with
  | some err => { result := Except.error err, pass := none, repository := none }
  | none =>
    let st := downloadLoop { clusters := [], downloadCount := 0, backup := backup } objects
    match mergeBackupsToRepo copyErr st.backup repo with
    | Except.error err => { result := Except.error err, pass := some st, repository := none }
    | Except.ok merged =>
      { result := Except.ok st.clusters.length, pass := some st, repository := some merged }

/-- The cluster names of the listed keys, in the words of the specification:
for every entry received without error, the cluster name of its key. -/
def listedClusterNames (objects : List ListedObject) : List String :=
  (objects.filter (fun o => o.Err.isNone)).filterMap (fun o => clusterNameOf o.Key)

/-- An entry that is listed, gets its directory and is transferred in full. -/
def transfersCleanly (object : ListedObject) : Bool :=
  object.Err.isNone && object.mkdirErr.isNone &&
    match object.transfer with
    | Transfer.done _ => true
    | _ => false

/-- A listing of two clusters in which one entry carries an error, one
directory cannot be made and one transfer breaks. -/
def mixedListing : List ListedObject :=
  [{ Key := "", Err := some "connection reset" },
   { Key := "clusterbackup/east/shop/services/web.yaml", mkdirErr := some "disk full" },
   { Key := "clusterbackup/west/shop/services/web.yaml",
     transfer := Transfer.broken "unexpected EOF" "kind: Ser" },
   { Key := "clusterbackup/east/shop/pods/web-1.yaml", transfer := Transfer.done "kind: Pod" },
   { Key := "clusterbackup/west/shop/pods/web-1.yaml", transfer := Transfer.refused "denied" },
   { Key := "clusterbackup/east/shop/pods/web-2.yaml", transfer := Transfer.done "kind: Pod" }]

/-- A file system on which every copy succeeds. -/
def noCopyErr (_ : String) : Option String :=
  none

/-- A backup tree of two files. -/
def stagedTree : List (String × String) :=
  [("clusterbackup/east/shop/pods/web-1.yaml", "kind: Pod # new"),
   ("clusterbackup/east/shop/pods/web-3.yaml", "kind: Pod")]

/-- A repository tree holding an older copy of one of them and a file that
is no longer exported. -/
def repositoryTree : List (String × String) :=
  [("README.md", "backups"),
   ("clusterbackup/east/shop/pods/web-1.yaml", "kind: Pod # old"),
   ("clusterbackup/east/shop/pods/gone.yaml", "kind: Pod")]

/-! ## Commit/push controller (`code/git-sync/main.go`) -/

/-- The replacement of the first occurrence of `old` in a character list. -/
def replaceFirstChars (old new : List Char) : List Char → List Char
  | [] => if old = [] then new else []
  | c :: cs =>
    if old.isPrefixOf (c :: cs) then new ++ (c :: cs).drop old.length
    else c :: replaceFirstChars old new cs

/-- The Go call `strings.Replace(s, old, new, 1)`. -/
def replaceFirst (s old new : String) : String :=
  String.mk (replaceFirstChars old.data new.data s.data)

/-- The Go struct `GitSyncConfig`; `RetryDelay` in nanoseconds. -/
structure GitSyncConfig where
  MinIOEndpoint : String
  MinIOAccessKey : String
  MinIOSecretKey : String
  MinIOBucket : String
  MinIOUseSSL : Bool
  GitRepository : String
  GitBranch : String
  GitUsername : String
  GitEmail : String
  GitToken : String
  SSHKeyPath : String
  WorkDir : String
  RetryAttempts : Int
  RetryDelay : Int
  deriving DecidableEq, Repr

/-- The commands that `commitAndPushChanges` runs in the repository
directory: `git add .`, `git diff-index --quiet HEAD --`,
`git diff --cached --stat`, `git commit -m message`,
`git remote set-url origin url` and `git push origin branch`. -/
inductive GitCommand where
  | add : GitCommand
  | diffIndex : GitCommand
  | diffStat : GitCommand
  | commit (message : String) : GitCommand
  | setUrl (url : String) : GitCommand
  | push (branch : String) : GitCommand
  deriving DecidableEq, Repr

/-- What running one command gives: the error of `cmd.Run` or `cmd.Output`,
the captured standard output, and the state of the repository afterwards. -/
structure CommandResult (σ : Type) where
  err : Option String
  output : String
  state : σ

/-- What `commitAndPushChanges` returns, the state it leaves, and the
commands it ran in order, each with the error it gave. -/
structure PushOutcome (σ : Type) where
  err : Option String
  state : σ
  issued : List (GitCommand × Option String)

/-- The method `getChangeStatistics`, with the error of the command and the
state after it. -/
def getChangeStatistics {σ : Type} (git : GitCommand → σ → CommandResult σ) (s : σ) :
    Except String String × Option String × σ :=
  let r := git GitCommand.diffStat s
  match r.err with
  | some err => (Except.error err, some err, r.state)
  | none =>
    let stats := trimSpace r.output
    if stats = "" then (Except.ok "No detailed statistics available", none, r.state)
    else (Except.ok stats, none, r.state)

/-- The commit message of `commitAndPushChanges`; `now` is the formatted
current time. -/
def commitMessage (now changeStats : String) : String :=
  "Multi-cluster backup sync - " ++ now ++ "\n\n" ++ changeStats ++
    "\n\nIncremental sync from MinIO to Git repository.\n" ++
    "Only changed files are included in this commit.\n\n" ++
    "Generated by KubeBackup Git-Sync Service"

/-- The block of `commitAndPushChanges` after the call of
`getChangeStatistics`: on an error `changeStats` is set to
`Changes detected`. -/
def changeStatsOrDefault (stats : Except String String) : String :=
  match stats with
  | Except.ok text => text
  | Except.error _ => "Changes detected"

/-- The method `commitAndPushChanges` over a version-control capability
`git`, which runs one command in a repository state. -/
def commitAndPushChanges {σ : Type} (git : GitCommand → σ → CommandResult σ)
    (cfg : GitSyncConfig) (now : String) (s : σ) : PushOutcome σ :=
  let added := git GitCommand.add s
  match added.err with
  | some err =>
    { err := some ("failed to add changes: " ++ err), state := added.state,
      issued := [(GitCommand.add, some err)] }
  | none =>
    let diff := git GitCommand.diffIndex added.state
    match diff.err with
    | none =>
      { err := none, state := diff.state,
        issued := [(GitCommand.add, none), (GitCommand.diffIndex, none)] }
    | some diffErr =>
      let stats := getChangeStatistics git diff.state
      let changeStats := changeStatsOrDefault stats.1
      let message := commitMessage now changeStats
      let committed := git (GitCommand.commit message) stats.2.2
      let log := [(GitCommand.add, none), (GitCommand.diffIndex, some diffErr),
        (GitCommand.diffStat, stats.2.1)]
      match committed.err with
      | some err =>
        { err := some ("failed to commit changes: " ++ err), state := committed.state,
          issued := log ++ [(GitCommand.commit message, some err)] }
      | none =>
        let log := log ++ [(GitCommand.commit message, none)]
        if cfg.GitToken ≠ "" && hasPrefix cfg.GitRepository "https://" then
          let authURL :=
            replaceFirst cfg.GitRepository "https://" ("https://" ++ cfg.GitToken ++ "@")
          let remote := git (GitCommand.setUrl authURL) committed.state
          let pushed := git (GitCommand.push cfg.GitBranch) remote.state
          { err := pushed.err.map (fun err => "failed to push changes: " ++ err)
            state := pushed.state
            issued := log ++ [(GitCommand.setUrl authURL, remote.err),
              (GitCommand.push cfg.GitBranch, pushed.err)] }
        else
          let pushed := git (GitCommand.push cfg.GitBranch) committed.state
          { err := pushed.err.map (fun err => "failed to push changes: " ++ err)
            state := pushed.state
            issued := log ++ [(GitCommand.push cfg.GitBranch, pushed.err)] }

/-- The state in which the diff summary is asked for: after `add` and
`diff-index`. -/
def stateBeforeDiffStat {σ : Type} (git : GitCommand → σ → CommandResult σ) (s : σ) : σ :=
  (git GitCommand.diffIndex (git GitCommand.add s).state).state

/-- The state in which the commit is made: after the diff summary. -/
def stateBeforeCommit {σ : Type} (git : GitCommand → σ → CommandResult σ) (s : σ) : σ :=
  (git GitCommand.diffStat (stateBeforeDiffStat git s)).state

/-- The summary that goes into the commit message: what
`getChangeStatistics` returns, or `Changes detected` when it fails. -/
def changeSummary {σ : Type} (git : GitCommand → σ → CommandResult σ) (s : σ) : String :=
  changeStatsOrDefault (getChangeStatistics git (stateBeforeDiffStat git s)).1

/-- The commit command that a run started in `s` at time `now` issues. -/
def commitCommand {σ : Type} (git : GitCommand → σ → CommandResult σ) (now : String) (s : σ) :
    GitCommand :=
  GitCommand.commit (commitMessage now (changeSummary git s))

/-- The remote URL with the token in it, as `commitAndPushChanges` builds it. -/
def authURL (cfg : GitSyncConfig) : String :=
  replaceFirst cfg.GitRepository "https://" ("https://" ++ cfg.GitToken ++ "@")

/-- The staged tree does not differ from the current head in state `s`:
`git diff-index --quiet HEAD --` exits without error there. -/
def quiet {σ : Type} (git : GitCommand → σ → CommandResult σ) (s : σ) : Prop :=
  (git GitCommand.diffIndex s).err = none

/-- What the idempotence of the commit/push stage asks of the
version-control tool while nothing else touches the working tree. `staged`
holds when the index equals the working tree, untracked files included. A
successful `add` makes it so, and every other command keeps it. A successful
commit in such a state leaves nothing that differs from the head. In such a
state `add` changes nothing, so it makes no difference appear; neither do
`diff-index`, `set-url` and `push` in any state. -/
structure GitContract {σ : Type} (git : GitCommand → σ → CommandResult σ)
    (staged : σ → Prop) : Prop where
  add_staged : ∀ s, (git GitCommand.add s).err = none → staged (git GitCommand.add s).state
  diffIndex_staged : ∀ s, staged s → staged (git GitCommand.diffIndex s).state
  diffStat_staged : ∀ s, staged s → staged (git GitCommand.diffStat s).state
  commit_staged : ∀ message s, staged s → staged (git (GitCommand.commit message) s).state
  setUrl_staged : ∀ url s, staged s → staged (git (GitCommand.setUrl url) s).state
  push_staged : ∀ branch s, staged s → staged (git (GitCommand.push branch) s).state
  commit_quiet : ∀ message s, staged s → (git (GitCommand.commit message) s).err = none →
    quiet git (git (GitCommand.commit message) s).state
  add_quiet : ∀ s, staged s → quiet git s → quiet git (git GitCommand.add s).state
  diffIndex_quiet : ∀ s, quiet git s → quiet git (git GitCommand.diffIndex s).state
  setUrl_quiet : ∀ url s, quiet git s → quiet git (git (GitCommand.setUrl url) s).state
  push_quiet : ∀ branch s, quiet git s → quiet git (git (GitCommand.push branch) s).state

/-- A small repository: working tree, index and head as one text each, the
messages of the commits made, the remote URL and the branches pushed. -/
structure GitRepo where
  tree : String
  index : String
  head : String
  commits : List String
  remoteUrl : String
  pushed : List String
  deriving DecidableEq, Repr

/-- A version-control tool on `GitRepo` in which the commands listed by
`faulty` fail without effect and the others do what git does. -/
def gitWithFaults (faulty : GitCommand → Bool) (cmd : GitCommand) (s : GitRepo) :
    CommandResult GitRepo :=
  if faulty cmd then { err := some "exit status 128", output := "", state := s }
  else
    match cmd with
    | GitCommand.add => { err := none, output := "", state := { s with index := s.tree } }
    | GitCommand.diffIndex =>
      { err := if s.tree = s.head then none else some "exit status 1", output := "", state := s }
    | GitCommand.diffStat =>
      { err := none, output := " web.yaml | 2 +-\n 1 file changed\n", state := s }
    | GitCommand.commit message =>
      if s.index = s.head then { err := some "exit status 1", output := "", state := s }
      else
        { err := none, output := ""
          state := { s with head := s.index, commits := s.commits ++ [message] } }
    | GitCommand.setUrl url => { err := none, output := "", state := { s with remoteUrl := url } }
    | GitCommand.push branch =>
      { err := none, output := "", state := { s with pushed := s.pushed ++ [branch] } }

/-- No command fails. -/
def noFaults (_ : GitCommand) : Bool :=
  false

/-- The diff summary and the rewrite of the remote URL fail. -/
def statAndUrlFaults : GitCommand → Bool
  | GitCommand.diffStat => true
  | GitCommand.setUrl _ => true
  | _ => false

/-- The index equals the working tree. -/
def indexIsTree (s : GitRepo) : Prop :=
  s.index = s.tree

/-- A repository whose working tree holds a change that is not committed. -/
def dirtyRepo : GitRepo :=
  { tree := "v2", index := "v1", head := "v1", commits := ["init"],
    remoteUrl := "https://github.com/org/backups.git", pushed := [] }

/-- A checkout: a repository whose `tree` is the tracked files as they are
in the working directory, and the content of the files of the working
directory that the index does not know, empty when there are none. -/
structure Checkout where
  repo : GitRepo
  untracked : String
  deriving DecidableEq, Repr

/-- A version-control tool on `Checkout` in which no command fails: `add`
takes the untracked files into the tracked ones and into the index, and the
other commands do in the repository what `gitWithFaults` does. `diff-index`
compares the tracked files with the head, so it does not see a file that is
not added yet. -/
def gitWithUntracked (cmd : GitCommand) (s : Checkout) : CommandResult Checkout :=
  match cmd with
  | GitCommand.add =>
    { err := none, output := ""
      state :=
        { repo := { s.repo with tree := s.repo.tree ++ s.untracked
                                index := s.repo.tree ++ s.untracked }
          untracked := "" } }
  | other =>
    { err := (gitWithFaults noFaults other s.repo).err
      output := (gitWithFaults noFaults other s.repo).output
      state := { s with repo := (gitWithFaults noFaults other s.repo).state } }

/-- Nothing is untracked and the index equals the tracked files. -/
def checkoutStaged (s : Checkout) : Prop :=
  s.untracked = "" ∧ s.repo.index = s.repo.tree

/-- A checkout whose tracked files are committed and which holds one new
file that is not added yet. -/
def newFileCheckout : Checkout :=
  { repo := { tree := "v1", index := "v1", head := "v1", commits := ["init"],
              remoteUrl := "https://github.com/org/backups.git", pushed := [] }
    untracked := "new.yaml" }

/-- A sync configuration with a token and an HTTPS repository URL. -/
def httpsSyncConfig : GitSyncConfig :=
  { MinIOEndpoint := "minio:9000", MinIOAccessKey := "key", MinIOSecretKey := "secret",
    MinIOBucket := "cluster-backups", MinIOUseSSL := true,
    GitRepository := "https://github.com/org/backups.git", GitBranch := "main",
    GitUsername := "sync", GitEmail := "sync@example.org", GitToken := "tok",
    SSHKeyPath := "", WorkDir := "/workspace", RetryAttempts := 3, RetryDelay := 5000000000 }

/-- The same configuration with an SSH repository URL. -/
def sshSyncConfig : GitSyncConfig :=
  { httpsSyncConfig with GitRepository := "git@github.com:org/backups.git" }

/-- The commands whose failure the claim names as fatal: `add`, `commit`
and `push`. -/
def stopsRun : GitCommand → Bool
  | GitCommand.add => true
  | GitCommand.commit _ => true
  | GitCommand.push _ => true
  | _ => false

/-- The commands that are run only when changes exist: `commit` and `push`. -/
def needsChanges : GitCommand → Bool
  | GitCommand.commit _ => true
  | GitCommand.push _ => true
  | _ => false

/-! ## Export pass over one resource type -/

/-- The type `schema.GroupVersionResource`. -/
structure GroupVersionResource where
  Group : String
  Version : String
  Resource : String
  deriving DecidableEq, Repr

/-- One list call on the dynamic client: the resource, the namespace for a
namespaced call (`none` for a cluster-wide one), and the label selector of
the list options. -/
structure ListCall where
  gvr : GroupVersionResource
  ns : Option String
  labelSelector : String
  deriving DecidableEq, Repr

/-- The counters of the loop of `backupResource` and the `PutObject` calls
made so far. -/
structure PassState where
  count : Nat
  skipped : Nat
  invalid : Nat
  calls : List PutObjectCall
  deriving DecidableEq, Repr

/-- What `backupResource` returns (a count and an error), its two other
counters, and the `PutObject` calls it made, in order. -/
structure PassOutcome where
  count : Nat
  err : Option String
  skipped : Nat
  invalid : Nat
  calls : List PutObjectCall
  deriving DecidableEq, Repr

/-- The method `validateResource`; `marshal` is `yaml.Marshal`. -/
def validateResource (marshal : List (String × Value) → Except String String)
    (resource : List (String × Value)) : Option String :=
  match marshal resource with
  | Except.ok _ => none
  | Except.error err => some err

/-- The block `if cb.backupConfig.ValidateYAML { ... }` of `backupResource`
up to its decision: the validation error of the cleaned instance, if the
validation is on and fails. -/
def validationError (marshal : List (String × Value) → Except String String)
    (cfg : BackupConfig) (cleaned : List (String × Value)) : Option String :=
  if cfg.ValidateYAML then validateResource marshal cleaned else none

/-- The loop of `backupResource` over the listed instances. -/
def backupLoop (marshal : List (String × Value) → Except String String)
    (putObject : PutObjectCall → Option String) (cfg : BackupConfig) (config : Config)
    (ns resourceType : String) (st : PassState) : List Unstructured → PassOutcome
  | [] =>
    { count := st.count, err := none, skipped := st.skipped, invalid := st.invalid,
      calls := st.calls }
  | item :: rest =>
    if shouldSkipResource cfg item then
      backupLoop marshal putObject cfg config ns resourceType
        { st with skipped := st.skipped + 1 } rest
    else
      let cleaned := cleanResource cfg item
      match validationError marshal cfg cleaned with
      | some err =>
        if cfg.SkipInvalidResources then
          backupLoop marshal putObject cfg config ns resourceType
            { st with invalid := st.invalid + 1 } rest
        else
          { count := st.count
            err := some ("invalid resource " ++ ns ++ "/" ++ item.name ++ ": " ++ err)
            skipped := st.skipped, invalid := st.invalid, calls := st.calls }
      | none =>
        let upload := uploadResource marshal putObject config ns resourceType item.name cleaned
        match upload.err with
        | some err =>
          { count := st.count
            err := some ("failed to upload " ++ ns ++ "/" ++ item.name ++ ": " ++ err)
            skipped := st.skipped, invalid := st.invalid, calls := st.calls ++ upload.calls }
        | none =>
          backupLoop marshal putObject cfg config ns resourceType
            { st with count := st.count + 1, calls := st.calls ++ upload.calls } rest

/-- The counters at the start of a pass. -/
def freshPass : PassState :=
  { count := 0, skipped := 0, invalid := 0, calls := [] }

/-- The list call that `backupResource` makes. -/
def listCallOf (cfg : BackupConfig) (ns : String) (gvr : GroupVersionResource)
    (resource : APIResource) : ListCall :=
  { gvr := gvr
    ns := if resource.Namespaced then some ns else none
    labelSelector := cfg.LabelSelector }

/-- The method `backupResource`. `list` gives the answer of the dynamic
client to a list call. -/
def backupResource (list : ListCall → Except String (List Unstructured))
    (marshal : List (String × Value) → Except String String)
    (putObject : PutObjectCall → Option String) (cfg : BackupConfig) (config : Config)
    (ns : String) (gvr : GroupVersionResource) (resource : APIResource) : PassOutcome :=
  match list (listCallOf cfg ns gvr resource) with
  | Except.error err =>
    { count := 0, err := some ("failed to list " ++ resource.Name ++ ": " ++ err),
      skipped := 0, invalid := 0, calls := [] }
  | Except.ok items => backupLoop marshal putObject cfg config ns gvr.Resource freshPass items

/-- The state in which a pass goes on after the instances whose outcome is
`outcome`. -/
def resumeFrom (outcome : PassOutcome) : PassState :=
  { count := outcome.count, skipped := outcome.skipped, invalid := outcome.invalid,
    calls := outcome.calls }

/-! ## Export pass over one namespace -/

/-- The concatenation of character lists with `sep` between them. -/
def joinChars (sep : Char) : List (List Char) → List Char
  | [] => []
  | [p] => p
  | p :: q :: rest => p ++ sep :: joinChars sep (q :: rest)

/-- The Go call `strings.Join(parts, string(sep))` for a one-character
separator. -/
def join (parts : List String) (sep : Char) : String :=
  String.mk (joinChars sep (parts.map String.data))

/-- The block of `backupNamespace` that builds the
`schema.GroupVersionResource` of a catalog entry. -/
def gvrOf (resource : APIResource) : GroupVersionResource :=
  let gvr : GroupVersionResource := { Group := "", Version := "v1", Resource := resource.Name }
  let gvr :=
    if containsChar resource.Kind '.' then
      let parts := split resource.Kind '.'
      if parts.length ≥ 2 then { gvr with Group := join (parts.drop 1) '.' } else gvr
    else gvr
  let gvr := if resource.Group ≠ "" then { gvr with Group := resource.Group } else gvr
  let gvr := if resource.Version ≠ "" then { gvr with Version := resource.Version } else gvr
  gvr

/-- The variables of the loop of `backupNamespace`, and the outcome of every
resource-type pass made so far, in order. -/
structure NamespaceState where
  resourceCount : Nat
  resourceErrors : Nat
  passes : List PassOutcome
  deriving DecidableEq, Repr

/-- What `backupNamespace` returns, with the final loop variables. -/
structure NamespaceOutcome where
  count : Nat
  err : Option String
  resourceErrors : Nat
  passes : List PassOutcome
  deriving DecidableEq, Repr

/-- The loop of `backupNamespace` over the catalog. -/
def resourceTypeLoop (list : ListCall → Except String (List Unstructured))
    (marshal : List (String × Value) → Except String String)
    (putObject : PutObjectCall → Option String) (cfg : BackupConfig) (config : Config)
    (ns : String) (st : NamespaceState) : List APIResource → NamespaceState
  | [] => st
  | resource :: rest =>
    let pass := backupResource list marshal putObject cfg config ns (gvrOf resource) resource
    match pass.err with
    | some _ =>
      resourceTypeLoop list marshal putObject cfg config ns
        { st with resourceErrors := st.resourceErrors + 1, passes := st.passes ++ [pass] } rest
    | none =>
      resourceTypeLoop list marshal putObject cfg config ns
        { st with resourceCount := st.resourceCount + pass.count,
                  passes := st.passes ++ [pass] } rest

/-- The method `backupNamespace`. -/
def backupNamespace (list : ListCall → Except String (List Unstructured))
    (marshal : List (String × Value) → Except String String)
    (putObject : PutObjectCall → Option String) (cfg : BackupConfig) (config : Config)
    (ns : String) (apiResources : List APIResource) : NamespaceOutcome :=
  let st := resourceTypeLoop list marshal putObject cfg config ns
    { resourceCount := 0, resourceErrors := 0, passes := [] } apiResources
  { count := st.resourceCount, err := none, resourceErrors := st.resourceErrors,
    passes := st.passes }

/-- The object store as a map from object key to content, after the given
`PutObject` calls in order: a call that the store accepts replaces what its
key held, a call that it answers with an error writes nothing. -/
def storeAfter (putObject : PutObjectCall → Option String) (store : List (String × String))
    (calls : List PutObjectCall) : List (String × String) :=
  calls.foldl (fun held call =>
    if (putObject call).isNone then putKey held call.objectPath call.data else held) store

/-! ## Resource catalog -/

/-- The type `metav1.APIResourceList`. -/
structure APIResourceList where
  GroupVersion : String
  APIResources : List APIResource
  deriving DecidableEq, Repr

/-- What `ServerPreferredResources` returns: the lists, some of which may be
nil, and an error; on a partial failure it returns both lists and an error. -/
structure DiscoveryAnswer where
  lists : List (Option APIResourceList)
  err : Option String
  deriving DecidableEq, Repr

/-- Whether `sub` occurs in a character list. -/
def containsChars (sub : List Char) : List Char → Bool
  | [] => sub.isEmpty
  | c :: cs => sub.isPrefixOf (c :: cs) || containsChars sub cs

/-- The Go function `strings.Contains`. -/
def containsStr (s sub : String) : Bool :=
  containsChars sub.data s.data

/-- The innermost loop of `getCRDResources`, over the descriptors of one
list. -/
def crdResourceLoop (resourceName : String) (resources : List APIResource) :
    List APIResource → List APIResource
  | [] => resources
  | resource :: rest =>
    if resource.Name = resourceName then crdResourceLoop resourceName (resources ++ [resource]) rest
    else crdResourceLoop resourceName resources rest

/-- The loop of `getCRDResources` over the discovered lists. -/
def crdListLoop (resourceName group : String) (resources : List APIResource) :
    List (Option APIResourceList) → List APIResource
  | [] => resources
  | none :: rest => crdListLoop resourceName group resources rest
  | some list :: rest =>
    if containsStr list.GroupVersion group then
      crdListLoop resourceName group
        (crdResourceLoop resourceName resources list.APIResources) rest
    else crdListLoop resourceName group resources rest

/-- The loop of `getCRDResources` over `IncludeCRDs`. `discover n` is the
answer to the discovery call made after `n` earlier ones; `calls` counts the
calls made so far. -/
def crdLoop (discover : Nat → DiscoveryAnswer) (calls : Nat) (resources : List APIResource) :
    List String → List APIResource
  | [] => resources
  | crd :: rest =>
    let parts := split crd '.'
    if parts.length < 2 then crdLoop discover calls resources rest
    else
      let resourceName := parts.getD 0 ""
      let group := join (parts.drop 1) '.'
      let answer := discover calls
      match answer.err with
      | some _ => crdLoop discover (calls + 1) resources rest
      | none =>
        crdLoop discover (calls + 1) (crdListLoop resourceName group resources answer.lists) rest

/-- The method `getCRDResources`, started after `calls` discovery calls. -/
def getCRDResources (discover : Nat → DiscoveryAnswer) (calls : Nat) (cfg : BackupConfig) :
    Except String (List APIResource) :=
  Except.ok (crdLoop discover calls [] cfg.IncludeCRDs)

/-- The inner loop of `getAPIResources`, over the descriptors of one list. -/
def includeResourceLoop (equalFold : String → String → Bool) (cfg : BackupConfig)
    (groupVersion : String) (allResources : List APIResource) :
    List APIResource → List APIResource
  | [] => allResources
  | resource :: rest =>
    if shouldIncludeResource equalFold cfg resource groupVersion then
      includeResourceLoop equalFold cfg groupVersion (allResources ++ [resource]) rest
    else includeResourceLoop equalFold cfg groupVersion allResources rest

/-- The outer loop of `getAPIResources`, over the discovered lists. -/
def includeListLoop (equalFold : String → String → Bool) (cfg : BackupConfig)
    (allResources : List APIResource) : List (Option APIResourceList) → List APIResource
  | [] => allResources
  | none :: rest => includeListLoop equalFold cfg allResources rest
  | some list :: rest =>
    includeListLoop equalFold cfg
      (includeResourceLoop equalFold cfg list.GroupVersion allResources list.APIResources) rest

/-- The method `getAPIResources`: its discovery call is the first one, those
of `getCRDResources` follow. -/
def getAPIResources (equalFold : String → String → Bool) (discover : Nat → DiscoveryAnswer)
    (cfg : BackupConfig) : Except String (List APIResource) :=
  let answer := discover 0
  let allResources := includeListLoop equalFold cfg [] answer.lists
  if cfg.IncludeCRDs.length > 0 then
    match getCRDResources discover 1 cfg with
    | Except.error _ => Except.ok allResources
    | Except.ok crdResources => Except.ok (allResources ++ crdResources)
  else Except.ok allResources

/-- The name part of a configured custom-resource entry, in the words of the
specification: the text before the first `.`. -/
def crdEntryName (entry : String) : String :=
  String.mk (entry.data.takeWhile (fun c => c ≠ '.'))

/-- The group part of a configured custom-resource entry, in the words of
the specification: the text after the first `.`. -/
def crdEntryGroup (entry : String) : String :=
  String.mk ((entry.data.dropWhile (fun c => c ≠ '.')).drop 1)

/-- The descriptors that one configured entry selects from the discovered
lists, in the words of the specification: for an entry with a `.`, the
descriptors named like its name part in the lists whose group-version string
contains its group part, in discovery order; nothing for an entry without
a `.`. -/
def crdEntryMatches (entry : String) (lists : List (Option APIResourceList)) :
    List APIResource :=
  if '.' ∈ entry.data then
    (lists.filterMap id).flatMap (fun list =>
      if containsStr list.GroupVersion (crdEntryGroup entry) then
        list.APIResources.filter (fun resource => resource.Name = crdEntryName entry)
      else [])
  else []

/-- The descriptors of the discovered lists that pass
`shouldIncludeResource`, in discovery order. -/
def includedResources (equalFold : String → String → Bool) (cfg : BackupConfig)
    (lists : List (Option APIResourceList)) : List APIResource :=
  (lists.filterMap id).flatMap (fun list =>
    list.APIResources.filter (fun resource =>
      shouldIncludeResource equalFold cfg resource list.GroupVersion))

/-! ## The run -/

/-- The variables of the namespace loop of `Run`: the total, the number of
times the error branch was taken, and the outcome of every namespace. -/
structure RunState where
  totalResources : Nat
  namespaceErrors : Nat
  namespaces : List NamespaceOutcome
  deriving DecidableEq, Repr

/-- What `Run` returns, with the final loop variables when the loop was
reached. -/
structure RunOutcome where
  err : Option String
  loop : Option RunState
  deriving DecidableEq, Repr

/-- The namespace loop of `Run`. -/
def namespacesLoop (list : ListCall → Except String (List Unstructured))
    (marshal : List (String × Value) → Except String String)
    (putObject : PutObjectCall → Option String) (cfg : BackupConfig) (config : Config)
    (apiResources : List APIResource) (st : RunState) : List String → RunState
  | [] => st
  | ns :: rest =>
    let outcome := backupNamespace list marshal putObject cfg config ns apiResources
    match outcome.err with
    | some _ =>
      namespacesLoop list marshal putObject cfg config apiResources
        { st with namespaceErrors := st.namespaceErrors + 1,
                  namespaces := st.namespaces ++ [outcome] } rest
    | none =>
      namespacesLoop list marshal putObject cfg config apiResources
        { st with totalResources := st.totalResources + outcome.count,
                  namespaces := st.namespaces ++ [outcome] } rest

/-- The method `Run` from the bucket check on. `bucketExists` is the answer
of `BucketExists`, `nsListing` that of the namespace list call. The
detection of the platform flavour before it only sets `OpenShiftMode`, which
nothing below reads. -/
def Run (equalFold : String → String → Bool) (bucketExists : Except String Bool)
    (discover : Nat → DiscoveryAnswer) (nsListing : Except String (List String))
    (list : ListCall → Except String (List Unstructured))
    (marshal : List (String × Value) → Except String String)
    (putObject : PutObjectCall → Option String) (cfg : BackupConfig) (config : Config) :
    RunOutcome :=
  match bucketExists with
  | Except.error err =>
    { err := some ("failed to check bucket existence: " ++ err), loop := none }
  | Except.ok false =>
    { err := some ("bucket " ++ config.MinIOBucket ++ " does not exist"), loop := none }
  | Except.ok true =>
    match getAPIResources equalFold discover cfg with
    | Except.error err => { err := some ("failed to get API resources: " ++ err), loop := none }
    | Except.ok apiResources =>
      match (getNamespacesToBackup cfg nsListing).result with
      | Except.error err => { err := some ("failed to get namespaces: " ++ err), loop := none }
      | Except.ok namespaces =>
        { err := none
          loop := some (namespacesLoop list marshal putObject cfg config apiResources
            { totalResources := 0, namespaceErrors := 0, namespaces := [] } namespaces) }

/-! ## Export pipeline: example inputs -/

/-- A config map named `name`. -/
def configMapInstance (name : String) : Unstructured :=
  { Object := [("kind", Value.str "ConfigMap"), ("metadata", Value.map [("name", Value.str name)])]
    name := name }

/-- A serializer that fails on documents of the config map `broken` and
succeeds on all others. -/
def pickyMarshal (resource : List (String × Value)) : Except String String :=
  match getKey (metadataOf resource) "name" with
  | some (Value.str "broken") => Except.error "cannot marshal"
  | _ => Except.ok "kind: ConfigMap"

/-- An object store that refuses the object of the config map `heavy`. -/
def pickyStore (call : PutObjectCall) : Option String :=
  if call.objectPath = "clusterbackup/production-east/shop/configmaps/heavy.yaml" then
    some "entity too large"
  else none

/-- The default policy with owner references followed, so that only the
annotation rule can skip. -/
def followOwnersConfig : BackupConfig :=
  { getDefaultBackupConfig with FollowOwnerReferences := true }

/-- The same policy with invalid instances fatal. -/
def strictConfig : BackupConfig :=
  { followOwnersConfig with SkipInvalidResources := false }

/-- The catalog descriptor `configmaps`. -/
def configmapsResource : APIResource :=
  { Name := "configmaps", Kind := "ConfigMap", Verbs := ["get", "list"] }

/-- The catalog descriptor `secrets`. -/
def secretsResource : APIResource :=
  { Name := "secrets", Kind := "Secret", Verbs := ["get", "list"] }

/-- A cluster in which the config maps of a namespace are `a`, `heavy` and
`b`, its secrets cannot be listed, and every other listing has the one
instance `only`. -/
def sampleCluster (call : ListCall) : Except String (List Unstructured) :=
  if call.gvr.Resource = "configmaps" then
    Except.ok [configMapInstance "a", configMapInstance "heavy", configMapInstance "b"]
  else if call.gvr.Resource = "secrets" then Except.error "forbidden"
  else Except.ok [configMapInstance "only"]

/-- The descriptor `routes` of OpenShift, which has no list verb here. -/
def routesResource : APIResource :=
  { Name := "routes", Kind := "Route", Verbs := ["get"] }

/-- A discovery answer with the core list and the route list. -/
def sampleLists : List (Option APIResourceList) :=
  [some { GroupVersion := "v1", APIResources := [podsResource, nodesResource] },
   none,
   some { GroupVersion := "route.openshift.io/v1", APIResources := [routesResource] },
   some { GroupVersion := "apps/v1", APIResources := [deploymentsResource] }]

/-- A discovery client that always answers with `sampleLists` and no error. -/
def steadyDiscovery (_ : Nat) : DiscoveryAnswer :=
  { lists := sampleLists, err := none }

/-- A discovery client that always answers with `sampleLists` and the error
of a partial failure. -/
def partialDiscovery (_ : Nat) : DiscoveryAnswer :=
  { lists := sampleLists
    err := some "unable to retrieve the complete list of server APIs: metrics.k8s.io/v1beta1" }

/-- The default policy asking for the custom resources `routes` and
`deployments`. -/
def crdConfig : BackupConfig :=
  { getDefaultBackupConfig with
    IncludeCRDs := ["routes.route.openshift.io", "plain", "deployments.apps"] }

/-- Two descriptors named `ingresses`, of different groups and versions. -/
def ingressesOld : APIResource :=
  { Name := "ingresses", Kind := "Ingress", Group := "extensions", Version := "v1beta1",
    Verbs := ["list"] }

/-- The second of the two descriptors named `ingresses`. -/
def ingressesNew : APIResource :=
  { Name := "ingresses", Kind := "Ingress", Group := "networking.k8s.io", Version := "v1",
    Verbs := ["list"] }

/-- A cluster whose every listing is the config maps `a`, `broken` and `b`. -/
def invalidCluster (_ : ListCall) : Except String (List Unstructured) :=
  Except.ok [configMapInstance "a", configMapInstance "broken", configMapInstance "b"]

/-- The catalog of the namespace example: config maps, secrets and pods. -/
def sampleCatalog : List APIResource :=
  [configmapsResource, secretsResource, podsResource]

/-- A selector with two `=`, owner references followed. -/
def malformedSelectorConfig : BackupConfig :=
  { followOwnersConfig with AnnotationSelector := "a=b=c" }

/-- A selector with an empty value, owner references followed. -/
def emptyValueSelectorConfig : BackupConfig :=
  { followOwnersConfig with AnnotationSelector := "team=" }

/-- An instance annotated `other: x`, which has no annotation `team`. -/
def otherAnnotatedInstance : Unstructured :=
  { Object := [("kind", Value.str "ConfigMap"),
               ("metadata", Value.map [("name", Value.str "settings"),
                 ("annotations", Value.map [("other", Value.str "x")])])]
    annotations := some [("other", "x")]
    name := "settings" }

/-- A policy whose filtering mode is written with a capital letter. -/
def capitalModeConfig : BackupConfig :=
  { whitelistConfig with FilteringMode := "Whitelist" }

/-- The result of `getCRDResources` as a function of the entries: every
entry with a `.` makes one discovery call, the `calls`-th so far, and gives
the descriptors it selects from the lists of that call when the call
returned no error; an entry whose call returned an error and an entry
without a `.` give nothing. -/
def crdExpected (discover : Nat → DiscoveryAnswer) : Nat → List String → List APIResource
  | _, [] => []
  | calls, entry :: rest =>
    if '.' ∈ entry.data then
      (if (discover calls).err = none then crdEntryMatches entry (discover calls).lists else []) ++
        crdExpected discover (calls + 1) rest
    else crdExpected discover calls rest

/-- The policy asking for the one custom resource `routes`. -/
def routesCrdConfig : BackupConfig :=
  { getDefaultBackupConfig with IncludeCRDs := ["routes.route.openshift.io"] }

/-- A discovery client that always answers with the one list of config maps,
secrets and pods. -/
def shopDiscovery (_ : Nat) : DiscoveryAnswer :=
  { lists :=
      [some { GroupVersion := "v1"
              APIResources := [configmapsResource, secretsResource, podsResource] }]
    err := none }

/-- The `PutObject` call that `uploadResource` makes for the serialized
text `yamlData`. -/
def uploadCall (config : Config) (ns resourceType name yamlData : String) : PutObjectCall :=
  { bucket := config.MinIOBucket
    objectPath := objectPath config.ClusterName ns resourceType name
    data := yamlData
    contentType := "application/x-yaml" }

/-- A serializer whose text shows the `apiVersion` of the document. -/
def versionMarshal (resource : List (String × Value)) : Except String String :=
  match getKey resource "apiVersion" with
  | some (Value.str version) => Except.ok ("apiVersion: " ++ version)
  | _ => Except.ok "apiVersion: unknown"

/-- An ingress named `name` as the API version `version` serves it. -/
def ingressInstance (version name : String) : Unstructured :=
  { Object := [("apiVersion", Value.str version), ("kind", Value.str "Ingress"),
               ("metadata", Value.map [("name", Value.str name)])]
    name := name }

/-- A cluster that serves the ingress `web` under both API groups, and the
ingresses `api` and `docs` under the newer one only. -/
def ingressCluster (call : ListCall) : Except String (List Unstructured) :=
  if call.gvr.Group = "extensions" then
    Except.ok [ingressInstance "extensions/v1beta1" "web"]
  else if call.gvr.Group = "networking.k8s.io" then
    Except.ok [ingressInstance "networking.k8s.io/v1" "api",
               ingressInstance "networking.k8s.io/v1" "web",
               ingressInstance "networking.k8s.io/v1" "docs"]
  else Except.ok []

/-! # Lemmas and theorems -/

/-! ## Catalog filter: lemmas -/

theorem containsVerb_iff (verbs : List String) (verb : String) :
    containsVerb verbs verb = true ↔ verb ∈ verbs := by
  induction verbs with
  | nil => simp [containsVerb]
  | cons v vs ih =>
    unfold containsVerb
    by_cases h : v = verb
    · simp [h]
    · have h2 : ¬ verb = v := fun e => h e.symm
      simp [h, h2, ih]

theorem matchLoop_iff (equalFold : String → String → Bool) (n f : String)
    (l : List String) :
    matchLoop equalFold n f l = true ↔
      ∃ e ∈ l, equalFold n e = true ∨ equalFold f e = true := by
  induction l with
  | nil => simp [matchLoop]
  | cons e es ih =>
    unfold matchLoop
    by_cases h : (equalFold n e || equalFold f e) = true
    · have h2 := h
      simp only [Bool.or_eq_true] at h2
      simp [h, h2]
    · have h2 := h
      simp only [Bool.or_eq_true] at h2
      simp [h, h2, ih]

theorem splitChars_ne_nil (sep : Char) (l : List Char) : splitChars sep l ≠ [] := by
  cases l with
  | nil => simp [splitChars]
  | cons c cs =>
    unfold splitChars
    split
    · simp
    · split <;> simp

theorem splitChars_head (sep : Char) (l : List Char) :
    (splitChars sep l).headD [] = l.takeWhile (fun c => c ≠ sep) := by
  induction l with
  | nil => simp [splitChars]
  | cons c cs ih =>
    unfold splitChars
    by_cases h : c = sep
    · simp [h]
    · cases hs : splitChars sep cs with
      | nil => exact absurd hs (splitChars_ne_nil sep cs)
      | cons p ps =>
        rw [hs] at ih
        simp only [List.headD_cons] at ih
        simp [h, List.takeWhile_cons, ih]

theorem split_head (s : String) (sep : Char) :
    (split s sep).headD "" = String.mk (s.data.takeWhile (fun c => c ≠ sep)) := by
  have h := splitChars_head sep s.data
  unfold split
  cases hs : splitChars sep s.data with
  | nil => exact absurd hs (splitChars_ne_nil sep s.data)
  | cons p ps =>
    rw [hs] at h
    simp only [List.headD_cons] at h
    simp [h]

/-- The name compared besides the short name is `name.group` when the
group-version string carries a group, and the short name itself otherwise. -/
theorem resourceFullName_eq (name groupVersion : String) :
    resourceFullName name groupVersion =
      match apiGroupOf groupVersion with
      | some group => name ++ "." ++ group
      | none => name := by
  unfold resourceFullName apiGroupOf containsChar
  rw [split_head]
  generalize List.takeWhile (fun c => c ≠ '/') groupVersion.data = t
  have hmk : String.mk t = "" ↔ t = [] := by
    constructor
    · intro h
      exact congrArg String.data h
    · intro h
      rw [h]
  by_cases h1 : '/' ∈ groupVersion.data
  · by_cases h2 : t = []
    · have h3 : String.mk t = "" := hmk.2 h2
      simp only [h1, h2, h3, decide_True, if_true, ne_eq, not_true_eq_false, and_false,
        if_false]
    · have h3 : ¬ String.mk t = "" := fun h => h2 (hmk.1 h)
      simp only [h1, h2, h3, decide_True, if_true, ne_eq, not_false_eq_true, and_self]
  · simp only [h1, decide_False, false_and, if_false, Bool.false_eq_true]

theorem gate_open (resource : APIResource)
    (hlist : "list" ∈ resource.Verbs) (hname : '/' ∉ resource.Name.data) :
    (!containsVerb resource.Verbs "list" || containsChar resource.Name '/') = false := by
  have h1 : containsVerb resource.Verbs "list" = true := (containsVerb_iff _ _).2 hlist
  have h2 : containsChar resource.Name '/' = false := by
    simp [containsChar, hname]
  simp [h1, h2]

theorem shouldInclude_whitelist (equalFold : String → String → Bool) (cfg : BackupConfig)
    (resource : APIResource) (groupVersion : String)
    (hmode : cfg.FilteringMode = "whitelist")
    (hlist : "list" ∈ resource.Verbs) (hname : '/' ∉ resource.Name.data) :
    shouldIncludeResource equalFold cfg resource groupVersion =
      matchLoop equalFold resource.Name (resourceFullName resource.Name groupVersion)
        cfg.IncludeResources := by
  unfold shouldIncludeResource
  simp only [gate_open resource hlist hname, hmode, isInIncludeList, Bool.false_eq_true,
    if_false, if_true]

theorem shouldInclude_blacklist (equalFold : String → String → Bool) (cfg : BackupConfig)
    (resource : APIResource) (groupVersion : String)
    (hmode : cfg.FilteringMode ≠ "whitelist" ∧ cfg.FilteringMode ≠ "hybrid")
    (hlist : "list" ∈ resource.Verbs) (hname : '/' ∉ resource.Name.data) :
    shouldIncludeResource equalFold cfg resource groupVersion =
      !matchLoop equalFold resource.Name (resourceFullName resource.Name groupVersion)
        cfg.ExcludeResources := by
  unfold shouldIncludeResource
  simp only [gate_open resource hlist hname, hmode.1, hmode.2, isInExcludeList,
    Bool.false_eq_true, if_false, ite_self]

theorem shouldInclude_hybrid (equalFold : String → String → Bool) (cfg : BackupConfig)
    (resource : APIResource) (groupVersion : String)
    (hmode : cfg.FilteringMode = "hybrid")
    (hlist : "list" ∈ resource.Verbs) (hname : '/' ∉ resource.Name.data) :
    shouldIncludeResource equalFold cfg resource groupVersion =
      ((cfg.IncludeResources.isEmpty ||
          matchLoop equalFold resource.Name (resourceFullName resource.Name groupVersion)
            cfg.IncludeResources) &&
        !matchLoop equalFold resource.Name (resourceFullName resource.Name groupVersion)
          cfg.ExcludeResources) := by
  unfold shouldIncludeResource
  have hw : ¬ ("hybrid" = "whitelist") := by decide
  have hb : ¬ ("hybrid" = "blacklist") := by decide
  simp only [gate_open resource hlist hname, hmode, hw, hb, isInExcludeList, isInIncludeList,
    Bool.false_eq_true, if_false, if_true]
  cases hl : cfg.IncludeResources with
  | nil => simp
  | cons a l =>
    cases hm : matchLoop equalFold resource.Name (resourceFullName resource.Name groupVersion)
      (a :: l) <;> simp

/-- With a group in the group-version string the loop compares the short
name and `name.group`; without one it compares the short name only. -/
theorem matchLoop_fullName_iff (equalFold : String → String → Bool) (name groupVersion : String)
    (l : List String) :
    matchLoop equalFold name (resourceFullName name groupVersion) l = true ↔
      ∃ e ∈ l, matchesEntry equalFold name groupVersion e = true := by
  rw [resourceFullName_eq, matchLoop_iff]
  unfold matchesEntry
  cases hg : apiGroupOf groupVersion with
  | none => simp
  | some g => simp

theorem foldEqChars_refl (l : List Char) : foldEqChars l l = true := by
  induction l with
  | nil => rfl
  | cons c cs ih => simp [foldEqChars, foldEqChar, ih]

theorem equalFoldASCII_refl (s : String) : equalFoldASCII s s = true :=
  foldEqChars_refl s.data

/-! ## Catalog filter: the claims -/

/-- C1: in whitelist mode a descriptor that has the list verb and no `/` in
its name is included exactly when its short name, or its qualified name
`name.group` (the group being the text of the group-version string before
the `/`, when there is one), case-insensitively equals an entry of
`IncludeResources`. -/
theorem whitelist_include_iff (equalFold : String → String → Bool) (cfg : BackupConfig)
    (resource : APIResource) (groupVersion : String)
    (hmode : cfg.FilteringMode = "whitelist")
    (hlist : "list" ∈ resource.Verbs) (hname : '/' ∉ resource.Name.data) :
    shouldIncludeResource equalFold cfg resource groupVersion = true ↔
      ∃ e ∈ cfg.IncludeResources, matchesEntry equalFold resource.Name groupVersion e = true := by
  rw [shouldInclude_whitelist equalFold cfg resource groupVersion hmode hlist hname]
  exact matchLoop_fullName_iff equalFold resource.Name groupVersion cfg.IncludeResources

/-- Witness for C1: `deployments` of `apps/v1` is included by the entry
`Deployments.Apps`, and `pods` of `v1` is not. -/
theorem whitelist_include_iff_witness :
    (shouldIncludeResource equalFoldASCII whitelistConfig deploymentsResource "apps/v1" = true ↔
      ∃ e ∈ whitelistConfig.IncludeResources,
        matchesEntry equalFoldASCII deploymentsResource.Name "apps/v1" e = true) ∧
    shouldIncludeResource equalFoldASCII whitelistConfig deploymentsResource "apps/v1" = true ∧
    shouldIncludeResource equalFoldASCII whitelistConfig podsResource "v1" = false :=
  ⟨whitelist_include_iff equalFoldASCII whitelistConfig deploymentsResource "apps/v1"
    (by decide) (by decide) (by decide), by decide, by decide⟩

/-- C2, as stated, fails: in blacklist mode with `ExcludeResources =
["deployments.apps"]` the listable descriptor `deployments` of `apps/v1`
has a name that is no entry of the list, and it is rejected. -/
theorem blacklist_other_name_rejected :
    blacklistQualifiedConfig.FilteringMode = "blacklist" ∧
    "list" ∈ deploymentsResource.Verbs ∧ '/' ∉ deploymentsResource.Name.data ∧
    deploymentsResource.Name ∉ blacklistQualifiedConfig.ExcludeResources ∧
    shouldIncludeResource equalFoldASCII blacklistQualifiedConfig deploymentsResource
      "apps/v1" = false := by
  decide

/-- C2, amended: in blacklist mode a descriptor that has the list verb and
no `/` in its name is rejected when its name is an entry of
`ExcludeResources`, and it is included exactly when neither its short name
nor its qualified name case-insensitively equals an entry. `equalFold` is
reflexive, as `strings.EqualFold` is. -/
theorem blacklist_include_iff (equalFold : String → String → Bool)
    (hrefl : ∀ s, equalFold s s = true) (cfg : BackupConfig)
    (resource : APIResource) (groupVersion : String)
    (hmode : cfg.FilteringMode = "blacklist")
    (hlist : "list" ∈ resource.Verbs) (hname : '/' ∉ resource.Name.data) :
    (resource.Name ∈ cfg.ExcludeResources →
      shouldIncludeResource equalFold cfg resource groupVersion = false) ∧
    (shouldIncludeResource equalFold cfg resource groupVersion = true ↔
      ¬ ∃ e ∈ cfg.ExcludeResources,
        matchesEntry equalFold resource.Name groupVersion e = true) := by
  have hm : cfg.FilteringMode ≠ "whitelist" ∧ cfg.FilteringMode ≠ "hybrid" := by
    rw [hmode]
    decide
  rw [shouldInclude_blacklist equalFold cfg resource groupVersion hm hlist hname]
  have key := matchLoop_fullName_iff equalFold resource.Name groupVersion cfg.ExcludeResources
  constructor
  · intro hin
    have : matchLoop equalFold resource.Name (resourceFullName resource.Name groupVersion)
        cfg.ExcludeResources = true :=
      key.2 ⟨resource.Name, hin, by simp [matchesEntry, hrefl]⟩
    simp [this]
  · rw [← key]
    simp

/-- Witness for C2: with `ExcludeResources = ["events", "nodes"]`, `pods`
is included and `nodes` is rejected. -/
theorem blacklist_include_iff_witness :
    ((nodesResource.Name ∈ blacklistConfig.ExcludeResources →
        shouldIncludeResource equalFoldASCII blacklistConfig nodesResource "v1" = false) ∧
      (shouldIncludeResource equalFoldASCII blacklistConfig nodesResource "v1" = true ↔
        ¬ ∃ e ∈ blacklistConfig.ExcludeResources,
          matchesEntry equalFoldASCII nodesResource.Name "v1" e = true)) ∧
    shouldIncludeResource equalFoldASCII blacklistConfig podsResource "v1" = true ∧
    shouldIncludeResource equalFoldASCII blacklistConfig nodesResource "v1" = false :=
  ⟨blacklist_include_iff equalFoldASCII equalFoldASCII_refl blacklistConfig nodesResource "v1"
    (by decide) (by decide) (by decide), by decide, by decide⟩

/-- C3: in hybrid mode a descriptor that has the list verb and no `/` in
its name is included exactly when `IncludeResources` is empty or names it,
and `ExcludeResources` does not name it; a descriptor named by both lists
is rejected. -/
theorem hybrid_include_iff (equalFold : String → String → Bool) (cfg : BackupConfig)
    (resource : APIResource) (groupVersion : String)
    (hmode : cfg.FilteringMode = "hybrid")
    (hlist : "list" ∈ resource.Verbs) (hname : '/' ∉ resource.Name.data) :
    (shouldIncludeResource equalFold cfg resource groupVersion = true ↔
      (cfg.IncludeResources = [] ∨
        ∃ e ∈ cfg.IncludeResources,
          matchesEntry equalFold resource.Name groupVersion e = true) ∧
      ¬ ∃ e ∈ cfg.ExcludeResources,
          matchesEntry equalFold resource.Name groupVersion e = true) ∧
    ((∃ e ∈ cfg.IncludeResources, matchesEntry equalFold resource.Name groupVersion e = true) →
      (∃ e ∈ cfg.ExcludeResources, matchesEntry equalFold resource.Name groupVersion e = true) →
      shouldIncludeResource equalFold cfg resource groupVersion = false) := by
  rw [shouldInclude_hybrid equalFold cfg resource groupVersion hmode hlist hname]
  have ki := matchLoop_fullName_iff equalFold resource.Name groupVersion cfg.IncludeResources
  have ke := matchLoop_fullName_iff equalFold resource.Name groupVersion cfg.ExcludeResources
  constructor
  · rw [← ki, ← ke]
    simp [List.isEmpty_iff]
  · intro _ he
    rw [ke.2 he]
    simp

/-- Witness for C3: with `pods` in both lists `pods` is rejected, and
`deployments`, in the include list only, is included. -/
theorem hybrid_include_iff_witness :
    shouldIncludeResource equalFoldASCII hybridConfig podsResource "v1" = false ∧
    shouldIncludeResource equalFoldASCII hybridConfig deploymentsResource "apps/v1" = true :=
  ⟨(hybrid_include_iff equalFoldASCII hybridConfig podsResource "v1"
      (by decide) (by decide) (by decide)).2 (by decide) (by decide), by decide⟩

/-- C4: whatever the filtering mode and the lists, a descriptor without the
list verb, or with a `/` in its name, is rejected. -/
theorem gate_rejects (equalFold : String → String → Bool) (cfg : BackupConfig)
    (resource : APIResource) (groupVersion : String)
    (hgate : "list" ∉ resource.Verbs ∨ '/' ∈ resource.Name.data) :
    shouldIncludeResource equalFold cfg resource groupVersion = false := by
  unfold shouldIncludeResource
  have h : (!containsVerb resource.Verbs "list" || containsChar resource.Name '/') = true := by
    rcases hgate with h | h
    · have : containsVerb resource.Verbs "list" = false := by
        cases hc : containsVerb resource.Verbs "list" with
        | false => rfl
        | true => exact absurd ((containsVerb_iff _ _).1 hc) h
      simp [this]
    · simp [containsChar, h]
  simp only [h, if_true]

/-- Witness for C4: the subresource `pods/log` is rejected in whitelist
mode although `IncludeResources` names it. -/
theorem gate_rejects_witness :
    (∃ e ∈ whitelistSubresourceConfig.IncludeResources,
      matchesEntry equalFoldASCII podsLogResource.Name "v1" e = true) ∧
    ("list" ∉ podsLogResource.Verbs ∨ '/' ∈ podsLogResource.Name.data) ∧
    shouldIncludeResource equalFoldASCII whitelistSubresourceConfig podsLogResource "v1" =
      false :=
  ⟨by decide, by decide,
    gate_rejects equalFoldASCII whitelistSubresourceConfig podsLogResource "v1" (by decide)⟩



/-! ## Namespace selector: lemmas and claims -/

theorem excludeNamespaceLoop_iff (ns : String) (l : List String) :
    excludeNamespaceLoop ns l = true ↔ ns ∈ l := by
  induction l with
  | nil => simp [excludeNamespaceLoop]
  | cons e es ih =>
    unfold excludeNamespaceLoop
    by_cases h : ns = e
    · simp [h]
    · simp [h, ih]

theorem namespaceLoop_eq (cfg : BackupConfig) (result items : List String) :
    namespaceLoop cfg result items =
      result ++ items.filter (fun ns => decide (ns ∉ cfg.ExcludeNamespaces)) := by
  induction items generalizing result with
  | nil => simp [namespaceLoop]
  | cons ns rest ih =>
    unfold namespaceLoop
    by_cases h : ns ∈ cfg.ExcludeNamespaces
    · have hx : shouldExcludeNamespace cfg ns = true := (excludeNamespaceLoop_iff _ _).2 h
      simp [hx, h, ih, List.filter_cons]
    · have hx : shouldExcludeNamespace cfg ns = false := by
        cases hc : shouldExcludeNamespace cfg ns with
        | false => rfl
        | true => exact absurd ((excludeNamespaceLoop_iff _ _).1 hc) h
      simp [hx, h, ih, List.filter_cons]

/-- C5: with a non-empty `IncludeNamespaces`, `getNamespacesToBackup`
returns that list unchanged and without error, and sends no list call to
the cluster, whatever `ExcludeNamespaces` holds and whatever the cluster
would answer. -/
theorem include_namespaces_verbatim (cfg : BackupConfig)
    (listing : Except String (List String)) (hne : cfg.IncludeNamespaces ≠ []) :
    (getNamespacesToBackup cfg listing).result = Except.ok cfg.IncludeNamespaces ∧
    (getNamespacesToBackup cfg listing).listCalls = 0 := by
  unfold getNamespacesToBackup
  have hlen : cfg.IncludeNamespaces.length > 0 := List.length_pos.2 hne
  simp only [hlen, if_true, and_self]

/-- Witness for C5: `kube-system` is both included and excluded, and it is
returned; a failing cluster API does not matter. -/
theorem include_namespaces_verbatim_witness :
    "kube-system" ∈ includeNamespacesConfig.ExcludeNamespaces ∧
    (getNamespacesToBackup includeNamespacesConfig (Except.error "unreachable")).result =
      Except.ok ["kube-system", "shop"] ∧
    (getNamespacesToBackup includeNamespacesConfig (Except.error "unreachable")).listCalls = 0 :=
  ⟨by decide,
    include_namespaces_verbatim includeNamespacesConfig (Except.error "unreachable")
      (by decide)⟩

/-- C6: with an empty `IncludeNamespaces` and a successful listing,
`getNamespacesToBackup` returns the listed names that are no entry of
`ExcludeNamespaces` (string equality), in listing order, each as often as
it is listed. -/
theorem listed_namespaces_filtered (cfg : BackupConfig) (items : List String)
    (hempty : cfg.IncludeNamespaces = []) :
    (getNamespacesToBackup cfg (Except.ok items)).result =
      Except.ok (items.filter (fun ns => decide (ns ∉ cfg.ExcludeNamespaces))) := by
  unfold getNamespacesToBackup
  simp [hempty, namespaceLoop_eq]

/-- Witness for C6: the default configuration drops `kube-system` and keeps
`Kube-System`, `shop` and both occurrences of `lab`, in order. -/
theorem listed_namespaces_filtered_witness :
    (getNamespacesToBackup getDefaultBackupConfig
      (Except.ok ["lab", "kube-system", "Kube-System", "shop", "lab"])).result =
      Except.ok ["lab", "Kube-System", "shop", "lab"] :=
  (listed_namespaces_filtered getDefaultBackupConfig
    ["lab", "kube-system", "Kube-System", "shop", "lab"] (by decide)).trans
    (congrArg Except.ok (by decide))

/-- C7 fails on the code: a ConfigMap with the key `exclude-namespaces` set
to `my-team, sandbox` yields `ExcludeNamespaces = ["my-team", "sandbox"]`;
the baked-in `kube-system` is no longer an entry, and the namespace selector
then exports it. -/
theorem user_exclusions_replace_defaults :
    (parseBackupConfig userExcludeConfigMap).ExcludeNamespaces = ["my-team", "sandbox"] ∧
    "kube-system" ∈ defaultSystemNamespaces ∧
    "kube-system" ∉ (parseBackupConfig userExcludeConfigMap).ExcludeNamespaces ∧
    (getNamespacesToBackup (parseBackupConfig userExcludeConfigMap)
      (Except.ok ["kube-system", "my-team", "shop"])).result =
      Except.ok ["kube-system", "shop"] := by
  refine ⟨by decide, by decide, by decide, ?_⟩
  rfl

/-! ## Maps and splitting: lemmas -/

theorem getKey_deleteKey {α : Type} (m : List (String × α)) (k key : String) :
    getKey (deleteKey m k) key = if key = k then none else getKey m key := by
  induction m with
  | nil => simp [deleteKey, getKey]
  | cons kv rest ih =>
    obtain ⟨k0, v0⟩ := kv
    unfold deleteKey
    by_cases h2 : key = k
    · subst h2
      simp only [if_true] at ih
      by_cases h : k0 = key
      · simp [h, ih]
      · simp [h, getKey, ih]
    · simp only [h2, if_false] at ih
      by_cases h : k0 = k
      · have h3 : ¬ k = key := fun e => h2 e.symm
        simp [h, h2, h3, ih, getKey]
      · by_cases h4 : k0 = key
        · simp [h, h2, h4, getKey]
        · simp [h, h2, h4, getKey, ih]

theorem getKey_setKey {α : Type} (m : List (String × α)) (k key : String) (v : α) :
    getKey (setKey m k v) key =
      if key = k then (getKey m k).map (fun _ => v) else getKey m key := by
  induction m with
  | nil => simp [setKey, getKey]
  | cons kv rest ih =>
    obtain ⟨k0, v0⟩ := kv
    unfold setKey
    by_cases h2 : key = k
    · subst h2
      simp only [if_true] at ih
      by_cases h : k0 = key
      · simp [h, getKey]
      · simp [h, getKey, ih]
    · simp only [h2, if_false] at ih
      by_cases h : k0 = k
      · have h3 : ¬ k = key := fun e => h2 e.symm
        simp [h, h2, h3, getKey]
      · by_cases h4 : k0 = key
        · simp [h, h2, h4, getKey]
        · simp [h, h2, h4, getKey, ih]

theorem hasKey_setKey {α : Type} (m : List (String × α)) (k key : String) (v : α) :
    hasKey (setKey m k v) key = hasKey m key := by
  unfold hasKey
  rw [getKey_setKey]
  by_cases h : key = k
  · subst h
    cases getKey m key <;> simp
  · simp [h]

theorem splitChars_no_sep (sep : Char) (b : List Char) (hb : sep ∉ b) :
    splitChars sep b = [b] := by
  induction b with
  | nil => simp [splitChars]
  | cons c cs ih =>
    have hc : ¬ c = sep := fun e => hb (by simp [e])
    have hcs : sep ∉ cs := fun e => hb (List.mem_cons_of_mem _ e)
    unfold splitChars
    simp [hc, ih hcs]

theorem splitChars_append_sep (sep : Char) (a b : List Char) (ha : sep ∉ a) :
    splitChars sep (a ++ sep :: b) = a :: splitChars sep b := by
  induction a with
  | nil => simp [splitChars]
  | cons c cs ih =>
    have hc : ¬ c = sep := fun e => ha (by simp [e])
    have hcs : sep ∉ cs := fun e => ha (List.mem_cons_of_mem _ e)
    simp only [List.cons_append]
    rw [splitChars]
    simp [hc, ih hcs]

/-- A text with exactly one separator splits into its two sides. -/
theorem split_pair (a b : String) (sep : Char) (ha : sep ∉ a.data) (hb : sep ∉ b.data) :
    split (a ++ String.singleton sep ++ b) sep = [a, b] := by
  unfold split
  have hd : (a ++ String.singleton sep ++ b).data = a.data ++ sep :: b.data := by
    simp [String.data_append, String.singleton]
  rw [hd, splitChars_append_sep sep _ _ ha, splitChars_no_sep sep _ hb]
  rfl

/-! ## Skip rule: claims -/

theorem ownerLoop_iff (owners : List OwnerReference) :
    ownerLoop owners = true ↔ ∃ o ∈ owners, o.Controller = some true := by
  induction owners with
  | nil => simp [ownerLoop]
  | cons o rest ih =>
    unfold ownerLoop
    cases hc : o.Controller with
    | none => simp [hc, ih]
    | some b =>
      cases b with
      | true => simp [hc]
      | false => simp [hc, ih]

theorem annotationSkip_of_empty (cfg : BackupConfig) (resource : Unstructured)
    (hsel : cfg.AnnotationSelector = "") : annotationSkip cfg resource = false := by
  unfold annotationSkip
  simp [hsel]

/-- C8, as stated, fails: with the selector `team = platform` the key and
the value are trimmed before the comparison, so an instance annotated
`team: platform`, whose annotations do not bind `"team "` to `" platform"`,
is not skipped. -/
theorem untrimmed_selector_not_skipped :
    spacedSelectorConfig.AnnotationSelector = "team " ++ "=" ++ " platform" ∧
    '=' ∉ "team ".data ∧ '=' ∉ " platform".data ∧
    annotationOf platformInstance "team " ≠ some " platform" ∧
    shouldSkipResource spacedSelectorConfig platformInstance = false := by
  decide

/-- C8, amended: for a selector `key=value` with exactly one `=` whose value
is not empty once trimmed, `shouldSkipResource` returns `true` for every
instance whose annotations are absent or do not bind the trimmed key to
exactly the trimmed value. -/
theorem annotation_mismatch_skipped (cfg : BackupConfig) (resource : Unstructured)
    (key value : String)
    (hsel : cfg.AnnotationSelector = key ++ "=" ++ value)
    (hkey : '=' ∉ key.data) (hvalue : '=' ∉ value.data)
    (hne : trimSpace value ≠ "")
    (hmis : annotationOf resource (trimSpace key) ≠ some (trimSpace value)) :
    shouldSkipResource cfg resource = true := by
  have hsplit : split cfg.AnnotationSelector '=' = [key, value] := by
    rw [hsel]
    exact split_pair key value '=' hkey hvalue
  have hnonempty : cfg.AnnotationSelector ≠ "" := by
    intro h
    have hd := congrArg String.data (hsel.symm.trans h)
    have : (key ++ "=" ++ value).data = key.data ++ '=' :: value.data := by
      simp [String.data_append]
    rw [this] at hd
    simp at hd
  have hskip : annotationSkip cfg resource = true := by
    unfold annotationSkip
    rw [hsplit]
    simp only [hnonempty, ne_eq, not_false_eq_true, if_true]
    unfold annotationOf at hmis
    cases ha : resource.annotations with
    | none => rfl
    | some m =>
      rw [ha] at hmis
      have hm : getKey m (trimSpace key) ≠ some (trimSpace value) := hmis
      simp only [decide_eq_true_eq]
      cases hg : getKey m (trimSpace key) with
      | none =>
        simp only [Option.getD_none]
        exact fun e => hne e.symm
      | some w =>
        rw [hg] at hm
        simp only [Option.getD_some]
        exact fun e => hm (by rw [e])
  unfold shouldSkipResource
  simp [hskip]

/-- Witness for C8: the selector `team=platform` skips an instance without
annotations. -/
theorem annotation_mismatch_skipped_witness :
    bareInstance.annotations = none ∧
    shouldSkipResource teamSelectorConfig bareInstance = true :=
  ⟨rfl, annotation_mismatch_skipped teamSelectorConfig bareInstance "team" "platform"
    (by decide) (by decide) (by decide) (by decide) (by decide)⟩

/-- C9: without an annotation selector, `shouldSkipResource` returns `true`
exactly when `FollowOwnerReferences` is off and some owner reference has
`controller = true`; an instance whose owner references all have the flag
false or unset is kept, and with `FollowOwnerReferences` on nothing is
skipped. -/
theorem owner_rule_iff (cfg : BackupConfig) (resource : Unstructured)
    (hsel : cfg.AnnotationSelector = "") :
    (shouldSkipResource cfg resource = true ↔
      cfg.FollowOwnerReferences = false ∧
        ∃ o ∈ resource.ownerReferences, o.Controller = some true) ∧
    ((∀ o ∈ resource.ownerReferences, o.Controller = some false ∨ o.Controller = none) →
      shouldSkipResource cfg resource = false) ∧
    (cfg.FollowOwnerReferences = true → shouldSkipResource cfg resource = false) := by
  have hiff : shouldSkipResource cfg resource = true ↔
      cfg.FollowOwnerReferences = false ∧
        ∃ o ∈ resource.ownerReferences, o.Controller = some true := by
    unfold shouldSkipResource
    rw [annotationSkip_of_empty cfg resource hsel, ← ownerLoop_iff]
    cases cfg.FollowOwnerReferences <;> simp
  refine ⟨hiff, ?_, ?_⟩
  · intro hall
    cases hs : shouldSkipResource cfg resource with
    | false => rfl
    | true =>
      obtain ⟨_, o, ho, hc⟩ := hiff.1 hs
      rcases hall o ho with h | h <;> rw [h] at hc <;> cases hc
  · intro hfollow
    cases hs : shouldSkipResource cfg resource with
    | false => rfl
    | true =>
      have := (hiff.1 hs).1
      rw [hfollow] at this
      cases this

/-- Witness for C9: with the default policy a pod controlled by a replica
set is skipped, and a pod whose owners are not controllers is kept. -/
theorem owner_rule_iff_witness :
    shouldSkipResource getDefaultBackupConfig controlledInstance = true ∧
    shouldSkipResource getDefaultBackupConfig ownedInstance = false :=
  ⟨(owner_rule_iff getDefaultBackupConfig controlledInstance (by decide)).1.2
      ⟨by decide, by decide⟩,
    (owner_rule_iff getDefaultBackupConfig ownedInstance (by decide)).2.1 (by decide)⟩

/-! ## Sanitizer: claims -/

theorem hasKey_cleanResource (cfg : BackupConfig) (resource : Unstructured) (key : String) :
    hasKey (cleanResource cfg resource) key =
      hasKey (if !cfg.IncludeStatus then deleteKey resource.Object "status"
        else resource.Object) key := by
  unfold cleanResource
  simp only
  split
  · rw [hasKey_setKey]
  · rfl

/-- C10, as stated, fails: with `IncludeStatus` on, a document that has no
`status` key has none after `cleanResource` either. -/
theorem status_absent_with_includeStatus :
    includeStatusConfig.IncludeStatus = true ∧
    hasKey (cleanResource includeStatusConfig bareInstance) "status" = false := by
  decide

/-- C10, amended: the output of `cleanResource` has the top-level key
`status` exactly when `IncludeStatus` is on and the input document has that
key. -/
theorem status_kept_iff (cfg : BackupConfig) (resource : Unstructured) :
    hasKey (cleanResource cfg resource) "status" = true ↔
      cfg.IncludeStatus = true ∧ hasKey resource.Object "status" = true := by
  rw [hasKey_cleanResource]
  cases hs : cfg.IncludeStatus with
  | true => simp
  | false => simp [hasKey, getKey_deleteKey]

/-! ## Sanitizer: metadata and frame -/

theorem getKey_cleanMetadata (cfg : BackupConfig) (metadata : List (String × Value))
    (key : String) :
    getKey (cleanMetadata cfg metadata) key =
      if key ∈ volatileMetadataKeys ∨ (key = "managedFields" ∧ cfg.IncludeManagedFields = false)
      then none else getKey metadata key := by
  unfold cleanMetadata volatileMetadataKeys
  cases hm : cfg.IncludeManagedFields <;>
    simp only [Bool.not_false, Bool.not_true, if_true, Bool.false_eq_true, if_false,
      getKey_deleteKey, List.mem_cons, List.mem_singleton, List.not_mem_nil, or_false,
      and_true, and_false] <;>
    split_ifs <;> simp_all

theorem getKey_metadata_cleaned (cfg : BackupConfig) (resource : Unstructured) :
    getKey (if !cfg.IncludeStatus then deleteKey resource.Object "status"
      else resource.Object) "metadata" = getKey resource.Object "metadata" := by
  cases cfg.IncludeStatus
  · have h : ¬ ("metadata" = "status") := by decide
    simp [getKey_deleteKey, h]
  · simp

theorem getKey_cleanResource (cfg : BackupConfig) (resource : Unstructured) (key : String) :
    getKey (cleanResource cfg resource) key =
      if key = "metadata" then
        match getKey resource.Object "metadata" with
        | some (Value.map metadata) => some (Value.map (cleanMetadata cfg metadata))
        | other => other
      else if key = "status" ∧ cfg.IncludeStatus = false then none
      else getKey resource.Object key := by
  have hmeta := getKey_metadata_cleaned cfg resource
  unfold cleanResource
  simp only
  generalize hc : (if !cfg.IncludeStatus then deleteKey resource.Object "status"
    else resource.Object) = cleaned at hmeta
  have hother : ∀ k, k ≠ "metadata" →
      getKey cleaned k =
        if k = "status" ∧ cfg.IncludeStatus = false then none else getKey resource.Object k := by
    intro k _
    rw [← hc]
    cases cfg.IncludeStatus
    · simp [getKey_deleteKey]
    · simp
  rw [← hmeta]
  by_cases hk : key = "metadata"
  · subst hk
    simp only [if_true]
    split
    · next metadata heq =>
        rw [getKey_setKey, heq]
        simp
    · next hne =>
        cases hg : getKey cleaned "metadata" with
        | none => rfl
        | some v =>
          cases v with
          | map metadata => exact absurd hg (hne metadata)
          | _ => rfl
  · simp only [hk, if_false]
    split
    · rw [getKey_setKey]
      simp only [hk, if_false]
      exact hother key hk
    · exact hother key hk

/-- C11: whatever the document and the policy, the metadata of the output of
`cleanResource` binds none of `uid`, `resourceVersion`, `generation`,
`creationTimestamp`, `selfLink`. -/
theorem volatile_metadata_removed (cfg : BackupConfig) (resource : Unstructured)
    (key : String) (hkey : key ∈ volatileMetadataKeys) :
    hasKey (metadataOf (cleanResource cfg resource)) key = false := by
  unfold metadataOf hasKey
  rw [getKey_cleanResource]
  simp only [if_true]
  cases hg : getKey resource.Object "metadata" with
  | none => rfl
  | some v =>
    cases v with
    | map metadata =>
      simp only
      rw [getKey_cleanMetadata]
      simp [hkey]
    | _ => rfl

/-- Witness for C11: the `uid` of a live deployment is gone under the policy
that keeps status and managed fields, and its `name` is still there. -/
theorem volatile_metadata_removed_witness :
    hasKey (metadataOf liveInstance.Object) "uid" = true ∧
    hasKey (metadataOf (cleanResource keepAllConfig liveInstance)) "uid" = false ∧
    hasKey (metadataOf (cleanResource keepAllConfig liveInstance)) "name" = true :=
  ⟨by decide, volatile_metadata_removed keepAllConfig liveInstance "uid" (by decide),
    by decide⟩

/-- C12: for a document whose metadata is a mapping, `cleanResource` leaves
every top-level binding other than `status` and `metadata` as it is, keeps
`status` exactly when `IncludeStatus` is on, and gives a metadata mapping
whose bindings are those of the input metadata, except that the five
volatile keys are unbound and `managedFields` is kept exactly when
`IncludeManagedFields` is on. The values that stay are the same values, so
nothing below them changes. -/
theorem cleanResource_frame (cfg : BackupConfig) (resource : Unstructured)
    (metadata : List (String × Value))
    (hmeta : getKey resource.Object "metadata" = some (Value.map metadata)) :
    (∀ key, key ≠ "status" → key ≠ "metadata" →
      getKey (cleanResource cfg resource) key = getKey resource.Object key) ∧
    getKey (cleanResource cfg resource) "status" =
      (if cfg.IncludeStatus = true then getKey resource.Object "status" else none) ∧
    ∃ cleaned, getKey (cleanResource cfg resource) "metadata" = some (Value.map cleaned) ∧
      (∀ key, key ∉ volatileMetadataKeys → key ≠ "managedFields" →
        getKey cleaned key = getKey metadata key) ∧
      (∀ key ∈ volatileMetadataKeys, getKey cleaned key = none) ∧
      getKey cleaned "managedFields" =
        (if cfg.IncludeManagedFields = true then getKey metadata "managedFields" else none) := by
  refine ⟨?_, ?_, cleanMetadata cfg metadata, ?_, ?_, ?_, ?_⟩
  · intro key hs hm
    rw [getKey_cleanResource]
    simp [hs, hm]
  · rw [getKey_cleanResource]
    have h : ¬ ("status" = "metadata") := by decide
    cases cfg.IncludeStatus <;> simp [h]
  · rw [getKey_cleanResource, hmeta]
    simp
  · intro key hv hm
    rw [getKey_cleanMetadata]
    simp [hv, hm]
  · intro key hv
    rw [getKey_cleanMetadata]
    simp [hv]
  · rw [getKey_cleanMetadata]
    have h : "managedFields" ∉ volatileMetadataKeys := by decide
    cases cfg.IncludeManagedFields <;> simp [h]

/-- Witness for C12: under the default policy the `spec` of a live
deployment and the `labels` of its metadata come out as they went in, and
its `status` and `managedFields` are gone. -/
theorem cleanResource_frame_witness :
    getKey (cleanResource getDefaultBackupConfig liveInstance) "spec" =
      getKey liveInstance.Object "spec" ∧
    getKey (cleanResource getDefaultBackupConfig liveInstance) "status" = none ∧
    getKey (metadataOf (cleanResource getDefaultBackupConfig liveInstance)) "labels" =
      getKey (metadataOf liveInstance.Object) "labels" ∧
    hasKey (metadataOf (cleanResource getDefaultBackupConfig liveInstance)) "managedFields" =
      false :=
  ⟨(cleanResource_frame getDefaultBackupConfig liveInstance (metadataOf liveInstance.Object)
      rfl).1 "spec" (by decide) (by decide),
    (cleanResource_frame getDefaultBackupConfig liveInstance (metadataOf liveInstance.Object)
      rfl).2.1,
    rfl, by decide⟩

/-! ## Object store path scheme: lemmas and claims -/

theorem objectPath_data (c n t m : String) :
    (objectPath c n t m).data =
      "clusterbackup".data ++ '/' :: (c.data ++ '/' :: (n.data ++ '/' ::
        (t.data ++ '/' :: (m.data ++ ".yaml".data)))) := by
  simp [objectPath, String.data_append]

theorem split_objectPath (c n t m : String) (hc : '/' ∉ c.data) (hn : '/' ∉ n.data)
    (ht : '/' ∉ t.data) (hm : '/' ∉ m.data) :
    split (objectPath c n t m) '/' = ["clusterbackup", c, n, t, m ++ ".yaml"] := by
  have hroot : '/' ∉ "clusterbackup".data := by decide
  have hfile : '/' ∉ m.data ++ ".yaml".data := by
    intro h
    rcases List.mem_append.1 h with h | h
    · exact hm h
    · exact absurd h (by decide)
  unfold split
  rw [objectPath_data, splitChars_append_sep _ _ _ hroot, splitChars_append_sep _ _ _ hc,
    splitChars_append_sep _ _ _ hn, splitChars_append_sep _ _ _ ht,
    splitChars_no_sep _ _ hfile]
  rfl

theorem trimSuffix_append (s suffix : String) : trimSuffix (s ++ suffix) suffix = s := by
  unfold trimSuffix
  have hsuf : suffix.data.isSuffixOf (s ++ suffix).data = true := by
    rw [List.isSuffixOf_iff_suffix, String.data_append]
    exact List.suffix_append _ _
  rw [if_pos hsuf]
  simp [String.data_append]

/-- C13: every `PutObject` call of `uploadResource` carries the key
`clusterbackup/{cluster}/{namespace}/{resourceType}/{name}.yaml`, and for
components without `/`, splitting that key on `/` and removing the `.yaml`
suffix of the last segment gives back cluster, namespace, resource type and
name after the root segment `clusterbackup`. -/
theorem objectPath_roundtrip (marshal : List (String × Value) → Except String String)
    (putObject : PutObjectCall → Option String) (config : Config)
    (ns resourceType name : String) (resource : List (String × Value))
    (hc : '/' ∉ config.ClusterName.data) (hn : '/' ∉ ns.data)
    (ht : '/' ∉ resourceType.data) (hm : '/' ∉ name.data) :
    (∀ call ∈ (uploadResource marshal putObject config ns resourceType name resource).calls,
      call.objectPath =
        "clusterbackup/" ++ config.ClusterName ++ "/" ++ ns ++ "/" ++ resourceType ++ "/" ++
          name ++ ".yaml") ∧
    split ("clusterbackup/" ++ config.ClusterName ++ "/" ++ ns ++ "/" ++ resourceType ++ "/" ++
        name ++ ".yaml") '/' =
      ["clusterbackup", config.ClusterName, ns, resourceType, name ++ ".yaml"] ∧
    parseObjectKey ("clusterbackup/" ++ config.ClusterName ++ "/" ++ ns ++ "/" ++
        resourceType ++ "/" ++ name ++ ".yaml") =
      some (config.ClusterName, ns, resourceType, name) := by
  have hsplit := split_objectPath config.ClusterName ns resourceType name hc hn ht hm
  unfold objectPath at hsplit
  refine ⟨?_, hsplit, ?_⟩
  · intro call hcall
    unfold uploadResource at hcall
    cases hmar : marshal resource with
    | error err =>
      rw [hmar] at hcall
      simp at hcall
    | ok yamlData =>
      rw [hmar] at hcall
      simp only [List.mem_singleton] at hcall
      rw [hcall]
      rfl
  · unfold parseObjectKey
    rw [hsplit]
    simp [trimSuffix_append]

/-- Witness for C13: the key written for `kube-dns` by `production-east`, and
its reading. -/
theorem objectPath_roundtrip_witness :
    (uploadResource constMarshal acceptingStore eastConfig "kube-system" "services" "kube-dns"
      []).calls.map PutObjectCall.objectPath =
      ["clusterbackup/production-east/kube-system/services/kube-dns.yaml"] ∧
    parseObjectKey "clusterbackup/production-east/kube-system/services/kube-dns.yaml" =
      some ("production-east", "kube-system", "services", "kube-dns") :=
  ⟨by decide,
    (objectPath_roundtrip constMarshal acceptingStore eastConfig "kube-system" "services"
      "kube-dns" [] (by decide) (by decide) (by decide) (by decide)).2.2⟩

theorem append_sep_cancel (sep : Char) (a a' r r' : List Char) (ha : sep ∉ a) (ha' : sep ∉ a')
    (h : a ++ sep :: r = a' ++ sep :: r') : a = a' ∧ r = r' := by
  induction a generalizing a' with
  | nil =>
    cases a' with
    | nil => simpa using h
    | cons c cs =>
      simp only [List.nil_append, List.cons_append, List.cons.injEq] at h
      exact absurd (by simp [h.1]) ha'
  | cons b bs ih =>
    cases a' with
    | nil =>
      simp only [List.nil_append, List.cons_append, List.cons.injEq] at h
      exact absurd (by simp [h.1]) ha
    | cons c cs =>
      simp only [List.cons_append, List.cons.injEq] at h
      have hbs : sep ∉ bs := fun e => ha (List.mem_cons_of_mem _ e)
      have hcs : sep ∉ cs := fun e => ha' (List.mem_cons_of_mem _ e)
      obtain ⟨h1, h2⟩ := ih cs hbs hcs h.2
      exact ⟨by rw [h.1, h1], h2⟩

theorem objectPath_data_reverse (c n t m : String) :
    (objectPath c n t m).data.reverse =
      (".yaml".data.reverse ++ m.data.reverse) ++ '/' :: (t.data.reverse ++ '/' ::
        (n.data.reverse ++ '/' :: (c.data.reverse ++ "clusterbackup/".data.reverse))) := by
  rw [objectPath_data]
  simp [List.reverse_append]

theorem not_mem_file_reverse (m : String) (hm : '/' ∉ m.data) :
    '/' ∉ ".yaml".data.reverse ++ m.data.reverse := by
  intro h
  rcases List.mem_append.1 h with h | h
  · exact absurd h (by decide)
  · exact hm (List.mem_reverse.1 h)

/-- The object key determines its four components when namespace, resource
type and name have no `/`. -/
theorem objectPath_cancel (c1 n1 t1 m1 c2 n2 t2 m2 : String)
    (hn1 : '/' ∉ n1.data) (ht1 : '/' ∉ t1.data) (hm1 : '/' ∉ m1.data)
    (hn2 : '/' ∉ n2.data) (ht2 : '/' ∉ t2.data) (hm2 : '/' ∉ m2.data)
    (h : objectPath c1 n1 t1 m1 = objectPath c2 n2 t2 m2) :
    c1 = c2 ∧ n1 = n2 ∧ t1 = t2 ∧ m1 = m2 := by
  have hrev := congrArg (fun s : String => s.data.reverse) h
  simp only [objectPath_data_reverse] at hrev
  have rv : ∀ s : String, '/' ∉ s.data → '/' ∉ s.data.reverse :=
    fun s hs e => hs (List.mem_reverse.1 e)
  obtain ⟨hm, hrest⟩ := append_sep_cancel '/' _ _ _ _
    (not_mem_file_reverse m1 hm1) (not_mem_file_reverse m2 hm2) hrev
  obtain ⟨ht, hrest⟩ := append_sep_cancel '/' _ _ _ _ (rv t1 ht1) (rv t2 ht2) hrest
  obtain ⟨hn, hrest⟩ := append_sep_cancel '/' _ _ _ _ (rv n1 hn1) (rv n2 hn2) hrest
  have hc := List.append_cancel_right hrest
  have ext : ∀ s s' : String, s.data.reverse = s'.data.reverse → s = s' := by
    intro s s' e
    exact String.ext (List.reverse_injective e)
  exact ⟨ext _ _ hc, ext _ _ hn, ext _ _ ht, ext _ _ (List.append_cancel_left hm)⟩

/-- C14, as stated, fails: the cluster `prod` writing to the namespace `a/b`
and the cluster `prod/a` writing to the namespace `b` build the same key. -/
theorem objectPath_collision :
    ("prod", "a/b", "services", "kube-dns") ≠ ("prod/a", "b", "services", "kube-dns") ∧
    "prod" ≠ "prod/a" ∧
    objectPath "prod" "a/b" "services" "kube-dns" =
      objectPath "prod/a" "b" "services" "kube-dns" := by
  decide

/-- C14, amended: among tuples whose namespace, resource type and name have
no `/`, two tuples that differ get different keys, and two exports with
distinct cluster names never get the same key. -/
theorem objectPath_injective (c1 n1 t1 m1 c2 n2 t2 m2 : String)
    (hn1 : '/' ∉ n1.data) (ht1 : '/' ∉ t1.data) (hm1 : '/' ∉ m1.data)
    (hn2 : '/' ∉ n2.data) (ht2 : '/' ∉ t2.data) (hm2 : '/' ∉ m2.data) :
    ((c1, n1, t1, m1) ≠ (c2, n2, t2, m2) →
      objectPath c1 n1 t1 m1 ≠ objectPath c2 n2 t2 m2) ∧
    (c1 ≠ c2 → objectPath c1 n1 t1 m1 ≠ objectPath c2 n2 t2 m2) := by
  constructor
  · intro hne h
    obtain ⟨hc, hn, ht, hm⟩ := objectPath_cancel c1 n1 t1 m1 c2 n2 t2 m2 hn1 ht1 hm1 hn2 ht2 hm2 h
    exact hne (by rw [hc, hn, ht, hm])
  · intro hne h
    exact hne (objectPath_cancel c1 n1 t1 m1 c2 n2 t2 m2 hn1 ht1 hm1 hn2 ht2 hm2 h).1

/-- Witness for C14: `production-east` and `production-west` both writing
`kube-system/services/kube-dns` get different keys. -/
theorem objectPath_injective_witness :
    objectPath "production-east" "kube-system" "services" "kube-dns" ≠
      objectPath "production-west" "kube-system" "services" "kube-dns" :=
  (objectPath_injective "production-east" "kube-system" "services" "kube-dns"
    "production-west" "kube-system" "services" "kube-dns"
    (by decide) (by decide) (by decide) (by decide) (by decide) (by decide)).2 (by decide)

/-! ## Maps: keys and assignment -/

theorem hasKey_iff_mem_keys {α : Type} (m : List (String × α)) (key : String) :
    hasKey m key = true ↔ key ∈ m.map Prod.fst := by
  induction m with
  | nil => simp [hasKey, getKey]
  | cons kv rest ih =>
    obtain ⟨k, v⟩ := kv
    unfold hasKey at ih ⊢
    unfold getKey
    by_cases h : k = key
    · simp [h]
    · have h2 : ¬ key = k := fun e => h e.symm
      simp [h, h2, ih]

theorem keys_setKey {α : Type} (m : List (String × α)) (k : String) (v : α) :
    (setKey m k v).map Prod.fst = m.map Prod.fst := by
  induction m with
  | nil => rfl
  | cons kv rest ih =>
    obtain ⟨k0, v0⟩ := kv
    unfold setKey
    by_cases h : k0 = k
    · simp [h]
    · simp [h, ih]

theorem keys_putKey {α : Type} (m : List (String × α)) (k : String) (v : α) :
    (putKey m k v).map Prod.fst =
      if k ∈ m.map Prod.fst then m.map Prod.fst else m.map Prod.fst ++ [k] := by
  unfold putKey
  by_cases h : hasKey m k = true
  · rw [if_pos h, if_pos ((hasKey_iff_mem_keys m k).1 h), keys_setKey]
  · rw [if_neg h, if_neg (fun e => h ((hasKey_iff_mem_keys m k).2 e))]
    simp

theorem getKey_append_single {α : Type} (m : List (String × α)) (k key : String) (v : α) :
    getKey (m ++ [(k, v)]) key =
      match getKey m key with
      | some w => some w
      | none => if k = key then some v else none := by
  induction m with
  | nil => simp [getKey]
  | cons kv rest ih =>
    obtain ⟨k0, v0⟩ := kv
    simp only [List.cons_append]
    unfold getKey
    by_cases h : k0 = key
    · simp [h]
    · simp [h, ih]

theorem getKey_putKey {α : Type} (m : List (String × α)) (k key : String) (v : α) :
    getKey (putKey m k v) key = if key = k then some v else getKey m key := by
  unfold putKey
  by_cases h : hasKey m k = true
  · rw [if_pos h, getKey_setKey]
    by_cases hk : key = k
    · subst hk
      unfold hasKey at h
      cases hg : getKey m key with
      | none => simp [hg] at h
      | some w => simp
    · simp [hk]
  · rw [if_neg h, getKey_append_single]
    by_cases hk : key = k
    · subst hk
      unfold hasKey at h
      cases hg : getKey m key with
      | none => simp
      | some w => simp [hg] at h
    · have hk2 : ¬ k = key := fun e => hk e.symm
      cases hg : getKey m key <;> simp [hk, hk2]

theorem keys_putAll (names : List String) (m : List (String × Bool))
    (hm : (m.map Prod.fst).Nodup) :
    ((names.foldl (fun acc c => putKey acc c true) m).map Prod.fst).Nodup ∧
    ∀ x, x ∈ (names.foldl (fun acc c => putKey acc c true) m).map Prod.fst ↔
      x ∈ m.map Prod.fst ∨ x ∈ names := by
  induction names generalizing m with
  | nil => simp [hm]
  | cons c rest ih =>
    simp only [List.foldl_cons]
    have hnodup : ((putKey m c true).map Prod.fst).Nodup := by
      rw [keys_putKey]
      by_cases h : c ∈ m.map Prod.fst
      · rw [if_pos h]
        exact hm
      · rw [if_neg h]
        exact List.Nodup.append hm (List.nodup_singleton c) (by simpa using h)
    obtain ⟨h1, h2⟩ := ih (putKey m c true) hnodup
    refine ⟨h1, ?_⟩
    intro x
    rw [h2, keys_putKey]
    by_cases h : c ∈ m.map Prod.fst
    · rw [if_pos h]
      constructor
      · rintro (hx | hx)
        · exact Or.inl hx
        · exact Or.inr (List.mem_cons_of_mem _ hx)
      · rintro (hx | hx)
        · exact Or.inl hx
        · rcases List.mem_cons.1 hx with hx | hx
          · exact Or.inl (hx ▸ h)
          · exact Or.inr hx
    · rw [if_neg h]
      simp only [List.mem_append, List.mem_singleton, List.mem_cons]
      tauto

theorem length_putAll (names : List String) :
    (names.foldl (fun acc c => putKey acc c true) ([] : List (String × Bool))).length =
      names.toFinset.card := by
  obtain ⟨h1, h2⟩ := keys_putAll names [] (by simp)
  rw [← List.length_map _ Prod.fst, ← List.toFinset_card_of_nodup h1]
  congr 1
  ext x
  simp [h2]

/-! ## Sync downloader: lemmas and claims -/

theorem recordCluster_eq (clusters : List (String × Bool)) (key : String) :
    recordCluster clusters key =
      match clusterNameOf key with
      | some c => putKey clusters c true
      | none => clusters := by
  unfold recordCluster clusterNameOf
  generalize split key '/' = parts
  rcases parts with _ | ⟨a, _ | ⟨b, rest⟩⟩
  · simp
  · simp
  · by_cases h : a = "clusterbackup"
    · simp [h]
    · simp [h]

theorem downloadStep_clusters (st : DownloadState) (object : ListedObject) :
    (downloadStep st object).clusters =
      if object.Err.isNone then recordCluster st.clusters object.Key else st.clusters := by
  unfold downloadStep
  cases object.Err with
  | some e => simp
  | none =>
    simp only [Option.isNone_none, if_true]
    cases object.mkdirErr with
    | some e => rfl
    | none => cases object.transfer <;> rfl

theorem downloadLoop_clusters (st : DownloadState) (objects : List ListedObject) :
    (downloadLoop st objects).clusters =
      (listedClusterNames objects).foldl (fun acc c => putKey acc c true) st.clusters := by
  induction objects generalizing st with
  | nil => rfl
  | cons o rest ih =>
    unfold downloadLoop
    rw [ih, downloadStep_clusters, recordCluster_eq]
    unfold listedClusterNames
    cases hErr : o.Err with
    | some e => simp [List.filter_cons, hErr]
    | none =>
      cases hc : clusterNameOf o.Key with
      | none => simp [List.filter_cons, hErr, hc]
      | some c => simp [List.filter_cons, hErr, hc]

theorem downloadStep_count (st : DownloadState) (object : ListedObject) :
    (downloadStep st object).downloadCount =
      st.downloadCount + (if transfersCleanly object then 1 else 0) := by
  unfold downloadStep transfersCleanly
  cases object.Err with
  | some e => simp
  | none =>
    cases object.mkdirErr with
    | some e => simp
    | none => cases object.transfer <;> simp

theorem downloadLoop_count (st : DownloadState) (objects : List ListedObject) :
    (downloadLoop st objects).downloadCount =
      st.downloadCount + (objects.filter transfersCleanly).length := by
  induction objects generalizing st with
  | nil => simp [downloadLoop]
  | cons o rest ih =>
    unfold downloadLoop
    rw [ih, downloadStep_count]
    cases h : transfersCleanly o
    · simp [List.filter_cons, h]
    · simp [List.filter_cons, h]
      omega

theorem clusterNameOf_objectPath (c n t m : String) (hc : '/' ∉ c.data) :
    clusterNameOf (objectPath c n t m) = some c := by
  have hroot : '/' ∉ "clusterbackup".data := by decide
  unfold clusterNameOf split
  rw [objectPath_data, splitChars_append_sep _ _ _ hroot, splitChars_append_sep _ _ _ hc]
  simp only [List.map_cons]
  have h : String.mk "clusterbackup".data = "clusterbackup" := rfl
  simp [h]

/-- C15: whenever `downloadAndMergeBackups` returns without error, the
number it returns is the number of distinct cluster names among the keys
listed without error, the cluster name of a key being its second segment
when the first is `clusterbackup`. Mkdir and transfer failures of the
entries have no part in it, and the cluster name derived from a key that
`uploadResource` builds for a cluster name without `/` is that name. -/
theorem distinct_clusters_counted (stagingErr : Option String) (objects : List ListedObject)
    (copyErr : String → Option String) (backup repo : List (String × String)) (count : Nat)
    (hok : (downloadAndMergeBackups stagingErr objects copyErr backup repo).result =
      Except.ok count) :
    count = (listedClusterNames objects).toFinset.card ∧
    ∀ c n t m : String, '/' ∉ c.data → clusterNameOf (objectPath c n t m) = some c := by
  refine ⟨?_, fun c n t m hc => clusterNameOf_objectPath c n t m hc⟩
  unfold downloadAndMergeBackups at hok
  cases stagingErr with
  | some e => simp at hok
  | none =>
    simp only at hok
    split at hok
    · simp at hok
    · simp only [Except.ok.injEq] at hok
      rw [← hok, downloadLoop_clusters]
      exact length_putAll _

/-- Witness for C15: a listing of the clusters `east` and `west` in which
only two transfers succeed gives the count 2. -/
theorem distinct_clusters_counted_witness :
    (downloadAndMergeBackups none mixedListing noCopyErr [] repositoryTree).result =
      Except.ok 2 ∧
    2 = (listedClusterNames mixedListing).toFinset.card :=
  ⟨rfl, (distinct_clusters_counted none mixedListing noCopyErr [] repositoryTree 2 rfl).1⟩

theorem downloadLoop_append (st : DownloadState) (before after : List ListedObject) :
    downloadLoop st (before ++ after) = downloadLoop (downloadLoop st before) after := by
  induction before generalizing st with
  | nil => rfl
  | cons o rest ih =>
    show downloadLoop (downloadStep st o) (rest ++ after) =
      downloadLoop (downloadLoop (downloadStep st o) rest) after
    exact ih _

/-- C16: an entry that carries a listing error, whose directory cannot be
made or whose transfer fails does not end the pass. The loop treats the
entries after it as it treats any others, so `downloadCount` at the end
counts every entry before and after it that transfers cleanly; with the
staging directory made, the loop runs to its end; and the function returns
an error exactly when making the staging directory fails or the merge
fails. -/
theorem pass_never_aborted (stagingErr : Option String) (objects : List ListedObject)
    (copyErr : String → Option String) (backup repo : List (String × String))
    (before after : List ListedObject) (failing : ListedObject)
    (hobjects : objects = before ++ failing :: after)
    (hfailing : transfersCleanly failing = false) :
    downloadLoop { clusters := [], downloadCount := 0, backup := backup } objects =
      downloadLoop (downloadStep
        (downloadLoop { clusters := [], downloadCount := 0, backup := backup } before)
        failing) after ∧
    (downloadLoop { clusters := [], downloadCount := 0, backup := backup } objects).downloadCount =
      (before.filter transfersCleanly).length + (after.filter transfersCleanly).length ∧
    (stagingErr = none →
      (downloadAndMergeBackups stagingErr objects copyErr backup repo).pass =
        some (downloadLoop { clusters := [], downloadCount := 0, backup := backup } objects)) ∧
    ((∃ err, (downloadAndMergeBackups stagingErr objects copyErr backup repo).result =
        Except.error err) ↔
      (stagingErr ≠ none ∨
        ∃ err, mergeBackupsToRepo copyErr
          (downloadLoop { clusters := [], downloadCount := 0, backup := backup } objects).backup
          repo = Except.error err)) := by
  refine ⟨?_, ?_, ?_, ?_⟩
  · rw [hobjects, downloadLoop_append]
    rfl
  · rw [downloadLoop_count, hobjects]
    simp [List.filter_append, List.filter_cons, hfailing]
  · intro hs
    subst hs
    unfold downloadAndMergeBackups
    simp only
    split <;> rfl
  · unfold downloadAndMergeBackups
    cases stagingErr with
    | some e => simp
    | none =>
      simp only
      cases hmerge : mergeBackupsToRepo copyErr
          (downloadLoop { clusters := [], downloadCount := 0, backup := backup } objects).backup
          repo with
      | error e => simp
      | ok merged => simp

/-- Witness for C16: in a listing whose third entry breaks in transfer, the
two later entries that transfer cleanly are both counted, and the call
returns without error. -/
theorem pass_never_aborted_witness :
    (downloadLoop { clusters := [], downloadCount := 0, backup := [] }
      mixedListing).downloadCount = 2 ∧
    (downloadAndMergeBackups none mixedListing noCopyErr [] repositoryTree).result =
      Except.ok 2 :=
  ⟨(pass_never_aborted none mixedListing noCopyErr [] repositoryTree
      (mixedListing.take 2) (mixedListing.drop 3)
      { Key := "clusterbackup/west/shop/services/web.yaml",
        transfer := Transfer.broken "unexpected EOF" "kind: Ser" }
      (by decide) (by decide)).2.1.trans (by decide),
    rfl⟩

/-! ## Repository merger: lemmas and claim -/

theorem getKey_cons {α : Type} (k : String) (v : α) (rest : List (String × α)) (key : String) :
    getKey ((k, v) :: rest) key = if k = key then some v else getKey rest key := by
  rw [getKey]

theorem getKey_eq_none_of_not_mem {α : Type} (m : List (String × α)) (key : String)
    (h : key ∉ m.map Prod.fst) : getKey m key = none := by
  cases hg : getKey m key with
  | none => rfl
  | some v =>
    have : hasKey m key = true := by simp [hasKey, hg]
    exact absurd ((hasKey_iff_mem_keys m key).1 this) h

theorem getKey_of_mem_nodup {α : Type} (m : List (String × α)) (key : String) (v : α)
    (hm : (m.map Prod.fst).Nodup) (h : (key, v) ∈ m) : getKey m key = some v := by
  induction m with
  | nil => cases h
  | cons kv rest ih =>
    obtain ⟨k0, v0⟩ := kv
    simp only [List.map_cons, List.nodup_cons] at hm
    unfold getKey
    rcases List.mem_cons.1 h with h | h
    · simp only [Prod.mk.injEq] at h
      simp [h.1, h.2]
    · have hne : ¬ k0 = key := by
        intro e
        apply hm.1
        rw [e]
        exact List.mem_map.2 ⟨(key, v), h, rfl⟩
      simp [hne, ih hm.2 h]

theorem mergeLoop_getKey (copyErr : String → Option String)
    (backup repo merged : List (String × String)) (hpaths : (backup.map Prod.fst).Nodup)
    (hok : mergeLoop copyErr repo backup = Except.ok merged) (path : String) :
    getKey merged path =
      match getKey backup path with
      | some content => some content
      | none => getKey repo path := by
  induction backup generalizing repo with
  | nil =>
    simp only [mergeLoop, Except.ok.injEq] at hok
    simp [getKey, hok]
  | cons kv rest ih =>
    obtain ⟨q, c⟩ := kv
    simp only [List.map_cons, List.nodup_cons] at hpaths
    unfold mergeLoop at hok
    cases hq : copyErr q with
    | some e => simp [hq] at hok
    | none =>
      simp only [hq] at hok
      rw [ih (putKey repo q c) hpaths.2 hok, getKey_putKey, getKey_cons]
      by_cases h : q = path
      · subst h
        simp [getKey_eq_none_of_not_mem rest q hpaths.1]
      · have h2 : ¬ path = q := fun e => h e.symm
        simp [h, h2]

theorem mergeLoop_ok (copyErr : String → Option String) (backup repo : List (String × String))
    (hcopy : ∀ p ∈ backup.map Prod.fst, copyErr p = none) :
    ∃ merged, mergeLoop copyErr repo backup = Except.ok merged := by
  induction backup generalizing repo with
  | nil => exact ⟨repo, rfl⟩
  | cons kv rest ih =>
    obtain ⟨q, c⟩ := kv
    unfold mergeLoop
    have hq : copyErr q = none := hcopy q (by simp)
    simp only [hq]
    exact ih _ (fun p hp => hcopy p (by simp [List.mem_map] at hp ⊢; exact Or.inr hp))

/-- C17: on file trees that map each relative path to one content, a merge
without error leaves in the repository every file of the backup tree at its
path with the backup content, leaves every repository file whose path is
not in the backup tree as it was, and removes no file; and the merge is
without error when no copy fails. -/
theorem merge_is_overlay (copyErr : String → Option String)
    (backup repo : List (String × String)) (hpaths : (backup.map Prod.fst).Nodup) :
    ((∀ p ∈ backup.map Prod.fst, copyErr p = none) →
      ∃ merged, mergeBackupsToRepo copyErr backup repo = Except.ok merged) ∧
    ∀ merged, mergeBackupsToRepo copyErr backup repo = Except.ok merged →
      (∀ path content, (path, content) ∈ backup → getKey merged path = some content) ∧
      (∀ path, path ∉ backup.map Prod.fst → getKey merged path = getKey repo path) ∧
      (∀ path, hasKey repo path = true → hasKey merged path = true) := by
  refine ⟨fun hcopy => mergeLoop_ok copyErr backup repo hcopy, ?_⟩
  intro merged hok
  have key := mergeLoop_getKey copyErr backup repo merged hpaths hok
  refine ⟨?_, ?_, ?_⟩
  · intro path content hmem
    rw [key, getKey_of_mem_nodup backup path content hpaths hmem]
  · intro path hnot
    rw [key, getKey_eq_none_of_not_mem backup path hnot]
  · intro path hrepo
    unfold hasKey at hrepo ⊢
    rw [key]
    cases hb : getKey backup path with
    | some c => rfl
    | none => exact hrepo

/-- Witness for C17: merging two staged files into a repository of three
overwrites the older copy, adds the new file and keeps the other two. -/
theorem merge_is_overlay_witness :
    mergeBackupsToRepo noCopyErr stagedTree repositoryTree =
      Except.ok
        [("README.md", "backups"),
         ("clusterbackup/east/shop/pods/web-1.yaml", "kind: Pod # new"),
         ("clusterbackup/east/shop/pods/gone.yaml", "kind: Pod"),
         ("clusterbackup/east/shop/pods/web-3.yaml", "kind: Pod")] ∧
    ∀ merged, mergeBackupsToRepo noCopyErr stagedTree repositoryTree = Except.ok merged →
      getKey merged "clusterbackup/east/shop/pods/gone.yaml" = some "kind: Pod" :=
  ⟨rfl, fun merged hok =>
    ((merge_is_overlay noCopyErr stagedTree repositoryTree (by decide)).2 merged hok).2.1
      "clusterbackup/east/shop/pods/gone.yaml" (by decide)⟩

/-! ## Commit/push controller: lemmas and claims -/

theorem commitAndPush_no_changes {σ : Type} (git : GitCommand → σ → CommandResult σ)
    (cfg : GitSyncConfig) (now : String) (s : σ)
    (hadd : (git GitCommand.add s).err = none)
    (hdiff : (git GitCommand.diffIndex (git GitCommand.add s).state).err = none) :
    commitAndPushChanges git cfg now s =
      { err := none, state := (git GitCommand.diffIndex (git GitCommand.add s).state).state,
        issued := [(GitCommand.add, none), (GitCommand.diffIndex, none)] } := by
  unfold commitAndPushChanges
  simp only [hadd, hdiff]

theorem commitAndPush_add_fails {σ : Type} (git : GitCommand → σ → CommandResult σ)
    (cfg : GitSyncConfig) (now : String) (s : σ) (err : String)
    (hadd : (git GitCommand.add s).err = some err) :
    commitAndPushChanges git cfg now s =
      { err := some ("failed to add changes: " ++ err), state := (git GitCommand.add s).state,
        issued := [(GitCommand.add, some err)] } := by
  unfold commitAndPushChanges
  simp only [hadd]

theorem getChangeStatistics_state {σ : Type} (git : GitCommand → σ → CommandResult σ) (s : σ) :
    (getChangeStatistics git s).2.2 = (git GitCommand.diffStat s).state := by
  unfold getChangeStatistics
  simp only
  split
  · rfl
  · split <;> rfl

theorem getChangeStatistics_err {σ : Type} (git : GitCommand → σ → CommandResult σ) (s : σ) :
    (getChangeStatistics git s).2.1 = (git GitCommand.diffStat s).err := by
  unfold getChangeStatistics
  simp only
  split
  · next e h => rw [h]
  · next h => split <;> rw [h]

theorem commitAndPush_commit_fails {σ : Type} (git : GitCommand → σ → CommandResult σ)
    (cfg : GitSyncConfig) (now : String) (s : σ) (diffErr err : String)
    (hadd : (git GitCommand.add s).err = none)
    (hdiff : (git GitCommand.diffIndex (git GitCommand.add s).state).err = some diffErr)
    (hcommit : (git (commitCommand git now s) (stateBeforeCommit git s)).err = some err) :
    commitAndPushChanges git cfg now s =
      { err := some ("failed to commit changes: " ++ err)
        state := (git (commitCommand git now s) (stateBeforeCommit git s)).state
        issued := [(GitCommand.add, none), (GitCommand.diffIndex, some diffErr),
          (GitCommand.diffStat, (git GitCommand.diffStat (stateBeforeDiffStat git s)).err),
          (commitCommand git now s, some err)] } := by
  unfold commitCommand changeSummary stateBeforeCommit stateBeforeDiffStat at *
  unfold commitAndPushChanges
  simp only [hadd, hdiff, getChangeStatistics_state, getChangeStatistics_err]
  simp only [hcommit]
  rfl

theorem commitAndPush_pushed {σ : Type} (git : GitCommand → σ → CommandResult σ)
    (cfg : GitSyncConfig) (now : String) (s : σ) (diffErr : String)
    (hadd : (git GitCommand.add s).err = none)
    (hdiff : (git GitCommand.diffIndex (git GitCommand.add s).state).err = some diffErr)
    (hcommit : (git (commitCommand git now s) (stateBeforeCommit git s)).err = none) :
    commitAndPushChanges git cfg now s =
      if (decide (cfg.GitToken ≠ "") && hasPrefix cfg.GitRepository "https://") = true then
        { err := (git (GitCommand.push cfg.GitBranch)
            (git (GitCommand.setUrl (authURL cfg))
              (git (commitCommand git now s) (stateBeforeCommit git s)).state).state).err.map
              (fun err => "failed to push changes: " ++ err)
          state := (git (GitCommand.push cfg.GitBranch)
            (git (GitCommand.setUrl (authURL cfg))
              (git (commitCommand git now s) (stateBeforeCommit git s)).state).state).state
          issued := [(GitCommand.add, none), (GitCommand.diffIndex, some diffErr),
            (GitCommand.diffStat, (git GitCommand.diffStat (stateBeforeDiffStat git s)).err),
            (commitCommand git now s, none),
            (GitCommand.setUrl (authURL cfg),
              (git (GitCommand.setUrl (authURL cfg))
                (git (commitCommand git now s) (stateBeforeCommit git s)).state).err),
            (GitCommand.push cfg.GitBranch,
              (git (GitCommand.push cfg.GitBranch)
                (git (GitCommand.setUrl (authURL cfg))
                  (git (commitCommand git now s) (stateBeforeCommit git s)).state).state).err)] }
      else
        { err := (git (GitCommand.push cfg.GitBranch)
            (git (commitCommand git now s) (stateBeforeCommit git s)).state).err.map
              (fun err => "failed to push changes: " ++ err)
          state := (git (GitCommand.push cfg.GitBranch)
            (git (commitCommand git now s) (stateBeforeCommit git s)).state).state
          issued := [(GitCommand.add, none), (GitCommand.diffIndex, some diffErr),
            (GitCommand.diffStat, (git GitCommand.diffStat (stateBeforeDiffStat git s)).err),
            (commitCommand git now s, none),
            (GitCommand.push cfg.GitBranch,
              (git (GitCommand.push cfg.GitBranch)
                (git (commitCommand git now s) (stateBeforeCommit git s)).state).err)] } := by
  unfold commitCommand changeSummary stateBeforeCommit stateBeforeDiffStat authURL at *
  unfold commitAndPushChanges
  simp only [hadd, hdiff, getChangeStatistics_state, getChangeStatistics_err]
  simp only [hcommit]
  split <;> rfl

theorem quiet_after_success {σ : Type} (git : GitCommand → σ → CommandResult σ)
    (staged : σ → Prop) (contract : GitContract git staged)
    (cfg : GitSyncConfig) (now : String) (s : σ)
    (hok : (commitAndPushChanges git cfg now s).err = none) :
    staged (commitAndPushChanges git cfg now s).state ∧
    quiet git (commitAndPushChanges git cfg now s).state := by
  cases hadd : (git GitCommand.add s).err with
  | some err =>
    rw [commitAndPush_add_fails git cfg now s err hadd] at hok
    simp at hok
  | none =>
    have hstaged := contract.add_staged s hadd
    cases hdiff : (git GitCommand.diffIndex (git GitCommand.add s).state).err with
    | none =>
      rw [commitAndPush_no_changes git cfg now s hadd hdiff]
      exact ⟨contract.diffIndex_staged _ hstaged, contract.diffIndex_quiet _ hdiff⟩
    | some diffErr =>
      have hstaged2 : staged (stateBeforeCommit git s) :=
        contract.diffStat_staged _ (contract.diffIndex_staged _ hstaged)
      cases hcommit : (git (commitCommand git now s) (stateBeforeCommit git s)).err with
      | some err =>
        rw [commitAndPush_commit_fails git cfg now s diffErr err hadd hdiff hcommit] at hok
        simp at hok
      | none =>
        have hq := contract.commit_quiet _ _ hstaged2 hcommit
        have hs := contract.commit_staged (commitMessage now (changeSummary git s)) _ hstaged2
        rw [commitAndPush_pushed git cfg now s diffErr hadd hdiff hcommit]
        split
        · exact ⟨contract.push_staged _ _ (contract.setUrl_staged _ _ hs),
            contract.push_quiet _ _ (contract.setUrl_quiet _ _ hq)⟩
        · exact ⟨contract.push_staged _ _ hs, contract.push_quiet _ _ hq⟩

theorem quiet_run {σ : Type} (git : GitCommand → σ → CommandResult σ)
    (staged : σ → Prop) (contract : GitContract git staged)
    (cfg : GitSyncConfig) (now : String) (s : σ) (hs : staged s) (hq : quiet git s) :
    (∀ entry ∈ (commitAndPushChanges git cfg now s).issued,
      entry.1 = GitCommand.add ∨ entry.1 = GitCommand.diffIndex) ∧
    ((git GitCommand.add s).err = none → (commitAndPushChanges git cfg now s).err = none) := by
  cases hadd : (git GitCommand.add s).err with
  | some err =>
    rw [commitAndPush_add_fails git cfg now s err hadd]
    simp
  | none =>
    have hdiff : (git GitCommand.diffIndex (git GitCommand.add s).state).err = none :=
      contract.add_quiet s hs hq
    rw [commitAndPush_no_changes git cfg now s hadd hdiff]
    simp

theorem gitWithFaults_contract : GitContract (gitWithFaults noFaults) indexIsTree where
  add_staged := by
    intro s _
    simp [gitWithFaults, noFaults, indexIsTree]
  diffIndex_staged := by
    intro s h
    simpa [gitWithFaults, noFaults, indexIsTree] using h
  diffStat_staged := by
    intro s h
    simpa [gitWithFaults, noFaults, indexIsTree] using h
  commit_staged := by
    intro message s h
    unfold indexIsTree at h ⊢
    by_cases hi : s.index = s.head
    · simpa [gitWithFaults, noFaults, hi] using h
    · simpa [gitWithFaults, noFaults, hi] using h
  setUrl_staged := by
    intro url s h
    simpa [gitWithFaults, noFaults, indexIsTree] using h
  push_staged := by
    intro branch s h
    simpa [gitWithFaults, noFaults, indexIsTree] using h
  commit_quiet := by
    intro message s h hc
    unfold indexIsTree at h
    unfold quiet
    by_cases hi : s.index = s.head
    · simp [gitWithFaults, noFaults, hi] at hc
    · have ht : ¬ s.tree = s.head := fun e => hi (h.trans e)
      simp [gitWithFaults, noFaults, hi, h, ht]
  add_quiet := by
    intro s _ h
    unfold quiet at h ⊢
    simpa [gitWithFaults, noFaults] using h
  diffIndex_quiet := by
    intro s h
    unfold quiet at h ⊢
    simpa [gitWithFaults, noFaults] using h
  setUrl_quiet := by
    intro url s h
    unfold quiet at h ⊢
    simpa [gitWithFaults, noFaults] using h
  push_quiet := by
    intro branch s h
    unfold quiet at h ⊢
    simpa [gitWithFaults, noFaults] using h

theorem gitWithUntracked_contract : GitContract gitWithUntracked checkoutStaged where
  add_staged := by
    intro s _
    simp [gitWithUntracked, checkoutStaged]
  diffIndex_staged := by
    intro s h
    simpa [gitWithUntracked, gitWithFaults, noFaults, checkoutStaged] using h
  diffStat_staged := by
    intro s h
    simpa [gitWithUntracked, gitWithFaults, noFaults, checkoutStaged] using h
  commit_staged := by
    intro message s h
    unfold checkoutStaged at h ⊢
    by_cases hi : s.repo.index = s.repo.head
    · simpa [gitWithUntracked, gitWithFaults, noFaults, hi] using h
    · simpa [gitWithUntracked, gitWithFaults, noFaults, hi] using h
  setUrl_staged := by
    intro url s h
    simpa [gitWithUntracked, gitWithFaults, noFaults, checkoutStaged] using h
  push_staged := by
    intro branch s h
    simpa [gitWithUntracked, gitWithFaults, noFaults, checkoutStaged] using h
  commit_quiet := by
    intro message s h hc
    unfold checkoutStaged at h
    unfold quiet
    by_cases hi : s.repo.index = s.repo.head
    · simp [gitWithUntracked, gitWithFaults, noFaults, hi] at hc
    · have ht : ¬ s.repo.tree = s.repo.head := fun e => hi (h.2.trans e)
      simp [gitWithUntracked, gitWithFaults, noFaults, hi, h.2, ht]
  add_quiet := by
    intro s hs h
    unfold checkoutStaged at hs
    unfold quiet at h ⊢
    simpa [gitWithUntracked, gitWithFaults, noFaults, hs.1] using h
  diffIndex_quiet := by
    intro s h
    unfold quiet at h ⊢
    simpa [gitWithUntracked, gitWithFaults, noFaults] using h
  setUrl_quiet := by
    intro url s h
    unfold quiet at h ⊢
    simpa [gitWithUntracked, gitWithFaults, noFaults] using h
  push_quiet := by
    intro branch s h
    unfold quiet at h ⊢
    simpa [gitWithUntracked, gitWithFaults, noFaults] using h

/-- C18: when `add` succeeds and `diff-index` reports no difference,
`commitAndPushChanges` returns without error after these two commands, so
without a commit and without a push. Hence, for a version-control tool that
keeps its contract, a second run started in the state that a run without
error left runs no command but `add` and `diff-index`, and it returns
without error when its `add` succeeds. -/
theorem unchanged_tree_no_commit {σ : Type} (git : GitCommand → σ → CommandResult σ)
    (cfg : GitSyncConfig) (now later : String) (s : σ) :
    ((git GitCommand.add s).err = none →
      (git GitCommand.diffIndex (git GitCommand.add s).state).err = none →
      (commitAndPushChanges git cfg now s).err = none ∧
      (commitAndPushChanges git cfg now s).issued =
        [(GitCommand.add, none), (GitCommand.diffIndex, none)]) ∧
    (∀ staged : σ → Prop, GitContract git staged →
      (commitAndPushChanges git cfg now s).err = none →
      (∀ entry ∈ (commitAndPushChanges git cfg later
          (commitAndPushChanges git cfg now s).state).issued,
        entry.1 = GitCommand.add ∨ entry.1 = GitCommand.diffIndex) ∧
      ((git GitCommand.add (commitAndPushChanges git cfg now s).state).err = none →
        (commitAndPushChanges git cfg later
          (commitAndPushChanges git cfg now s).state).err = none)) := by
  constructor
  · intro hadd hdiff
    rw [commitAndPush_no_changes git cfg now s hadd hdiff]
    exact ⟨rfl, rfl⟩
  · intro staged contract hok
    have hleft := quiet_after_success git staged contract cfg now s hok
    exact quiet_run git staged contract cfg later _ hleft.1 hleft.2

/-- Witness for C18: a checkout with a new file that is not added yet.
Before `add` the `diff-index` reports no difference, after it one. The
first run makes one commit, and the second run, started where the first
ended, runs `add` and `diff-index` only, makes no commit and returns without
error. -/
theorem unchanged_tree_no_commit_witness :
    (gitWithUntracked GitCommand.diffIndex newFileCheckout).err = none ∧
    (gitWithUntracked GitCommand.diffIndex
      (gitWithUntracked GitCommand.add newFileCheckout).state).err = some "exit status 1" ∧
    (commitAndPushChanges gitWithUntracked httpsSyncConfig "2024-05-01 10:00:00 UTC"
      newFileCheckout).state.repo.commits.length = 2 ∧
    (commitAndPushChanges gitWithUntracked httpsSyncConfig "2024-05-01 11:00:00 UTC"
      (commitAndPushChanges gitWithUntracked httpsSyncConfig "2024-05-01 10:00:00 UTC"
        newFileCheckout).state).state.repo.commits.length = 2 ∧
    (commitAndPushChanges gitWithUntracked httpsSyncConfig "2024-05-01 11:00:00 UTC"
      (commitAndPushChanges gitWithUntracked httpsSyncConfig "2024-05-01 10:00:00 UTC"
        newFileCheckout).state).issued =
      [(GitCommand.add, none), (GitCommand.diffIndex, none)] ∧
    (commitAndPushChanges gitWithUntracked httpsSyncConfig "2024-05-01 11:00:00 UTC"
      (commitAndPushChanges gitWithUntracked httpsSyncConfig "2024-05-01 10:00:00 UTC"
        newFileCheckout).state).err = none :=
  ⟨by decide, by decide, by decide, by decide, by decide,
    ((unchanged_tree_no_commit gitWithUntracked httpsSyncConfig
      "2024-05-01 10:00:00 UTC" "2024-05-01 11:00:00 UTC" newFileCheckout).2
      checkoutStaged gitWithUntracked_contract (by decide)).2 (by decide)⟩

theorem changeSummary_of_stat_error {σ : Type} (git : GitCommand → σ → CommandResult σ) (s : σ)
    (e : String) (h : (git GitCommand.diffStat (stateBeforeDiffStat git s)).err = some e) :
    changeSummary git s = "Changes detected" := by
  unfold changeSummary getChangeStatistics
  simp only [h]
  rfl

/-- C19: `commitAndPushChanges` returns an error exactly when one of the
commands `add`, `commit`, `push` that it ran gave an error; `commit` and
`push` are run only after `diff-index` reported changes; and when the diff
summary fails the commit is made with the summary `Changes detected`. A
failing diff summary or a failing rewrite of the remote URL is therefore
never the cause of an error. -/
theorem push_error_iff {σ : Type} (git : GitCommand → σ → CommandResult σ)
    (cfg : GitSyncConfig) (now : String) (s : σ) :
    ((commitAndPushChanges git cfg now s).err ≠ none ↔
      ∃ entry ∈ (commitAndPushChanges git cfg now s).issued,
        stopsRun entry.1 = true ∧ entry.2 ≠ none) ∧
    (∀ entry ∈ (commitAndPushChanges git cfg now s).issued, needsChanges entry.1 = true →
      ∃ diffErr, (GitCommand.diffIndex, some diffErr) ∈
        (commitAndPushChanges git cfg now s).issued) ∧
    (∀ e, (GitCommand.diffStat, some e) ∈ (commitAndPushChanges git cfg now s).issued →
      ∃ r, (GitCommand.commit (commitMessage now "Changes detected"), r) ∈
        (commitAndPushChanges git cfg now s).issued) := by
  cases hadd : (git GitCommand.add s).err with
  | some err =>
    rw [commitAndPush_add_fails git cfg now s err hadd]
    simp [stopsRun, needsChanges]
  | none =>
    cases hdiff : (git GitCommand.diffIndex (git GitCommand.add s).state).err with
    | none =>
      rw [commitAndPush_no_changes git cfg now s hadd hdiff]
      simp [stopsRun, needsChanges]
    | some diffErr =>
      have hstat : ∀ e, (git GitCommand.diffStat (stateBeforeDiffStat git s)).err = some e →
          commitCommand git now s = GitCommand.commit (commitMessage now "Changes detected") := by
        intro e he
        unfold commitCommand
        rw [changeSummary_of_stat_error git s e he]
      cases hcommit : (git (commitCommand git now s) (stateBeforeCommit git s)).err with
      | some err =>
        rw [commitAndPush_commit_fails git cfg now s diffErr err hadd hdiff hcommit]
        refine ⟨?_, ?_, ?_⟩
        · simp [stopsRun, commitCommand]
        · intro entry _ _
          exact ⟨diffErr, by simp⟩
        · intro e he
          have he2 : (git GitCommand.diffStat (stateBeforeDiffStat git s)).err = some e := by
            have he3 : some e = (git GitCommand.diffStat (stateBeforeDiffStat git s)).err := by
              simpa [commitCommand] using he
            exact he3.symm
          exact ⟨some err, by simp [hstat e he2]⟩
      | none =>
        rw [commitAndPush_pushed git cfg now s diffErr hadd hdiff hcommit]
        split
        · refine ⟨?_, ?_, ?_⟩
          · cases (git (GitCommand.push cfg.GitBranch)
              (git (GitCommand.setUrl (authURL cfg))
                (git (commitCommand git now s) (stateBeforeCommit git s)).state).state).err <;>
              simp [stopsRun, commitCommand]
          · intro entry _ _
            exact ⟨diffErr, by simp⟩
          · intro e he
            have he2 : (git GitCommand.diffStat (stateBeforeDiffStat git s)).err = some e := by
              have he3 : some e = (git GitCommand.diffStat (stateBeforeDiffStat git s)).err := by
                simpa [commitCommand] using he
              exact he3.symm
            exact ⟨none, by simp [hstat e he2]⟩
        · refine ⟨?_, ?_, ?_⟩
          · cases (git (GitCommand.push cfg.GitBranch)
              (git (commitCommand git now s) (stateBeforeCommit git s)).state).err <;>
              simp [stopsRun, commitCommand]
          · intro entry _ _
            exact ⟨diffErr, by simp⟩
          · intro e he
            have he2 : (git GitCommand.diffStat (stateBeforeDiffStat git s)).err = some e := by
              have he3 : some e = (git GitCommand.diffStat (stateBeforeDiffStat git s)).err := by
                simpa [commitCommand] using he
              exact he3.symm
            exact ⟨none, by simp [hstat e he2]⟩

/-- Witness for C19: with a failing diff summary and a failing rewrite of
the remote URL the run still returns without error, and its commit carries
the summary `Changes detected`. -/
theorem push_error_iff_witness :
    (GitCommand.diffStat, some "exit status 128") ∈
      (commitAndPushChanges (gitWithFaults statAndUrlFaults) httpsSyncConfig
        "2024-05-01 10:00:00 UTC" dirtyRepo).issued ∧
    (GitCommand.setUrl "https://tok@github.com/org/backups.git", some "exit status 128") ∈
      (commitAndPushChanges (gitWithFaults statAndUrlFaults) httpsSyncConfig
        "2024-05-01 10:00:00 UTC" dirtyRepo).issued ∧
    (commitAndPushChanges (gitWithFaults statAndUrlFaults) httpsSyncConfig
      "2024-05-01 10:00:00 UTC" dirtyRepo).err = none ∧
    ∃ r, (GitCommand.commit (commitMessage "2024-05-01 10:00:00 UTC" "Changes detected"), r) ∈
      (commitAndPushChanges (gitWithFaults statAndUrlFaults) httpsSyncConfig
        "2024-05-01 10:00:00 UTC" dirtyRepo).issued :=
  ⟨by decide, by decide, by decide,
    (push_error_iff (gitWithFaults statAndUrlFaults) httpsSyncConfig
      "2024-05-01 10:00:00 UTC" dirtyRepo).2.2 "exit status 128" (by decide)⟩

theorem hasPrefix_append (p rest : String) : hasPrefix (p ++ rest) p = true := by
  unfold hasPrefix
  rw [List.isPrefixOf_iff_prefix, String.data_append]
  exact List.prefix_append _ _

theorem replaceFirstChars_append (old new rest : List Char) (hold : old ≠ []) :
    replaceFirstChars old new (old ++ rest) = new ++ rest := by
  cases old with
  | nil => exact absurd rfl hold
  | cons c cs =>
    simp only [List.cons_append]
    unfold replaceFirstChars
    have hp : (c :: cs).isPrefixOf (c :: (cs ++ rest)) = true := by
      rw [List.isPrefixOf_iff_prefix]
      exact List.prefix_append (c :: cs) rest
    rw [if_pos hp]
    have hd : (c :: (cs ++ rest)).drop (c :: cs).length = rest := by
      have : c :: (cs ++ rest) = (c :: cs) ++ rest := rfl
      rw [this, List.drop_left]
    rw [hd]

theorem authURL_of_https (cfg : GitSyncConfig) (rest : String)
    (hurl : cfg.GitRepository = "https://" ++ rest) :
    authURL cfg = "https://" ++ cfg.GitToken ++ "@" ++ rest := by
  have hd : ("https://" ++ rest).data = "https://".data ++ rest.data := String.data_append _ _
  unfold authURL replaceFirst
  rw [hurl, hd, replaceFirstChars_append _ _ _ (by decide)]
  apply String.ext
  simp [String.data_append]

/-- C20, as stated, fails: with a token configured and the SSH repository
URL `git@github.com:org/backups.git`, a run that commits goes on to push
without any rewrite of the remote URL. -/
theorem ssh_url_not_rewritten :
    sshSyncConfig.GitToken ≠ "" ∧
    (commitAndPushChanges (gitWithFaults noFaults) sshSyncConfig "2024-05-01 10:00:00 UTC"
      dirtyRepo).issued =
      [(GitCommand.add, none), (GitCommand.diffIndex, some "exit status 1"),
       (GitCommand.diffStat, none),
       (GitCommand.commit (commitMessage "2024-05-01 10:00:00 UTC"
          "web.yaml | 2 +-\n 1 file changed"), none),
       (GitCommand.push "main", none)] :=
  ⟨by decide, rfl⟩

/-- C20, amended: whenever a token is configured, the configured repository
URL is `https://` followed by some text, and the run has made its commit,
the last two commands of `commitAndPushChanges` are the rewrite of the
remote URL to `https://` + token + `@` + that text and then the push. -/
theorem token_url_set_before_push {σ : Type} (git : GitCommand → σ → CommandResult σ)
    (cfg : GitSyncConfig) (now : String) (s : σ) (rest : String)
    (htoken : cfg.GitToken ≠ "") (hurl : cfg.GitRepository = "https://" ++ rest)
    (hcommitted : ∃ message, (GitCommand.commit message, none) ∈
      (commitAndPushChanges git cfg now s).issued) :
    ∃ before setErr pushErr,
      (commitAndPushChanges git cfg now s).issued =
        before ++ [(GitCommand.setUrl ("https://" ++ cfg.GitToken ++ "@" ++ rest), setErr),
          (GitCommand.push cfg.GitBranch, pushErr)] := by
  obtain ⟨message, hmem⟩ := hcommitted
  cases hadd : (git GitCommand.add s).err with
  | some err =>
    rw [commitAndPush_add_fails git cfg now s err hadd] at hmem
    simp at hmem
  | none =>
    cases hdiff : (git GitCommand.diffIndex (git GitCommand.add s).state).err with
    | none =>
      rw [commitAndPush_no_changes git cfg now s hadd hdiff] at hmem
      simp at hmem
    | some diffErr =>
      cases hcommit : (git (commitCommand git now s) (stateBeforeCommit git s)).err with
      | some err =>
        rw [commitAndPush_commit_fails git cfg now s diffErr err hadd hdiff hcommit] at hmem
        simp [commitCommand] at hmem
      | none =>
        have hcond : (decide (cfg.GitToken ≠ "") && hasPrefix cfg.GitRepository "https://") =
            true := by
          rw [hurl, hasPrefix_append]
          simp [htoken]
        rw [commitAndPush_pushed git cfg now s diffErr hadd hdiff hcommit, if_pos hcond,
          authURL_of_https cfg rest hurl]
        exact ⟨[(GitCommand.add, none), (GitCommand.diffIndex, some diffErr),
            (GitCommand.diffStat, (git GitCommand.diffStat (stateBeforeDiffStat git s)).err),
            (commitCommand git now s, none)], _, _, rfl⟩

/-- Witness for C20: with the token `tok` and the URL
`https://github.com/org/backups.git` the run ends with the rewrite to
`https://tok@github.com/org/backups.git` and the push of `main`. -/
theorem token_url_set_before_push_witness :
    ∃ before setErr pushErr,
      (commitAndPushChanges (gitWithFaults noFaults) httpsSyncConfig "2024-05-01 10:00:00 UTC"
        dirtyRepo).issued =
        before ++ [(GitCommand.setUrl ("https://" ++ "tok" ++ "@" ++ "github.com/org/backups.git"),
            setErr),
          (GitCommand.push "main", pushErr)] :=
  token_url_set_before_push (gitWithFaults noFaults) httpsSyncConfig "2024-05-01 10:00:00 UTC"
    dirtyRepo "github.com/org/backups.git" (by decide) (by decide)
    ⟨commitMessage "2024-05-01 10:00:00 UTC" "web.yaml | 2 +-\n 1 file changed", by
      have h : (commitAndPushChanges (gitWithFaults noFaults) httpsSyncConfig
          "2024-05-01 10:00:00 UTC" dirtyRepo).issued =
          [(GitCommand.add, none), (GitCommand.diffIndex, some "exit status 1"),
           (GitCommand.diffStat, none),
           (GitCommand.commit (commitMessage "2024-05-01 10:00:00 UTC"
              "web.yaml | 2 +-\n 1 file changed"), none),
           (GitCommand.setUrl "https://tok@github.com/org/backups.git", none),
           (GitCommand.push "main", none)] := rfl
      rw [h]
      simp⟩

/-! ## Export pass over one resource type: lemmas and claims -/

theorem backupLoop_nil (marshal : List (String × Value) → Except String String)
    (putObject : PutObjectCall → Option String) (cfg : BackupConfig) (config : Config)
    (ns resourceType : String) (st : PassState) :
    backupLoop marshal putObject cfg config ns resourceType st [] =
      { count := st.count, err := none, skipped := st.skipped, invalid := st.invalid,
        calls := st.calls } := by
  rw [backupLoop]

theorem backupLoop_skip (marshal : List (String × Value) → Except String String)
    (putObject : PutObjectCall → Option String) (cfg : BackupConfig) (config : Config)
    (ns resourceType : String) (st : PassState) (item : Unstructured) (rest : List Unstructured)
    (hskip : shouldSkipResource cfg item = true) :
    backupLoop marshal putObject cfg config ns resourceType st (item :: rest) =
      backupLoop marshal putObject cfg config ns resourceType
        { st with skipped := st.skipped + 1 } rest := by
  rw [backupLoop]
  simp only [hskip, if_true]

theorem backupLoop_invalid_skip (marshal : List (String × Value) → Except String String)
    (putObject : PutObjectCall → Option String) (cfg : BackupConfig) (config : Config)
    (ns resourceType : String) (st : PassState) (item : Unstructured) (rest : List Unstructured)
    (err : String) (hkeep : shouldSkipResource cfg item = false)
    (hbad : validationError marshal cfg (cleanResource cfg item) = some err)
    (hpolicy : cfg.SkipInvalidResources = true) :
    backupLoop marshal putObject cfg config ns resourceType st (item :: rest) =
      backupLoop marshal putObject cfg config ns resourceType
        { st with invalid := st.invalid + 1 } rest := by
  rw [backupLoop]
  simp only [hkeep, hbad, hpolicy, if_true, Bool.false_eq_true, if_false]

theorem backupLoop_invalid_stop (marshal : List (String × Value) → Except String String)
    (putObject : PutObjectCall → Option String) (cfg : BackupConfig) (config : Config)
    (ns resourceType : String) (st : PassState) (item : Unstructured) (rest : List Unstructured)
    (err : String) (hkeep : shouldSkipResource cfg item = false)
    (hbad : validationError marshal cfg (cleanResource cfg item) = some err)
    (hpolicy : cfg.SkipInvalidResources = false) :
    backupLoop marshal putObject cfg config ns resourceType st (item :: rest) =
      { count := st.count
        err := some ("invalid resource " ++ ns ++ "/" ++ item.name ++ ": " ++ err)
        skipped := st.skipped, invalid := st.invalid, calls := st.calls } := by
  rw [backupLoop]
  simp only [hkeep, hbad, hpolicy, Bool.false_eq_true, if_false]

theorem backupLoop_upload_fail (marshal : List (String × Value) → Except String String)
    (putObject : PutObjectCall → Option String) (cfg : BackupConfig) (config : Config)
    (ns resourceType : String) (st : PassState) (item : Unstructured) (rest : List Unstructured)
    (err : String) (hkeep : shouldSkipResource cfg item = false)
    (hvalid : validationError marshal cfg (cleanResource cfg item) = none)
    (hfail : (uploadResource marshal putObject config ns resourceType item.name
      (cleanResource cfg item)).err = some err) :
    backupLoop marshal putObject cfg config ns resourceType st (item :: rest) =
      { count := st.count
        err := some ("failed to upload " ++ ns ++ "/" ++ item.name ++ ": " ++ err)
        skipped := st.skipped, invalid := st.invalid
        calls := st.calls ++ (uploadResource marshal putObject config ns resourceType item.name
          (cleanResource cfg item)).calls } := by
  rw [backupLoop]
  simp only [hkeep, hvalid, hfail, Bool.false_eq_true, if_false]

theorem backupLoop_upload_ok (marshal : List (String × Value) → Except String String)
    (putObject : PutObjectCall → Option String) (cfg : BackupConfig) (config : Config)
    (ns resourceType : String) (st : PassState) (item : Unstructured) (rest : List Unstructured)
    (hkeep : shouldSkipResource cfg item = false)
    (hvalid : validationError marshal cfg (cleanResource cfg item) = none)
    (hok : (uploadResource marshal putObject config ns resourceType item.name
      (cleanResource cfg item)).err = none) :
    backupLoop marshal putObject cfg config ns resourceType st (item :: rest) =
      backupLoop marshal putObject cfg config ns resourceType
        { st with count := st.count + 1
                  calls := st.calls ++ (uploadResource marshal putObject config ns resourceType
                    item.name (cleanResource cfg item)).calls } rest := by
  rw [backupLoop]
  simp only [hkeep, hvalid, hok, Bool.false_eq_true, if_false]

/-- The five ways in which the loop treats its first instance. -/
theorem backupLoop_cases (marshal : List (String × Value) → Except String String)
    (putObject : PutObjectCall → Option String) (cfg : BackupConfig) (config : Config)
    (ns resourceType : String) (item : Unstructured) :
    shouldSkipResource cfg item = true ∨
    (shouldSkipResource cfg item = false ∧
      ((∃ err, validationError marshal cfg (cleanResource cfg item) = some err ∧
          cfg.SkipInvalidResources = true) ∨
       (∃ err, validationError marshal cfg (cleanResource cfg item) = some err ∧
          cfg.SkipInvalidResources = false) ∨
       (validationError marshal cfg (cleanResource cfg item) = none ∧
          ∃ err, (uploadResource marshal putObject config ns resourceType item.name
            (cleanResource cfg item)).err = some err) ∨
       (validationError marshal cfg (cleanResource cfg item) = none ∧
          (uploadResource marshal putObject config ns resourceType item.name
            (cleanResource cfg item)).err = none))) := by
  cases hs : shouldSkipResource cfg item with
  | true => exact Or.inl rfl
  | false =>
    refine Or.inr ⟨rfl, ?_⟩
    cases hv : validationError marshal cfg (cleanResource cfg item) with
    | some err =>
      cases hp : cfg.SkipInvalidResources with
      | true => exact Or.inl ⟨err, rfl, rfl⟩
      | false => exact Or.inr (Or.inl ⟨err, rfl, rfl⟩)
    | none =>
      cases hu : (uploadResource marshal putObject config ns resourceType item.name
          (cleanResource cfg item)).err with
      | some err => exact Or.inr (Or.inr (Or.inl ⟨rfl, err, rfl⟩))
      | none => exact Or.inr (Or.inr (Or.inr ⟨rfl, rfl⟩))

theorem backupLoop_append (marshal : List (String × Value) → Except String String)
    (putObject : PutObjectCall → Option String) (cfg : BackupConfig) (config : Config)
    (ns resourceType : String) (st : PassState) (before rest : List Unstructured)
    (hreach : (backupLoop marshal putObject cfg config ns resourceType st before).err = none) :
    backupLoop marshal putObject cfg config ns resourceType st (before ++ rest) =
      backupLoop marshal putObject cfg config ns resourceType
        (resumeFrom (backupLoop marshal putObject cfg config ns resourceType st before)) rest := by
  induction before generalizing st with
  | nil =>
    rw [backupLoop_nil]
    rfl
  | cons item more ih =>
    simp only [List.cons_append]
    rcases backupLoop_cases marshal putObject cfg config ns resourceType item with
      h | ⟨hk, ⟨e, hv, hp⟩ | ⟨e, hv, hp⟩ | ⟨hv, e, hu⟩ | ⟨hv, hu⟩⟩
    · simp only [backupLoop_skip _ _ _ _ _ _ _ _ _ h] at hreach ⊢
      exact ih _ hreach
    · simp only [backupLoop_invalid_skip _ _ _ _ _ _ _ _ _ e hk hv hp] at hreach ⊢
      exact ih _ hreach
    · rw [backupLoop_invalid_stop _ _ _ _ _ _ _ _ _ e hk hv hp] at hreach
      cases hreach
    · rw [backupLoop_upload_fail _ _ _ _ _ _ _ _ _ e hk hv hu] at hreach
      cases hreach
    · simp only [backupLoop_upload_ok _ _ _ _ _ _ _ _ _ hk hv hu] at hreach ⊢
      exact ih _ hreach

theorem uploadResource_calls_of_ok (marshal : List (String × Value) → Except String String)
    (putObject : PutObjectCall → Option String) (config : Config)
    (ns resourceType name : String) (resource : List (String × Value))
    (hok : (uploadResource marshal putObject config ns resourceType name resource).err = none) :
    (uploadResource marshal putObject config ns resourceType name resource).calls.length = 1 := by
  unfold uploadResource at hok ⊢
  cases hm : marshal resource with
  | error e =>
    rw [hm] at hok
    simp at hok
  | ok yamlData => simp

/-- The counters of a pass that ends without error: every instance is
counted once, and every counted instance has its one `PutObject` call. -/
theorem backupLoop_counters (marshal : List (String × Value) → Except String String)
    (putObject : PutObjectCall → Option String) (cfg : BackupConfig) (config : Config)
    (ns resourceType : String) (st : PassState) (items : List Unstructured)
    (hok : (backupLoop marshal putObject cfg config ns resourceType st items).err = none) :
    (backupLoop marshal putObject cfg config ns resourceType st items).count +
        (backupLoop marshal putObject cfg config ns resourceType st items).skipped +
        (backupLoop marshal putObject cfg config ns resourceType st items).invalid =
      st.count + st.skipped + st.invalid + items.length ∧
    (backupLoop marshal putObject cfg config ns resourceType st items).calls.length + st.count =
      st.calls.length +
        (backupLoop marshal putObject cfg config ns resourceType st items).count := by
  induction items generalizing st with
  | nil =>
    rw [backupLoop_nil]
    simp
  | cons item more ih =>
    rcases backupLoop_cases marshal putObject cfg config ns resourceType item with
      h | ⟨hk, ⟨e, hv, hp⟩ | ⟨e, hv, hp⟩ | ⟨hv, e, hu⟩ | ⟨hv, hu⟩⟩
    · rw [backupLoop_skip _ _ _ _ _ _ _ _ _ h] at hok ⊢
      have := ih _ hok
      simp only [List.length_cons] at this ⊢
      omega
    · rw [backupLoop_invalid_skip _ _ _ _ _ _ _ _ _ e hk hv hp] at hok ⊢
      have := ih _ hok
      simp only [List.length_cons] at this ⊢
      omega
    · rw [backupLoop_invalid_stop _ _ _ _ _ _ _ _ _ e hk hv hp] at hok
      cases hok
    · rw [backupLoop_upload_fail _ _ _ _ _ _ _ _ _ e hk hv hu] at hok
      cases hok
    · rw [backupLoop_upload_ok _ _ _ _ _ _ _ _ _ hk hv hu] at hok ⊢
      have := ih _ hok
      have hone := uploadResource_calls_of_ok marshal putObject config ns resourceType
        item.name (cleanResource cfg item) hu
      simp only [List.length_cons, List.length_append, hone] at this ⊢
      omega

theorem backupLoop_more_invalid (marshal : List (String × Value) → Except String String)
    (putObject : PutObjectCall → Option String) (cfg : BackupConfig) (config : Config)
    (ns resourceType : String) (st : PassState) (items : List Unstructured) :
    backupLoop marshal putObject cfg config ns resourceType
        { st with invalid := st.invalid + 1 } items =
      { backupLoop marshal putObject cfg config ns resourceType st items with
        invalid := (backupLoop marshal putObject cfg config ns resourceType st items).invalid + 1 } := by
  induction items generalizing st with
  | nil => simp only [backupLoop_nil]
  | cons item more ih =>
    rcases backupLoop_cases marshal putObject cfg config ns resourceType item with
      h | ⟨hk, ⟨e, hv, hp⟩ | ⟨e, hv, hp⟩ | ⟨hv, e, hu⟩ | ⟨hv, hu⟩⟩
    · simp only [backupLoop_skip _ _ _ _ _ _ _ _ _ h]
      exact ih { st with skipped := st.skipped + 1 }
    · simp only [backupLoop_invalid_skip _ _ _ _ _ _ _ _ _ e hk hv hp]
      exact ih { st with invalid := st.invalid + 1 }
    · simp only [backupLoop_invalid_stop _ _ _ _ _ _ _ _ _ e hk hv hp]
    · simp only [backupLoop_upload_fail _ _ _ _ _ _ _ _ _ e hk hv hu]
    · simp only [backupLoop_upload_ok _ _ _ _ _ _ _ _ _ hk hv hu]
      exact ih { st with count := st.count + 1
                         calls := st.calls ++ (uploadResource marshal putObject config ns
                           resourceType item.name (cleanResource cfg item)).calls }

theorem validationError_of_marshal_error
    (marshal : List (String × Value) → Except String String) (cfg : BackupConfig)
    (cleaned : List (String × Value)) (e : String) (hvalidate : cfg.ValidateYAML = true)
    (hbad : marshal cleaned = Except.error e) : validationError marshal cfg cleaned = some e := by
  unfold validationError validateResource
  simp only [hvalidate, if_true, hbad]

theorem backupResource_of_listing (list : ListCall → Except String (List Unstructured))
    (marshal : List (String × Value) → Except String String)
    (putObject : PutObjectCall → Option String) (cfg : BackupConfig) (config : Config)
    (ns : String) (gvr : GroupVersionResource) (resource : APIResource)
    (items : List Unstructured) (hlist : list (listCallOf cfg ns gvr resource) = Except.ok items) :
    backupResource list marshal putObject cfg config ns gvr resource =
      backupLoop marshal putObject cfg config ns gvr.Resource freshPass items := by
  unfold backupResource
  simp only [hlist]

theorem backupLoop_fresh_count (marshal : List (String × Value) → Except String String)
    (putObject : PutObjectCall → Option String) (cfg : BackupConfig) (config : Config)
    (ns resourceType : String) (items : List Unstructured)
    (hok : (backupLoop marshal putObject cfg config ns resourceType freshPass items).err = none) :
    (backupLoop marshal putObject cfg config ns resourceType freshPass items).count =
      (backupLoop marshal putObject cfg config ns resourceType freshPass items).calls.length := by
  have h := (backupLoop_counters marshal putObject cfg config ns resourceType freshPass
    items hok).2
  have h0 : freshPass.count = 0 := rfl
  have h1 : freshPass.calls.length = 0 := rfl
  rw [h0, h1] at h
  omega

/-- Every `PutObject` call of a pass that ends without error was accepted by
the store. -/
theorem backupLoop_calls_accepted (marshal : List (String × Value) → Except String String)
    (putObject : PutObjectCall → Option String) (cfg : BackupConfig) (config : Config)
    (ns resourceType : String) (st : PassState) (items : List Unstructured)
    (hst : ∀ call ∈ st.calls, putObject call = none)
    (hok : (backupLoop marshal putObject cfg config ns resourceType st items).err = none) :
    ∀ call ∈ (backupLoop marshal putObject cfg config ns resourceType st items).calls,
      putObject call = none := by
  induction items generalizing st with
  | nil =>
    rw [backupLoop_nil]
    exact hst
  | cons item more ih =>
    rcases backupLoop_cases marshal putObject cfg config ns resourceType item with
      h | ⟨hk, ⟨e, hv, hp⟩ | ⟨e, hv, hp⟩ | ⟨hv, e, hu⟩ | ⟨hv, hu⟩⟩
    · rw [backupLoop_skip _ _ _ _ _ _ _ _ _ h] at hok ⊢
      exact ih _ hst hok
    · rw [backupLoop_invalid_skip _ _ _ _ _ _ _ _ _ e hk hv hp] at hok ⊢
      exact ih _ hst hok
    · rw [backupLoop_invalid_stop _ _ _ _ _ _ _ _ _ e hk hv hp] at hok
      cases hok
    · rw [backupLoop_upload_fail _ _ _ _ _ _ _ _ _ e hk hv hu] at hok
      cases hok
    · rw [backupLoop_upload_ok _ _ _ _ _ _ _ _ _ hk hv hu] at hok ⊢
      refine ih _ ?_ hok
      intro call hcall
      rcases List.mem_append.1 hcall with hc | hc
      · exact hst call hc
      · unfold uploadResource at hc hu
        cases hm : marshal (cleanResource cfg item) with
        | error err =>
          rw [hm] at hc
          simp at hc
        | ok yamlData =>
          rw [hm] at hc hu
          simp only [List.mem_singleton] at hc
          simp only at hu
          rw [hc]
          exact hu

/-- C21: in a pass with `ValidateYAML` on that reaches an instance whose
cleaned document fails to serialize. With `SkipInvalidResources` on, the
pass gives what the pass over the listing without that instance gives, with
`invalid` one higher: the instance is not uploaded, not counted, and the
later instances are processed. With `SkipInvalidResources` off, the pass
ends there with an error; its count and its uploads are those of the
instances before it, and that count is the number of these uploads. -/
theorem invalid_instance_handling (list : ListCall → Except String (List Unstructured))
    (marshal : List (String × Value) → Except String String)
    (putObject : PutObjectCall → Option String) (cfg : BackupConfig) (config : Config)
    (ns : String) (gvr : GroupVersionResource) (resource : APIResource)
    (before after : List Unstructured) (bad : Unstructured) (e : String)
    (hlist : list (listCallOf cfg ns gvr resource) = Except.ok (before ++ bad :: after))
    (hvalidate : cfg.ValidateYAML = true)
    (hreach : (backupLoop marshal putObject cfg config ns gvr.Resource freshPass before).err =
      none)
    (hkeep : shouldSkipResource cfg bad = false)
    (hbad : marshal (cleanResource cfg bad) = Except.error e) :
    (cfg.SkipInvalidResources = true →
      backupResource list marshal putObject cfg config ns gvr resource =
        { backupLoop marshal putObject cfg config ns gvr.Resource freshPass (before ++ after) with
          invalid := (backupLoop marshal putObject cfg config ns gvr.Resource freshPass
            (before ++ after)).invalid + 1 }) ∧
    (cfg.SkipInvalidResources = false →
      backupResource list marshal putObject cfg config ns gvr resource =
        { backupLoop marshal putObject cfg config ns gvr.Resource freshPass before with
          err := some ("invalid resource " ++ ns ++ "/" ++ bad.name ++ ": " ++ e) } ∧
      (backupLoop marshal putObject cfg config ns gvr.Resource freshPass before).count =
        (backupLoop marshal putObject cfg config ns gvr.Resource freshPass before).calls.length) := by
  have hv := validationError_of_marshal_error marshal cfg _ e hvalidate hbad
  rw [backupResource_of_listing list marshal putObject cfg config ns gvr resource _ hlist,
    backupLoop_append _ _ _ _ _ _ _ _ _ hreach]
  constructor
  · intro hp
    rw [backupLoop_invalid_skip _ _ _ _ _ _ _ _ _ e hkeep hv hp,
      backupLoop_append _ _ _ _ _ _ _ _ _ hreach]
    exact backupLoop_more_invalid _ _ _ _ _ _ _ _
  · intro hp
    rw [backupLoop_invalid_stop _ _ _ _ _ _ _ _ _ e hkeep hv hp]
    exact ⟨rfl, backupLoop_fresh_count marshal putObject cfg config ns gvr.Resource before hreach⟩

/-- C22: in a pass that reaches an instance whose upload fails, the pass
ends there with an error. Its count is the count of the instances before
it, which is the number of their uploads; its `PutObject` calls are theirs
followed by the calls of the failing upload, none of which the store
accepted; no later instance is uploaded. -/
theorem upload_failure_aborts (list : ListCall → Except String (List Unstructured))
    (marshal : List (String × Value) → Except String String)
    (putObject : PutObjectCall → Option String) (cfg : BackupConfig) (config : Config)
    (ns : String) (gvr : GroupVersionResource) (resource : APIResource)
    (before after : List Unstructured) (bad : Unstructured) (e : String)
    (hlist : list (listCallOf cfg ns gvr resource) = Except.ok (before ++ bad :: after))
    (hreach : (backupLoop marshal putObject cfg config ns gvr.Resource freshPass before).err =
      none)
    (hkeep : shouldSkipResource cfg bad = false)
    (hvalid : validationError marshal cfg (cleanResource cfg bad) = none)
    (hfail : (uploadResource marshal putObject config ns gvr.Resource bad.name
      (cleanResource cfg bad)).err = some e) :
    backupResource list marshal putObject cfg config ns gvr resource =
      { count := (backupLoop marshal putObject cfg config ns gvr.Resource freshPass before).count
        err := some ("failed to upload " ++ ns ++ "/" ++ bad.name ++ ": " ++ e)
        skipped :=
          (backupLoop marshal putObject cfg config ns gvr.Resource freshPass before).skipped
        invalid :=
          (backupLoop marshal putObject cfg config ns gvr.Resource freshPass before).invalid
        calls :=
          (backupLoop marshal putObject cfg config ns gvr.Resource freshPass before).calls ++
            (uploadResource marshal putObject config ns gvr.Resource bad.name
              (cleanResource cfg bad)).calls } ∧
    (backupLoop marshal putObject cfg config ns gvr.Resource freshPass before).count =
      (backupLoop marshal putObject cfg config ns gvr.Resource freshPass before).calls.length ∧
    ∀ call ∈ (uploadResource marshal putObject config ns gvr.Resource bad.name
      (cleanResource cfg bad)).calls, putObject call ≠ none := by
  rw [backupResource_of_listing list marshal putObject cfg config ns gvr resource _ hlist,
    backupLoop_append _ _ _ _ _ _ _ _ _ hreach,
    backupLoop_upload_fail _ _ _ _ _ _ _ _ _ e hkeep hvalid hfail]
  refine ⟨rfl, ?_, ?_⟩
  · exact backupLoop_fresh_count marshal putObject cfg config ns gvr.Resource before hreach
  · intro call hcall
    unfold uploadResource at hcall hfail
    cases hm : marshal (cleanResource cfg bad) with
    | error err =>
      rw [hm] at hcall
      simp at hcall
    | ok yamlData =>
      rw [hm] at hcall hfail
      simp only [List.mem_singleton] at hcall
      simp only at hfail
      rw [hcall, hfail]
      simp

/-- C28: when a pass over a listing ends without error, `backed_up`,
`skipped` and `invalid` add up to the number of listed instances, and the
returned count, which is `backed_up`, is the number of `PutObject` calls
made. -/
theorem counters_partition (list : ListCall → Except String (List Unstructured))
    (marshal : List (String × Value) → Except String String)
    (putObject : PutObjectCall → Option String) (cfg : BackupConfig) (config : Config)
    (ns : String) (gvr : GroupVersionResource) (resource : APIResource)
    (items : List Unstructured)
    (hlist : list (listCallOf cfg ns gvr resource) = Except.ok items)
    (hok : (backupResource list marshal putObject cfg config ns gvr resource).err = none) :
    (backupResource list marshal putObject cfg config ns gvr resource).count +
        (backupResource list marshal putObject cfg config ns gvr resource).skipped +
        (backupResource list marshal putObject cfg config ns gvr resource).invalid =
      items.length ∧
    (backupResource list marshal putObject cfg config ns gvr resource).count =
      (backupResource list marshal putObject cfg config ns gvr resource).calls.length ∧
    ∀ call ∈ (backupResource list marshal putObject cfg config ns gvr resource).calls,
      putObject call = none := by
  rw [backupResource_of_listing list marshal putObject cfg config ns gvr resource _ hlist] at hok ⊢
  refine ⟨?_, backupLoop_fresh_count marshal putObject cfg config ns gvr.Resource items hok,
    backupLoop_calls_accepted marshal putObject cfg config ns gvr.Resource freshPass items
      (by simp [freshPass]) hok⟩
  have h := (backupLoop_counters marshal putObject cfg config ns gvr.Resource freshPass
    items hok).1
  have h0 : freshPass.count = 0 := rfl
  have h1 : freshPass.skipped = 0 := rfl
  have h2 : freshPass.invalid = 0 := rfl
  rw [h0, h1, h2] at h
  omega

/-- Witness for C21: in a listing of `a`, `broken`, `b` whose second
document cannot be serialized, the tolerant policy uploads `a` and `b` and
counts one invalid instance, and the strict policy ends with an error after
the one upload of `a`. -/
theorem invalid_instance_handling_witness :
    backupResource invalidCluster pickyMarshal acceptingStore followOwnersConfig eastConfig
        "shop" (gvrOf configmapsResource) configmapsResource =
      { count := 2, err := none, skipped := 0, invalid := 1
        calls :=
          [{ bucket := "cluster-backups"
             objectPath := "clusterbackup/production-east/shop/configmaps/a.yaml"
             data := "kind: ConfigMap", contentType := "application/x-yaml" },
           { bucket := "cluster-backups"
             objectPath := "clusterbackup/production-east/shop/configmaps/b.yaml"
             data := "kind: ConfigMap", contentType := "application/x-yaml" }] } ∧
    backupResource invalidCluster pickyMarshal acceptingStore strictConfig eastConfig
        "shop" (gvrOf configmapsResource) configmapsResource =
      { count := 1, err := some "invalid resource shop/broken: cannot marshal"
        skipped := 0, invalid := 0
        calls :=
          [{ bucket := "cluster-backups"
             objectPath := "clusterbackup/production-east/shop/configmaps/a.yaml"
             data := "kind: ConfigMap", contentType := "application/x-yaml" }] } :=
  ⟨((invalid_instance_handling invalidCluster pickyMarshal acceptingStore followOwnersConfig
      eastConfig "shop" (gvrOf configmapsResource) configmapsResource
      [configMapInstance "a"] [configMapInstance "b"] (configMapInstance "broken")
      "cannot marshal" rfl rfl rfl rfl rfl).1 rfl).trans rfl,
    ((invalid_instance_handling invalidCluster pickyMarshal acceptingStore strictConfig
      eastConfig "shop" (gvrOf configmapsResource) configmapsResource
      [configMapInstance "a"] [configMapInstance "b"] (configMapInstance "broken")
      "cannot marshal" rfl rfl rfl rfl rfl).2 rfl).1.trans rfl⟩

/-- Witness for C22: in a listing of `a`, `heavy`, `b` where the store
refuses `heavy`, the pass ends with an error and the count 1; `b` is not
uploaded. -/
theorem upload_failure_aborts_witness :
    backupResource sampleCluster pickyMarshal pickyStore followOwnersConfig eastConfig
        "shop" (gvrOf configmapsResource) configmapsResource =
      { count := 1, err := some "failed to upload shop/heavy: entity too large"
        skipped := 0, invalid := 0
        calls :=
          [{ bucket := "cluster-backups"
             objectPath := "clusterbackup/production-east/shop/configmaps/a.yaml"
             data := "kind: ConfigMap", contentType := "application/x-yaml" },
           { bucket := "cluster-backups"
             objectPath := "clusterbackup/production-east/shop/configmaps/heavy.yaml"
             data := "kind: ConfigMap", contentType := "application/x-yaml" }] } :=
  (upload_failure_aborts sampleCluster pickyMarshal pickyStore followOwnersConfig eastConfig
    "shop" (gvrOf configmapsResource) configmapsResource
    [configMapInstance "a"] [configMapInstance "b"] (configMapInstance "heavy")
    "entity too large" rfl rfl rfl rfl rfl).1.trans rfl

/-- Witness for C28: the pass over `a`, `broken`, `b` under the tolerant
policy ends without error with 2 backed up, 0 skipped, 1 invalid and 2
uploads. -/
theorem counters_partition_witness :
    (backupResource invalidCluster pickyMarshal acceptingStore followOwnersConfig eastConfig
      "shop" (gvrOf configmapsResource) configmapsResource).count +
      (backupResource invalidCluster pickyMarshal acceptingStore followOwnersConfig eastConfig
        "shop" (gvrOf configmapsResource) configmapsResource).skipped +
      (backupResource invalidCluster pickyMarshal acceptingStore followOwnersConfig eastConfig
        "shop" (gvrOf configmapsResource) configmapsResource).invalid = 3 ∧
    (backupResource invalidCluster pickyMarshal acceptingStore followOwnersConfig eastConfig
      "shop" (gvrOf configmapsResource) configmapsResource).count = 2 :=
  ⟨(counters_partition invalidCluster pickyMarshal acceptingStore followOwnersConfig eastConfig
      "shop" (gvrOf configmapsResource) configmapsResource
      [configMapInstance "a", configMapInstance "broken", configMapInstance "b"] rfl rfl).1,
    rfl⟩

/-! ## Export pass over one namespace and the run: lemmas and claims -/

theorem resourceTypeLoop_eq (list : ListCall → Except String (List Unstructured))
    (marshal : List (String × Value) → Except String String)
    (putObject : PutObjectCall → Option String) (cfg : BackupConfig) (config : Config)
    (ns : String) (st : NamespaceState) (apiResources : List APIResource) :
    resourceTypeLoop list marshal putObject cfg config ns st apiResources =
      { resourceCount := st.resourceCount +
          (((apiResources.map (fun resource =>
            backupResource list marshal putObject cfg config ns (gvrOf resource) resource)).filter
              (fun pass => pass.err.isNone)).map PassOutcome.count).sum
        resourceErrors := st.resourceErrors +
          ((apiResources.map (fun resource =>
            backupResource list marshal putObject cfg config ns (gvrOf resource) resource)).filter
              (fun pass => pass.err.isSome)).length
        passes := st.passes ++ apiResources.map (fun resource =>
          backupResource list marshal putObject cfg config ns (gvrOf resource) resource) } := by
  induction apiResources generalizing st with
  | nil =>
    rw [resourceTypeLoop]
    simp
  | cons resource rest ih =>
    rw [resourceTypeLoop]
    cases herr : (backupResource list marshal putObject cfg config ns (gvrOf resource)
        resource).err with
    | some e =>
      simp only [ih, List.map_cons, List.filter_cons, herr, Option.isNone_some,
        Option.isSome_some, Bool.false_eq_true, if_false, if_true, List.length_cons,
        List.append_assoc, List.singleton_append]
      congr 1
      omega
    | none =>
      simp only [ih, List.map_cons, List.filter_cons, herr, Option.isNone_none,
        Option.isSome_none, Bool.false_eq_true, if_false, if_true, List.sum_cons,
        List.append_assoc, List.singleton_append]
      congr 1
      omega

/-- C23: `backupNamespace` makes the pass of every catalog entry, in order,
whatever the passes before it return; the count it returns is the sum of
the counts of the passes that returned no error, so a pass that returned an
error adds nothing, its partial count included. -/
theorem namespace_count_sums_clean_passes (list : ListCall → Except String (List Unstructured))
    (marshal : List (String × Value) → Except String String)
    (putObject : PutObjectCall → Option String) (cfg : BackupConfig) (config : Config)
    (ns : String) (apiResources : List APIResource) :
    (backupNamespace list marshal putObject cfg config ns apiResources).passes =
      apiResources.map (fun resource =>
        backupResource list marshal putObject cfg config ns (gvrOf resource) resource) ∧
    (backupNamespace list marshal putObject cfg config ns apiResources).count =
      (((backupNamespace list marshal putObject cfg config ns apiResources).passes.filter
        (fun pass => pass.err.isNone)).map PassOutcome.count).sum ∧
    (backupNamespace list marshal putObject cfg config ns apiResources).resourceErrors =
      ((backupNamespace list marshal putObject cfg config ns apiResources).passes.filter
        (fun pass => pass.err.isSome)).length := by
  unfold backupNamespace
  simp only [resourceTypeLoop_eq, List.nil_append, Nat.zero_add, and_self]

theorem backupNamespace_err (list : ListCall → Except String (List Unstructured))
    (marshal : List (String × Value) → Except String String)
    (putObject : PutObjectCall → Option String) (cfg : BackupConfig) (config : Config)
    (ns : String) (apiResources : List APIResource) :
    (backupNamespace list marshal putObject cfg config ns apiResources).err = none := by
  unfold backupNamespace
  rfl

theorem namespacesLoop_eq (list : ListCall → Except String (List Unstructured))
    (marshal : List (String × Value) → Except String String)
    (putObject : PutObjectCall → Option String) (cfg : BackupConfig) (config : Config)
    (apiResources : List APIResource) (st : RunState) (namespaces : List String) :
    namespacesLoop list marshal putObject cfg config apiResources st namespaces =
      { totalResources := st.totalResources +
          ((namespaces.map (fun ns =>
            backupNamespace list marshal putObject cfg config ns apiResources)).map
              NamespaceOutcome.count).sum
        namespaceErrors := st.namespaceErrors
        namespaces := st.namespaces ++ namespaces.map (fun ns =>
          backupNamespace list marshal putObject cfg config ns apiResources) } := by
  induction namespaces generalizing st with
  | nil =>
    rw [namespacesLoop]
    simp
  | cons ns rest ih =>
    rw [namespacesLoop]
    simp only [backupNamespace_err, ih, List.map_cons, List.sum_cons, List.append_assoc,
      List.singleton_append]
    congr 1
    omega

/-- Witness for C23: with config maps whose pass is aborted after one
upload, secrets that cannot be listed and pods with one instance, the
namespace count is 1: the partial count of the aborted pass is left out,
and the pods are still processed. -/
theorem namespace_count_sums_clean_passes_witness :
    (backupResource sampleCluster pickyMarshal pickyStore followOwnersConfig eastConfig "shop"
      (gvrOf configmapsResource) configmapsResource).count = 1 ∧
    (backupNamespace sampleCluster pickyMarshal pickyStore followOwnersConfig eastConfig "shop"
      sampleCatalog).count = 1 ∧
    (backupNamespace sampleCluster pickyMarshal pickyStore followOwnersConfig eastConfig "shop"
      sampleCatalog).resourceErrors = 2 :=
  ⟨rfl,
    (namespace_count_sums_clean_passes sampleCluster pickyMarshal pickyStore followOwnersConfig
      eastConfig "shop" sampleCatalog).2.1.trans rfl,
    (namespace_count_sums_clean_passes sampleCluster pickyMarshal pickyStore followOwnersConfig
      eastConfig "shop" sampleCatalog).2.2.trans rfl⟩

/-! ## Catalog filter: unknown modes -/

/-- C25: for a filtering mode that is none of `whitelist`, `blacklist`,
`hybrid`, `shouldIncludeResource` decides as it does in blacklist mode, for
every descriptor, group-version string and lists. -/
theorem unknown_mode_is_blacklist (equalFold : String → String → Bool) (cfg : BackupConfig)
    (resource : APIResource) (groupVersion : String)
    (hmode : cfg.FilteringMode ≠ "whitelist" ∧ cfg.FilteringMode ≠ "blacklist" ∧
      cfg.FilteringMode ≠ "hybrid") :
    shouldIncludeResource equalFold cfg resource groupVersion =
      shouldIncludeResource equalFold { cfg with FilteringMode := "blacklist" } resource
        groupVersion := by
  have hw : ¬ ("blacklist" = "whitelist") := by decide
  unfold shouldIncludeResource
  simp only [hmode.1, hmode.2.1, hmode.2.2, hw, isInExcludeList, if_false, if_true]

/-- Witness for C25: under the mode `Whitelist` and under the empty mode
`pods` is included although the include list does not name it, as in
blacklist mode. -/
theorem unknown_mode_is_blacklist_witness :
    shouldIncludeResource equalFoldASCII capitalModeConfig podsResource "v1" = true ∧
    shouldIncludeResource equalFoldASCII whitelistConfig podsResource "v1" = false ∧
    shouldIncludeResource equalFoldASCII emptyConfig podsResource "v1" =
      shouldIncludeResource equalFoldASCII { emptyConfig with FilteringMode := "blacklist" }
        podsResource "v1" :=
  ⟨(unknown_mode_is_blacklist equalFoldASCII capitalModeConfig podsResource "v1"
      (by decide)).trans (by decide),
    by decide,
    unknown_mode_is_blacklist equalFoldASCII emptyConfig podsResource "v1" (by decide)⟩

/-! ## Skip rule: selectors that are no `key=value` -/

theorem splitChars_length (sep : Char) (l : List Char) :
    (splitChars sep l).length = l.count sep + 1 := by
  induction l with
  | nil => simp [splitChars]
  | cons c cs ih =>
    unfold splitChars
    by_cases h : c = sep
    · subst h
      simp [ih]
    · cases hs : splitChars sep cs with
      | nil => exact absurd hs (splitChars_ne_nil sep cs)
      | cons p ps =>
        rw [hs] at ih
        have hc : (c == sep) = false := by simpa using h
        simp only [h, if_false, List.length_cons, List.count_cons, hc] at ih ⊢
        simpa using ih

theorem shouldSkipResource_eq (cfg : BackupConfig) (resource : Unstructured) :
    shouldSkipResource cfg resource =
      (annotationSkip cfg resource ||
        (!cfg.FollowOwnerReferences && ownerLoop resource.ownerReferences)) := by
  unfold shouldSkipResource
  cases annotationSkip cfg resource <;> cases cfg.FollowOwnerReferences <;> simp

theorem annotationSkip_of_malformed (cfg : BackupConfig) (resource : Unstructured)
    (annotations : List (String × String))
    (hcount : cfg.AnnotationSelector.data.count '=' ≠ 1)
    (hsome : resource.annotations = some annotations) : annotationSkip cfg resource = false := by
  unfold annotationSkip
  by_cases hsel : cfg.AnnotationSelector = ""
  · simp [hsel]
  · have hlen : (split cfg.AnnotationSelector '=').length ≠ 2 := by
      unfold split
      rw [List.length_map, splitChars_length]
      omega
    simp only [ne_eq, hsel, not_false_eq_true, if_true, hsome]
    split
    · next part0 part1 heq =>
        rw [heq] at hlen
        exact absurd rfl hlen
    · rfl

theorem annotationSkip_of_empty_value (cfg : BackupConfig) (resource : Unstructured)
    (key value : String) (annotations : List (String × String))
    (hsel : cfg.AnnotationSelector = key ++ "=" ++ value)
    (hkey : '=' ∉ key.data) (hvalue : '=' ∉ value.data) (hempty : trimSpace value = "")
    (hsome : resource.annotations = some annotations)
    (hlack : getKey annotations (trimSpace key) = none) :
    annotationSkip cfg resource = false := by
  have hsplit : split cfg.AnnotationSelector '=' = [key, value] := by
    rw [hsel]
    exact split_pair key value '=' hkey hvalue
  unfold annotationSkip
  rw [hsplit, hsome]
  simp only [hlack, hempty, Option.getD_none, ne_eq, not_true_eq_false, decide_False]
  split <;> rfl

/-- C29: when the selector does not have exactly one `=`, an instance that
has an annotations mapping is not skipped by the annotation rule, whatever
the mapping holds: the decision is that of the owner rule alone. An
instance without annotations is skipped under every non-empty selector. And
for a selector `key=` whose value is empty, an instance whose annotations do
not bind the key is not skipped by the annotation rule either. -/
theorem malformed_selector_rule (cfg : BackupConfig) (resource : Unstructured) :
    (cfg.AnnotationSelector.data.count '=' ≠ 1 →
      ∀ annotations, resource.annotations = some annotations →
        annotationSkip cfg resource = false ∧
        shouldSkipResource cfg resource =
          (!cfg.FollowOwnerReferences && ownerLoop resource.ownerReferences)) ∧
    (cfg.AnnotationSelector ≠ "" → resource.annotations = none →
      shouldSkipResource cfg resource = true) ∧
    (∀ key value annotations, cfg.AnnotationSelector = key ++ "=" ++ value →
      '=' ∉ key.data → '=' ∉ value.data → trimSpace value = "" →
      resource.annotations = some annotations → getKey annotations (trimSpace key) = none →
        annotationSkip cfg resource = false ∧
        shouldSkipResource cfg resource =
          (!cfg.FollowOwnerReferences && ownerLoop resource.ownerReferences)) := by
  refine ⟨?_, ?_, ?_⟩
  · intro hcount annotations hsome
    have h := annotationSkip_of_malformed cfg resource annotations hcount hsome
    rw [shouldSkipResource_eq, h]
    simp
  · intro hsel hnone
    rw [shouldSkipResource_eq]
    have h : annotationSkip cfg resource = true := by
      unfold annotationSkip
      simp [hsel, hnone]
    rw [h]
    simp
  · intro key value annotations hsel hkey hvalue hempty hsome hlack
    have h := annotationSkip_of_empty_value cfg resource key value annotations hsel hkey hvalue
      hempty hsome hlack
    rw [shouldSkipResource_eq, h]
    simp

/-- Witness for C29: under the selector `a=b=c` an instance annotated
`team: platform` is kept and one without annotations is skipped; under the
selector `team=` an instance annotated only `other: x` is kept. -/
theorem malformed_selector_rule_witness :
    shouldSkipResource malformedSelectorConfig platformInstance = false ∧
    shouldSkipResource malformedSelectorConfig bareInstance = true ∧
    shouldSkipResource emptyValueSelectorConfig otherAnnotatedInstance = false :=
  ⟨((malformed_selector_rule malformedSelectorConfig platformInstance).1 (by decide)
      [("team", "platform")] rfl).2.trans (by decide),
    (malformed_selector_rule malformedSelectorConfig bareInstance).2.1 (by decide) rfl,
    ((malformed_selector_rule emptyValueSelectorConfig otherAnnotatedInstance).2.2
      "team" "" [("other", "x")] (by decide) (by decide) (by decide) (by decide) rfl
      (by decide)).2.trans (by decide)⟩

/-! ## Object keys of descriptors that share a short name -/

theorem gvrOf_resource (resource : APIResource) : (gvrOf resource).Resource = resource.Name := by
  unfold gvrOf
  simp only
  split_ifs <;> rfl

theorem uploadResource_call_path (marshal : List (String × Value) → Except String String)
    (putObject : PutObjectCall → Option String) (config : Config)
    (ns resourceType name : String) (resource : List (String × Value)) :
    ∀ call ∈ (uploadResource marshal putObject config ns resourceType name resource).calls,
      call.objectPath = objectPath config.ClusterName ns resourceType name := by
  intro call hcall
  unfold uploadResource at hcall
  cases hm : marshal resource with
  | error err =>
    rw [hm] at hcall
    simp at hcall
  | ok yamlData =>
    rw [hm] at hcall
    simp only [List.mem_singleton] at hcall
    rw [hcall]

theorem backupLoop_call_paths (marshal : List (String × Value) → Except String String)
    (putObject : PutObjectCall → Option String) (cfg : BackupConfig) (config : Config)
    (ns resourceType : String) (st : PassState) (items : List Unstructured) :
    ∀ call ∈ (backupLoop marshal putObject cfg config ns resourceType st items).calls,
      call ∈ st.calls ∨
      ∃ item ∈ items, call.objectPath = objectPath config.ClusterName ns resourceType item.name := by
  induction items generalizing st with
  | nil =>
    rw [backupLoop_nil]
    intro call hcall
    exact Or.inl hcall
  | cons item more ih =>
    have lift : ∀ (st' : PassState) (call : PutObjectCall),
        (∀ c ∈ st'.calls, c ∈ st.calls ∨
          c.objectPath = objectPath config.ClusterName ns resourceType item.name) →
        call ∈ (backupLoop marshal putObject cfg config ns resourceType st' more).calls →
        call ∈ st.calls ∨ ∃ it ∈ item :: more,
          call.objectPath = objectPath config.ClusterName ns resourceType it.name := by
      intro st' call hst' hcall
      rcases ih st' call hcall with h | ⟨it, hit, hp⟩
      · rcases hst' call h with h2 | h2
        · exact Or.inl h2
        · exact Or.inr ⟨item, List.mem_cons_self _ _, h2⟩
      · exact Or.inr ⟨it, List.mem_cons_of_mem _ hit, hp⟩
    have hup : ∀ c ∈ st.calls ++ (uploadResource marshal putObject config ns resourceType
        item.name (cleanResource cfg item)).calls,
        c ∈ st.calls ∨ c.objectPath = objectPath config.ClusterName ns resourceType item.name := by
      intro c hc
      rcases List.mem_append.1 hc with h | h
      · exact Or.inl h
      · exact Or.inr (uploadResource_call_path marshal putObject config ns resourceType
          item.name (cleanResource cfg item) c h)
    intro call hcall
    rcases backupLoop_cases marshal putObject cfg config ns resourceType item with
      h | ⟨hk, ⟨e, hv, hp⟩ | ⟨e, hv, hp⟩ | ⟨hv, e, hu⟩ | ⟨hv, hu⟩⟩
    · rw [backupLoop_skip _ _ _ _ _ _ _ _ _ h] at hcall
      exact lift { st with skipped := st.skipped + 1 } call (fun c hc => Or.inl hc) hcall
    · rw [backupLoop_invalid_skip _ _ _ _ _ _ _ _ _ e hk hv hp] at hcall
      exact lift { st with invalid := st.invalid + 1 } call (fun c hc => Or.inl hc) hcall
    · rw [backupLoop_invalid_stop _ _ _ _ _ _ _ _ _ e hk hv hp] at hcall
      exact Or.inl hcall
    · rw [backupLoop_upload_fail _ _ _ _ _ _ _ _ _ e hk hv hu] at hcall
      rcases hup call hcall with h2 | h2
      · exact Or.inl h2
      · exact Or.inr ⟨item, List.mem_cons_self _ _, h2⟩
    · rw [backupLoop_upload_ok _ _ _ _ _ _ _ _ _ hk hv hu] at hcall
      exact lift _ call hup hcall

/-! ## Custom resources and the catalog: lemmas and claims -/

theorem crdResourceLoop_eq (resourceName : String) (resources l : List APIResource) :
    crdResourceLoop resourceName resources l =
      resources ++ l.filter (fun resource => resource.Name = resourceName) := by
  induction l generalizing resources with
  | nil => simp [crdResourceLoop]
  | cons r rest ih =>
    rw [crdResourceLoop]
    by_cases h : r.Name = resourceName
    · simp [h, ih, List.filter_cons]
    · simp [h, ih, List.filter_cons]

theorem crdListLoop_eq (resourceName group : String) (resources : List APIResource)
    (lists : List (Option APIResourceList)) :
    crdListLoop resourceName group resources lists =
      resources ++ (lists.filterMap id).flatMap (fun list =>
        if containsStr list.GroupVersion group then
          list.APIResources.filter (fun resource => resource.Name = resourceName)
        else []) := by
  induction lists generalizing resources with
  | nil => simp [crdListLoop]
  | cons o rest ih =>
    cases o with
    | none =>
      rw [crdListLoop, ih]
      simp
    | some list =>
      rw [crdListLoop]
      by_cases h : containsStr list.GroupVersion group = true
      · simp [h, ih, crdResourceLoop_eq, List.flatMap_cons]
      · simp [h, ih, List.flatMap_cons]

theorem splitChars_of_mem (sep : Char) (l : List Char) (h : sep ∈ l) :
    splitChars sep l =
      l.takeWhile (fun c => c ≠ sep) ::
        splitChars sep ((l.dropWhile (fun c => c ≠ sep)).drop 1) := by
  induction l with
  | nil => cases h
  | cons c cs ih =>
    by_cases hc : c = sep
    · subst hc
      rw [splitChars]
      simp
    · have hmem : sep ∈ cs := by
        rcases List.mem_cons.1 h with h1 | h1
        · exact absurd h1.symm hc
        · exact h1
      rw [splitChars, ih hmem]
      simp [hc, List.takeWhile_cons, List.dropWhile_cons]

theorem joinChars_cons (sep : Char) (p : List Char) (ps : List (List Char)) (hps : ps ≠ []) :
    joinChars sep (p :: ps) = p ++ sep :: joinChars sep ps := by
  cases ps with
  | nil => exact absurd rfl hps
  | cons q rest => rw [joinChars]

theorem joinChars_splitChars (sep : Char) (l : List Char) :
    joinChars sep (splitChars sep l) = l := by
  induction l with
  | nil => simp [splitChars, joinChars]
  | cons c cs ih =>
    rw [splitChars]
    by_cases hc : c = sep
    · simp only [hc, if_true]
      rw [joinChars_cons sep [] _ (splitChars_ne_nil sep cs), ih]
      rfl
    · simp only [hc, if_false]
      cases hs : splitChars sep cs with
      | nil => exact absurd hs (splitChars_ne_nil sep cs)
      | cons p ps =>
        rw [hs] at ih
        simp only
        cases ps with
        | nil =>
          simp only [joinChars] at ih ⊢
          rw [ih]
        | cons q rest =>
          rw [joinChars_cons sep p _ (by simp)] at ih
          rw [joinChars_cons sep (c :: p) _ (by simp)]
          simp only [List.cons_append]
          rw [ih]

theorem split_entry_without_dot (entry : String) (h : '.' ∉ entry.data) :
    (split entry '.').length < 2 := by
  unfold split
  rw [List.length_map, splitChars_length, List.count_eq_zero_of_not_mem h]
  omega

theorem split_entry_with_dot (entry : String) (h : '.' ∈ entry.data) :
    ¬ (split entry '.').length < 2 ∧
    (split entry '.').getD 0 "" = crdEntryName entry ∧
    join ((split entry '.').drop 1) '.' = crdEntryGroup entry := by
  have hs := splitChars_of_mem '.' entry.data h
  refine ⟨?_, ?_, ?_⟩
  · unfold split
    rw [List.length_map, splitChars_length]
    have : 0 < entry.data.count '.' := List.count_pos_iff.2 h
    omega
  · unfold split crdEntryName
    rw [hs]
    rfl
  · unfold split join crdEntryGroup
    rw [hs]
    simp only [List.map_cons, List.drop_succ_cons, List.drop_zero, List.map_map]
    have hid : (String.data ∘ String.mk) = id := by
      funext x
      rfl
    rw [hid, List.map_id, joinChars_splitChars]

theorem crdLoop_eq (discover : Nat → DiscoveryAnswer) (calls : Nat)
    (resources : List APIResource) (entries : List String) :
    crdLoop discover calls resources entries =
      resources ++ crdExpected discover calls entries := by
  induction entries generalizing calls resources with
  | nil => simp [crdLoop, crdExpected]
  | cons entry rest ih =>
    rw [crdLoop, crdExpected]
    by_cases h : '.' ∈ entry.data
    · obtain ⟨h1, h2, h3⟩ := split_entry_with_dot entry h
      simp only [h1, if_false, h, if_true, h2, h3]
      cases herr : (discover calls).err with
      | some e =>
        simp only [ih]
        simp
      | none =>
        simp only [ih, crdListLoop_eq, crdEntryMatches, h, if_true]
        simp
    · have h1 := split_entry_without_dot entry h
      simp only [h1, if_true, h, if_false, ih]

theorem crdExpected_steady (discover : Nat → DiscoveryAnswer) (answer : DiscoveryAnswer)
    (hsteady : ∀ n, discover n = answer) (calls : Nat) (entries : List String) :
    crdExpected discover calls entries =
      if answer.err = none then
        entries.flatMap (fun entry => crdEntryMatches entry answer.lists)
      else [] := by
  induction entries generalizing calls with
  | nil => simp [crdExpected]
  | cons entry rest ih =>
    rw [crdExpected]
    simp only [ih, hsteady]
    by_cases h : '.' ∈ entry.data
    · by_cases he : answer.err = none
      · simp [h, he, List.flatMap_cons]
      · simp [h, he]
    · by_cases he : answer.err = none
      · simp [h, he, List.flatMap_cons, crdEntryMatches]
      · simp [h, he]

/-- C24: `getCRDResources` at the entry `routes.route.openshift.io` and a
discovery call that returns its lists together with the error of a partial
failure. The descriptors that the entry selects from the discovered lists,
name `routes` in a list whose group-version string contains
`route.openshift.io`, are `[routes]`; `getCRDResources` returns none of
them, while `getAPIResources` builds its part of the catalog from the lists
of the same answer. -/
theorem crd_dropped_on_discovery_error :
    crdEntryMatches "routes.route.openshift.io" (partialDiscovery 1).lists = [routesResource] ∧
    getCRDResources partialDiscovery 1 routesCrdConfig = Except.ok [] ∧
    getAPIResources equalFoldASCII partialDiscovery routesCrdConfig =
      Except.ok [podsResource, deploymentsResource] := by
  refine ⟨?_, ?_, ?_⟩
  · decide
  · rfl
  · rfl

/-- What `getCRDResources` computes: it never returns an error, and its
result is, entry by entry in the configured order, the descriptors that the
entry selects from the lists of its discovery call (name the text before the
first `.`, group the text after it, lists whose group-version string
contains the group, descriptors named like the name, in discovery order)
when that call returned no error; an entry without a `.`, without a match,
or whose call returned an error gives nothing. With one answer to every
call, the result is the concatenation over all entries when the answer has
no error, and empty when it has one. -/
theorem crd_resources_exact (discover : Nat → DiscoveryAnswer) (calls : Nat)
    (cfg : BackupConfig) :
    getCRDResources discover calls cfg =
      Except.ok (crdExpected discover calls cfg.IncludeCRDs) ∧
    ∀ answer, (∀ n, discover n = answer) →
      (answer.err = none →
        getCRDResources discover calls cfg =
          Except.ok (cfg.IncludeCRDs.flatMap (fun entry => crdEntryMatches entry answer.lists))) ∧
      (answer.err ≠ none → getCRDResources discover calls cfg = Except.ok []) := by
  have hmain : getCRDResources discover calls cfg =
      Except.ok (crdExpected discover calls cfg.IncludeCRDs) := by
    unfold getCRDResources
    rw [crdLoop_eq]
    simp
  refine ⟨hmain, ?_⟩
  intro answer hsteady
  rw [hmain, crdExpected_steady discover answer hsteady]
  constructor
  · intro he
    simp [he]
  · intro he
    simp [he]

theorem crd_resources_exact_witness :
    (∀ n, steadyDiscovery n = steadyDiscovery 0) ∧
    (steadyDiscovery 0).err = none ∧
    getCRDResources steadyDiscovery 1 crdConfig =
      Except.ok (crdConfig.IncludeCRDs.flatMap
        (fun entry => crdEntryMatches entry (steadyDiscovery 0).lists)) :=
  ⟨fun _ => rfl, rfl,
    ((crd_resources_exact steadyDiscovery 1 crdConfig).2 (steadyDiscovery 0)
      (fun _ => rfl)).1 rfl⟩


theorem includeResourceLoop_eq (equalFold : String → String → Bool) (cfg : BackupConfig)
    (groupVersion : String) (allResources l : List APIResource) :
    includeResourceLoop equalFold cfg groupVersion allResources l =
      allResources ++
        l.filter (fun resource => shouldIncludeResource equalFold cfg resource groupVersion) := by
  induction l generalizing allResources with
  | nil => simp [includeResourceLoop]
  | cons r rest ih =>
    rw [includeResourceLoop]
    by_cases h : shouldIncludeResource equalFold cfg r groupVersion = true
    · simp [h, ih, List.filter_cons]
    · simp [h, ih, List.filter_cons]

theorem includeListLoop_eq (equalFold : String → String → Bool) (cfg : BackupConfig)
    (allResources : List APIResource) (lists : List (Option APIResourceList)) :
    includeListLoop equalFold cfg allResources lists =
      allResources ++ includedResources equalFold cfg lists := by
  induction lists generalizing allResources with
  | nil => simp [includeListLoop, includedResources]
  | cons o rest ih =>
    cases o with
    | none =>
      rw [includeListLoop, ih]
      simp [includedResources]
    | some list =>
      rw [includeListLoop, ih, includeResourceLoop_eq]
      simp [includedResources, List.flatMap_cons]

theorem getAPIResources_eq (equalFold : String → String → Bool)
    (discover : Nat → DiscoveryAnswer) (cfg : BackupConfig) :
    getAPIResources equalFold discover cfg =
      Except.ok (includedResources equalFold cfg (discover 0).lists ++
        crdLoop discover 1 [] cfg.IncludeCRDs) := by
  unfold getAPIResources getCRDResources
  simp only [includeListLoop_eq, List.nil_append]
  by_cases h : cfg.IncludeCRDs.length > 0
  · simp only [h, if_true]
  · have hnil : cfg.IncludeCRDs = [] := by
      cases hc : cfg.IncludeCRDs with
      | nil => rfl
      | cons a l =>
        rw [hc] at h
        simp at h
    rw [hnil]
    simp [crdLoop]

/-- C26: `getCRDResources` returns a result, and the catalog that
`getAPIResources` returns is the descriptors of the first discovery answer
that pass `shouldIncludeResource`, in discovery order, followed by that
result unchanged: every descriptor of the result is in the catalog, whatever
the filter says of it, and one that is also among the descriptors that pass
the filter occurs at least twice. -/
theorem catalog_is_concatenation (equalFold : String → String → Bool)
    (discover : Nat → DiscoveryAnswer) (cfg : BackupConfig) :
    (∃ crd, getCRDResources discover 1 cfg = Except.ok crd) ∧
    ∀ crd, getCRDResources discover 1 cfg = Except.ok crd →
      getAPIResources equalFold discover cfg =
        Except.ok (includedResources equalFold cfg (discover 0).lists ++ crd) ∧
      (∀ d, d ∈ crd → d ∈ includedResources equalFold cfg (discover 0).lists ++ crd) ∧
      (∀ d, d ∈ crd → d ∈ includedResources equalFold cfg (discover 0).lists →
        2 ≤ (includedResources equalFold cfg (discover 0).lists ++ crd).count d) := by
  refine ⟨⟨_, rfl⟩, ?_⟩
  intro crd hcrd
  have hc : crd = crdLoop discover 1 [] cfg.IncludeCRDs := by
    unfold getCRDResources at hcrd
    injection hcrd with h
    exact h.symm
  refine ⟨?_, ?_, ?_⟩
  · rw [getAPIResources_eq, hc]
  · intro d hd
    exact List.mem_append.2 (Or.inr hd)
  · intro d hd hin
    rw [List.count_append]
    have h1 : 0 < (includedResources equalFold cfg (discover 0).lists).count d :=
      List.count_pos_iff.2 hin
    have h2 : 0 < crd.count d := List.count_pos_iff.2 hd
    omega

theorem catalog_is_concatenation_witness :
    getCRDResources steadyDiscovery 1 crdConfig =
      Except.ok [routesResource, deploymentsResource] ∧
    shouldIncludeResource equalFoldASCII crdConfig routesResource "route.openshift.io/v1" = false ∧
    getAPIResources equalFoldASCII steadyDiscovery crdConfig =
      Except.ok (includedResources equalFoldASCII crdConfig (steadyDiscovery 0).lists ++
        [routesResource, deploymentsResource]) ∧
    routesResource ∈ includedResources equalFoldASCII crdConfig (steadyDiscovery 0).lists ++
        [routesResource, deploymentsResource] ∧
    2 ≤ (includedResources equalFoldASCII crdConfig (steadyDiscovery 0).lists ++
        [routesResource, deploymentsResource]).count deploymentsResource :=
  ⟨rfl, by decide,
    ((catalog_is_concatenation equalFoldASCII steadyDiscovery crdConfig).2
      [routesResource, deploymentsResource] rfl).1,
    ((catalog_is_concatenation equalFoldASCII steadyDiscovery crdConfig).2
      [routesResource, deploymentsResource] rfl).2.1 routesResource (by decide),
    ((catalog_is_concatenation equalFoldASCII steadyDiscovery crdConfig).2
      [routesResource, deploymentsResource] rfl).2.2 deploymentsResource (by decide) (by decide)⟩


/-! ## The namespace loop of the run -/

/-- C27: `backupNamespace` returns a nil error whatever the namespace, the
catalog, the cluster and the store do, and `getAPIResources` always returns
a catalog. So when the bucket exists and the namespaces are selected
without error, `Run` returns without error after a namespace loop in which
the error branch was never taken, the outcome of every selected namespace is
recorded in order, and the total is the sum of the counts of all of them;
and the loop is reached in no other case. -/
theorem namespace_error_always_nil (equalFold : String → String → Bool)
    (bucketExists : Except String Bool) (discover : Nat → DiscoveryAnswer)
    (nsListing : Except String (List String))
    (list : ListCall → Except String (List Unstructured))
    (marshal : List (String × Value) → Except String String)
    (putObject : PutObjectCall → Option String) (cfg : BackupConfig) (config : Config) :
    (∀ ns apiResources,
      (backupNamespace list marshal putObject cfg config ns apiResources).err = none) ∧
    (∃ apiResources, getAPIResources equalFold discover cfg = Except.ok apiResources) ∧
    (∀ namespaces apiResources,
      bucketExists = Except.ok true →
      getAPIResources equalFold discover cfg = Except.ok apiResources →
      (getNamespacesToBackup cfg nsListing).result = Except.ok namespaces →
      Run equalFold bucketExists discover nsListing list marshal putObject cfg config =
        { err := none
          loop := some
            { totalResources := (namespaces.map (fun ns =>
                (backupNamespace list marshal putObject cfg config ns apiResources).count)).sum
              namespaceErrors := 0
              namespaces := namespaces.map (fun ns =>
                backupNamespace list marshal putObject cfg config ns apiResources) } }) ∧
    (∀ st, (Run equalFold bucketExists discover nsListing list marshal putObject cfg
        config).loop = some st →
      bucketExists = Except.ok true ∧
      (∃ namespaces, (getNamespacesToBackup cfg nsListing).result = Except.ok namespaces) ∧
      st.namespaceErrors = 0) := by
  refine ⟨?_, ⟨_, getAPIResources_eq equalFold discover cfg⟩, ?_, ?_⟩
  · intro ns apiResources
    exact backupNamespace_err list marshal putObject cfg config ns apiResources
  · intro namespaces apiResources hbucket hcat hns
    unfold Run
    simp only [hbucket, hcat, hns]
    rw [namespacesLoop_eq]
    simp [List.map_map, Function.comp_def]
  · intro st hst
    unfold Run at hst
    rw [getAPIResources_eq] at hst
    cases hb : bucketExists with
    | error err =>
      rw [hb] at hst
      simp at hst
    | ok exists_ =>
      cases exists_ with
      | false =>
        rw [hb] at hst
        simp at hst
      | true =>
        rw [hb] at hst
        cases hns : (getNamespacesToBackup cfg nsListing).result with
        | error err =>
          simp only [hns] at hst
          simp at hst
        | ok namespaces =>
          simp only [hns] at hst
          rw [namespacesLoop_eq] at hst
          injection hst with hst
          refine ⟨rfl, ⟨namespaces, rfl⟩, ?_⟩
          rw [← hst]

/-- Witness for C27: a run over the listed namespaces `shop`, `kube-system`
and `lab`, of which the second is excluded. In `shop` one pass is aborted
and one cannot list; in `lab` one cannot list. Both namespaces return a nil
error, the error branch is not taken, and the total is 1 + 4. -/
theorem namespace_error_always_nil_witness :
    Run equalFoldASCII (Except.ok true) shopDiscovery
        (Except.ok ["shop", "kube-system", "lab"]) sampleCluster pickyMarshal pickyStore
        followOwnersConfig eastConfig =
      { err := none
        loop := some
          { totalResources := (["shop", "lab"].map (fun ns =>
              (backupNamespace sampleCluster pickyMarshal pickyStore followOwnersConfig eastConfig
                ns sampleCatalog).count)).sum
            namespaceErrors := 0
            namespaces := ["shop", "lab"].map (fun ns =>
              backupNamespace sampleCluster pickyMarshal pickyStore followOwnersConfig eastConfig
                ns sampleCatalog) } } ∧
    ["shop", "lab"].map (fun ns =>
      (backupNamespace sampleCluster pickyMarshal pickyStore followOwnersConfig eastConfig
        ns sampleCatalog).count) = [1, 4] ∧
    ["shop", "lab"].map (fun ns =>
      (backupNamespace sampleCluster pickyMarshal pickyStore followOwnersConfig eastConfig
        ns sampleCatalog).resourceErrors) = [2, 1] :=
  ⟨(namespace_error_always_nil equalFoldASCII (Except.ok true) shopDiscovery
      (Except.ok ["shop", "kube-system", "lab"]) sampleCluster pickyMarshal pickyStore
      followOwnersConfig eastConfig).2.2.1 ["shop", "lab"] sampleCatalog rfl rfl rfl,
    by decide, by decide⟩


/-! ## The store after two passes of one short name -/

theorem objectPath_name_injective (c n t name other : String)
    (h : objectPath c n t name = objectPath c n t other) : name = other := by
  have hd := congrArg String.data h
  rw [objectPath_data, objectPath_data] at hd
  have h1 := List.append_cancel_left hd
  injection h1 with _ h2
  have h3 := List.append_cancel_left h2
  injection h3 with _ h4
  have h5 := List.append_cancel_left h4
  injection h5 with _ h6
  have h7 := List.append_cancel_left h6
  injection h7 with _ h8
  have h9 := List.append_cancel_right h8
  exact String.ext h9

theorem uploadResource_of_yaml (marshal : List (String × Value) → Except String String)
    (putObject : PutObjectCall → Option String) (config : Config)
    (ns resourceType name yamlData : String) (resource : List (String × Value))
    (hyaml : marshal resource = Except.ok yamlData) :
    uploadResource marshal putObject config ns resourceType name resource =
      { err := putObject (uploadCall config ns resourceType name yamlData)
        calls := [uploadCall config ns resourceType name yamlData] } := by
  unfold uploadResource uploadCall
  simp only [hyaml]

theorem validationError_of_yaml (marshal : List (String × Value) → Except String String)
    (cfg : BackupConfig) (cleaned : List (String × Value)) (yamlData : String)
    (hyaml : marshal cleaned = Except.ok yamlData) :
    validationError marshal cfg cleaned = none := by
  unfold validationError validateResource
  simp only [hyaml]
  split_ifs <;> rfl

theorem backupLoop_calls_extend (marshal : List (String × Value) → Except String String)
    (putObject : PutObjectCall → Option String) (cfg : BackupConfig) (config : Config)
    (ns resourceType : String) (st : PassState) (items : List Unstructured) :
    ∃ extra, (backupLoop marshal putObject cfg config ns resourceType st items).calls =
        st.calls ++ extra ∧
      ∀ call ∈ extra, ∃ item ∈ items,
        call.objectPath = objectPath config.ClusterName ns resourceType item.name := by
  induction items generalizing st with
  | nil =>
    rw [backupLoop_nil]
    exact ⟨[], by simp, by simp⟩
  | cons item more ih =>
    have lift : ∀ (st' : PassState) (mine : List PutObjectCall),
        st'.calls = st.calls ++ mine →
        (∀ c ∈ mine, c.objectPath = objectPath config.ClusterName ns resourceType item.name) →
        ∃ extra, (backupLoop marshal putObject cfg config ns resourceType st' more).calls =
            st.calls ++ extra ∧
          ∀ call ∈ extra, ∃ it ∈ item :: more,
            call.objectPath = objectPath config.ClusterName ns resourceType it.name := by
      intro st' mine hst' hmine
      obtain ⟨extra, hcalls, hextra⟩ := ih st'
      refine ⟨mine ++ extra, ?_, ?_⟩
      · rw [hcalls, hst', List.append_assoc]
      · intro call hcall
        rcases List.mem_append.1 hcall with h | h
        · exact ⟨item, List.mem_cons_self _ _, hmine call h⟩
        · obtain ⟨it, hit, hp⟩ := hextra call h
          exact ⟨it, List.mem_cons_of_mem _ hit, hp⟩
    rcases backupLoop_cases marshal putObject cfg config ns resourceType item with
      h | ⟨hk, ⟨e, hv, hp⟩ | ⟨e, hv, hp⟩ | ⟨hv, e, hu⟩ | ⟨hv, hu⟩⟩
    · rw [backupLoop_skip _ _ _ _ _ _ _ _ _ h]
      exact lift { st with skipped := st.skipped + 1 } [] (by simp) (by simp)
    · rw [backupLoop_invalid_skip _ _ _ _ _ _ _ _ _ e hk hv hp]
      exact lift { st with invalid := st.invalid + 1 } [] (by simp) (by simp)
    · rw [backupLoop_invalid_stop _ _ _ _ _ _ _ _ _ e hk hv hp]
      exact ⟨[], by simp, by simp⟩
    · rw [backupLoop_upload_fail _ _ _ _ _ _ _ _ _ e hk hv hu]
      refine ⟨_, rfl, ?_⟩
      intro call hcall
      exact ⟨item, List.mem_cons_self _ _, uploadResource_call_path marshal putObject config ns
        resourceType item.name (cleanResource cfg item) call hcall⟩
    · rw [backupLoop_upload_ok _ _ _ _ _ _ _ _ _ hk hv hu]
      exact lift _ _ rfl (uploadResource_call_path marshal putObject config ns
        resourceType item.name (cleanResource cfg item))

theorem storeAfter_append (putObject : PutObjectCall → Option String)
    (store : List (String × String)) (first second : List PutObjectCall) :
    storeAfter putObject store (first ++ second) =
      storeAfter putObject (storeAfter putObject store first) second := by
  unfold storeAfter
  rw [List.foldl_append]

theorem storeAfter_frame (putObject : PutObjectCall → Option String)
    (store : List (String × String)) (calls : List PutObjectCall) (key : String)
    (hother : ∀ call ∈ calls, call.objectPath ≠ key) :
    getKey (storeAfter putObject store calls) key = getKey store key := by
  induction calls generalizing store with
  | nil => rfl
  | cons call rest ih =>
    have hrest : ∀ c ∈ rest, c.objectPath ≠ key :=
      fun c hc => hother c (List.mem_cons_of_mem _ hc)
    have hcall : key ≠ call.objectPath := fun e => hother call (List.mem_cons_self _ _) e.symm
    unfold storeAfter at ih ⊢
    rw [List.foldl_cons, ih _ hrest]
    split_ifs
    · rw [getKey_putKey, if_neg hcall]
    · rfl

theorem storeAfter_written (putObject : PutObjectCall → Option String)
    (store : List (String × String)) (earlier later : List PutObjectCall) (call : PutObjectCall)
    (haccept : putObject call = none)
    (hother : ∀ c ∈ later, c.objectPath ≠ call.objectPath) :
    getKey (storeAfter putObject store (earlier ++ call :: later)) call.objectPath =
      some call.data := by
  rw [storeAfter_append]
  have hcons : storeAfter putObject (storeAfter putObject store earlier) (call :: later) =
      storeAfter putObject
        (putKey (storeAfter putObject store earlier) call.objectPath call.data) later := by
    unfold storeAfter
    rw [List.foldl_cons]
    simp only [haccept, Option.isNone_none, if_true]
  rw [hcons, storeAfter_frame putObject _ later call.objectPath hother, getKey_putKey, if_pos rfl]

/-- The calls of a pass that uploads the instance `item` after the
instances `before`: those made before it, its own call, and calls for later
instances. -/
theorem backupLoop_writes_instance (marshal : List (String × Value) → Except String String)
    (putObject : PutObjectCall → Option String) (cfg : BackupConfig) (config : Config)
    (ns resourceType : String) (before after : List Unstructured) (item : Unstructured)
    (yamlData : String)
    (hreach : (backupLoop marshal putObject cfg config ns resourceType freshPass before).err =
      none)
    (hkeep : shouldSkipResource cfg item = false)
    (hyaml : marshal (cleanResource cfg item) = Except.ok yamlData)
    (haccept : putObject (uploadCall config ns resourceType item.name yamlData) = none) :
    ∃ earlier later,
      (backupLoop marshal putObject cfg config ns resourceType freshPass
        (before ++ item :: after)).calls =
        earlier ++ uploadCall config ns resourceType item.name yamlData :: later ∧
      ∀ call ∈ later, ∃ other ∈ after,
        call.objectPath = objectPath config.ClusterName ns resourceType other.name := by
  have hup := uploadResource_of_yaml marshal putObject config ns resourceType item.name yamlData
    (cleanResource cfg item) hyaml
  have hvalid := validationError_of_yaml marshal cfg (cleanResource cfg item) yamlData hyaml
  have hok : (uploadResource marshal putObject config ns resourceType item.name
      (cleanResource cfg item)).err = none := by
    rw [hup]
    exact haccept
  rw [backupLoop_append marshal putObject cfg config ns resourceType freshPass before _ hreach,
    backupLoop_upload_ok _ _ _ _ _ _ _ _ _ hkeep hvalid hok, hup]
  obtain ⟨extra, hcalls, hextra⟩ := backupLoop_calls_extend marshal putObject cfg config ns
    resourceType
    { resumeFrom (backupLoop marshal putObject cfg config ns resourceType freshPass before) with
      count := (resumeFrom (backupLoop marshal putObject cfg config ns resourceType freshPass
        before)).count + 1
      calls := (resumeFrom (backupLoop marshal putObject cfg config ns resourceType freshPass
        before)).calls ++ [uploadCall config ns resourceType item.name yamlData] } after
  refine ⟨(resumeFrom (backupLoop marshal putObject cfg config ns resourceType freshPass
    before)).calls, extra, ?_, hextra⟩
  rw [hcalls]
  simp

/-- The store after a pass that uploads `item`, when no later instance of
the listing has its name: the key of `item` holds its serialized text. -/
theorem backupLoop_store (marshal : List (String × Value) → Except String String)
    (putObject : PutObjectCall → Option String) (cfg : BackupConfig) (config : Config)
    (ns resourceType : String) (before after : List Unstructured) (item : Unstructured)
    (yamlData : String)
    (hreach : (backupLoop marshal putObject cfg config ns resourceType freshPass before).err =
      none)
    (hkeep : shouldSkipResource cfg item = false)
    (hyaml : marshal (cleanResource cfg item) = Except.ok yamlData)
    (haccept : putObject (uploadCall config ns resourceType item.name yamlData) = none)
    (hlast : ∀ other ∈ after, other.name ≠ item.name) (store : List (String × String)) :
    uploadCall config ns resourceType item.name yamlData ∈
      (backupLoop marshal putObject cfg config ns resourceType freshPass
        (before ++ item :: after)).calls ∧
    getKey (storeAfter putObject store
      (backupLoop marshal putObject cfg config ns resourceType freshPass
        (before ++ item :: after)).calls)
      (objectPath config.ClusterName ns resourceType item.name) = some yamlData := by
  obtain ⟨earlier, later, hcalls, hlater⟩ := backupLoop_writes_instance marshal putObject cfg
    config ns resourceType before after item yamlData hreach hkeep hyaml haccept
  rw [hcalls]
  constructor
  · simp
  · have hother : ∀ c ∈ later,
        c.objectPath ≠ (uploadCall config ns resourceType item.name yamlData).objectPath := by
      intro c hc heq
      obtain ⟨other, hmem, hp⟩ := hlater c hc
      rw [hp] at heq
      exact hlast other hmem (objectPath_name_injective _ _ _ _ _ heq)
    exact storeAfter_written putObject store earlier later
      (uploadCall config ns resourceType item.name yamlData) haccept hother

/-- C30: two catalog descriptors with the same short name, and an instance
of each that the passes of `backupNamespace` upload, the two instances
having the same name. Both uploads are `PutObject` calls under one object
key, the one built from the cluster name, the namespace, the short name and
the instance name; group and version do not enter. The key holds the text
of the first instance after the first pass and the text of the second
instance after both passes: the later upload has replaced the earlier. -/
theorem same_short_name_same_key (list : ListCall → Except String (List Unstructured))
    (marshal : List (String × Value) → Except String String)
    (putObject : PutObjectCall → Option String) (cfg : BackupConfig) (config : Config)
    (ns : String) (first second : APIResource)
    (before1 after1 before2 after2 : List Unstructured) (u v : Unstructured)
    (yamlU yamlV : String)
    (hname : first.Name = second.Name)
    (hlist1 : list (listCallOf cfg ns (gvrOf first) first) = Except.ok (before1 ++ u :: after1))
    (hlist2 : list (listCallOf cfg ns (gvrOf second) second) =
      Except.ok (before2 ++ v :: after2))
    (hreach1 : (backupLoop marshal putObject cfg config ns first.Name freshPass before1).err =
      none)
    (hreach2 : (backupLoop marshal putObject cfg config ns second.Name freshPass before2).err =
      none)
    (hsame : u.name = v.name)
    (hkeepU : shouldSkipResource cfg u = false)
    (hkeepV : shouldSkipResource cfg v = false)
    (hyamlU : marshal (cleanResource cfg u) = Except.ok yamlU)
    (hyamlV : marshal (cleanResource cfg v) = Except.ok yamlV)
    (hacceptU : putObject (uploadCall config ns first.Name u.name yamlU) = none)
    (hacceptV : putObject (uploadCall config ns second.Name v.name yamlV) = none)
    (hlast1 : ∀ other ∈ after1, other.name ≠ u.name)
    (hlast2 : ∀ other ∈ after2, other.name ≠ v.name) :
    (uploadCall config ns first.Name u.name yamlU).objectPath =
      (uploadCall config ns second.Name v.name yamlV).objectPath ∧
    uploadCall config ns first.Name u.name yamlU ∈
      (backupResource list marshal putObject cfg config ns (gvrOf first) first).calls ∧
    uploadCall config ns second.Name v.name yamlV ∈
      (backupResource list marshal putObject cfg config ns (gvrOf second) second).calls ∧
    ∀ store : List (String × String),
      getKey (storeAfter putObject store
        (backupResource list marshal putObject cfg config ns (gvrOf first) first).calls)
        (objectPath config.ClusterName ns first.Name u.name) = some yamlU ∧
      getKey (storeAfter putObject store
        ((backupNamespace list marshal putObject cfg config ns [first, second]).passes.flatMap
          PassOutcome.calls))
        (objectPath config.ClusterName ns first.Name u.name) = some yamlV := by
  have hpass1 := backupResource_of_listing list marshal putObject cfg config ns (gvrOf first)
    first _ hlist1
  have hpass2 := backupResource_of_listing list marshal putObject cfg config ns (gvrOf second)
    second _ hlist2
  rw [gvrOf_resource] at hpass1 hpass2
  have hfirst := backupLoop_store marshal putObject cfg config ns first.Name before1 after1 u
    yamlU hreach1 hkeepU hyamlU hacceptU hlast1
  have hsecond := backupLoop_store marshal putObject cfg config ns second.Name before2 after2 v
    yamlV hreach2 hkeepV hyamlV hacceptV hlast2
  have hpasses : (backupNamespace list marshal putObject cfg config ns [first, second]).passes =
      [backupResource list marshal putObject cfg config ns (gvrOf first) first,
       backupResource list marshal putObject cfg config ns (gvrOf second) second] := by
    unfold backupNamespace
    rw [resourceTypeLoop_eq]
    rfl
  refine ⟨?_, ?_, ?_, ?_⟩
  · unfold uploadCall
    simp only
    rw [hname, hsame]
  · rw [hpass1]
    exact (hfirst []).1
  · rw [hpass2]
    exact (hsecond []).1
  · intro store
    constructor
    · rw [hpass1]
      exact (hfirst store).2
    · rw [hpasses]
      simp only [List.flatMap_cons, List.flatMap_nil, List.append_nil]
      rw [storeAfter_append, hpass2, hname, hsame]
      exact (hsecond _).2

/-- Witness for C30: the descriptors `ingresses` of `extensions/v1beta1`
and of `networking.k8s.io/v1` are listed by different calls, and both serve
an ingress `web` in the namespace `shop`. Both passes write it under
`clusterbackup/production-east/shop/ingresses/web.yaml`; after both passes
that key holds the text of the second pass. -/
theorem same_short_name_same_key_witness :
    gvrOf ingressesOld ≠ gvrOf ingressesNew ∧
    objectPath eastConfig.ClusterName "shop" ingressesOld.Name "web" =
      "clusterbackup/production-east/shop/ingresses/web.yaml" ∧
    storeAfter acceptingStore []
      ((backupNamespace ingressCluster versionMarshal acceptingStore followOwnersConfig
        eastConfig "shop" [ingressesOld, ingressesNew]).passes.flatMap PassOutcome.calls) =
      [("clusterbackup/production-east/shop/ingresses/web.yaml",
          "apiVersion: networking.k8s.io/v1"),
       ("clusterbackup/production-east/shop/ingresses/api.yaml",
          "apiVersion: networking.k8s.io/v1"),
       ("clusterbackup/production-east/shop/ingresses/docs.yaml",
          "apiVersion: networking.k8s.io/v1")] ∧
    (getKey (storeAfter acceptingStore []
        (backupResource ingressCluster versionMarshal acceptingStore followOwnersConfig
          eastConfig "shop" (gvrOf ingressesOld) ingressesOld).calls)
        (objectPath eastConfig.ClusterName "shop" ingressesOld.Name "web") =
        some "apiVersion: extensions/v1beta1" ∧
      getKey (storeAfter acceptingStore []
        ((backupNamespace ingressCluster versionMarshal acceptingStore followOwnersConfig
          eastConfig "shop" [ingressesOld, ingressesNew]).passes.flatMap PassOutcome.calls))
        (objectPath eastConfig.ClusterName "shop" ingressesOld.Name "web") =
        some "apiVersion: networking.k8s.io/v1") :=
  ⟨by decide, by decide, by decide,
    (same_short_name_same_key ingressCluster versionMarshal acceptingStore followOwnersConfig
      eastConfig "shop" ingressesOld ingressesNew
      [] [] [ingressInstance "networking.k8s.io/v1" "api"]
      [ingressInstance "networking.k8s.io/v1" "docs"]
      (ingressInstance "extensions/v1beta1" "web") (ingressInstance "networking.k8s.io/v1" "web")
      "apiVersion: extensions/v1beta1" "apiVersion: networking.k8s.io/v1"
      rfl rfl rfl rfl rfl rfl rfl rfl rfl rfl rfl rfl
      (by simp) (by decide)).2.2.2 []⟩

end Kubeckup
